import Mathlib

/-!
# gotolive/vod: the HLS segment-production engine of a Stream

A shallow embedding of `stream.go` and `chunk.go`, and of the functions of
`context.go`, `ffmpeg.go`, `hwaccel.go` and `service.go` that create, configure and
close a context and its streams.

Modelling conventions.

* Go `int` is the 64-bit two's complement integer, embedded as an `Int` of that
  range.  The sums of `checkGoal` and `restartAtChunk` and the products, the
  quotient and the increments of `adjustSpec` wrap around (`wrap64`); `/` and `%`
  on `int` are `Int.tdiv` and `Int.tmod`.  The window of a near miss and the
  bound of the eviction pass are taken on exact integers.
* `float64` arithmetic is embedded as such (`Float64`: round to nearest, ties to
  even, 53 bits; finite values) in `adjustSpec`, in the seek position and in the
  loop of `generateChunks` (`generateChunksLoop64`), which `generateChunks`,
  `ChunkLength` and `contentHLS` run on the probed duration.  The duration of a
  record of the plan is kept as the exact value of its `float64`.  The conversion
  `int(x)` of a `float64` outside the range of `int` is left to the implementation
  by the language; `adjustSpec` takes the result of amd64 (`Float64.toInt64`).
* A nil slice and an empty slice that is not nil are told apart where the program
  does so (`ContextConfig.StreamSpecAllocated`, read by `mergeConfig`).
* Go strings are lists of characters where they are searched or split;
  `bytes.Index`, `filepath.Base`, `filepath.Join`, `strings.Split`,
  `strconv.Atoi` and the verbs of `fmt.Sprintf` are embedded for
  slash-separated paths and ASCII markers.
* Go pointers `*tsChunk` are addresses into `Stream.heap`: the map `chunks`
  sends a segment id to the address of its record, so that a reader that holds
  a record can still be talked about once the engine has dropped it from the map.
* `done chan bool` is observed only through `close(done)` and `<-done`; the
  field `done` of a record says whether the channel has been closed.
* External actions (signals, process start, file removal) are appended to
  `Stream.trace` in program order.  Iteration over a Go map has no specified
  order; the embedding iterates in list order.  Suspend and resume signals are
  taken to reach the process (the program only logs their errors), and
  `Cmd.suspended` records the last one sent.
* What the operating system answers to a launch is an input (`Spawn`); the argv
  is represented by the start index it is built from.
* The Go struct `Context` appears twice: `Context` is what a stream reads through
  its back pointer, `ContextState` is the context as the owner of its streams,
  with the flags of its callback and of its channel `closed` and the trace of its
  actions on the file system.  A tick of the goroutine `checkAlive` is one step.
* Every method body runs as one step (no interleaving of goroutines).  A call
  that ends in `<-c.done` returns `Served.wait c`: the state right before the
  receive, and the record the caller waits on.
-/

namespace Vod

/-! ## Data model -/

/-- Output format constant `FormatMP4` of service.go. -/
def FormatMP4 : String := "mp4"

/-- Output format constant `FormatHLS` of service.go. -/
def FormatHLS : String := "hls"

/-- Output format constant `FormatTS` of service.go. -/
def FormatTS : String := "ts"

/-- A finite `float64` value `m * 2^e`, kept with `m` odd, or with `m = 0` and `e = 0`.
Infinities, NaN and subnormal numbers are outside the model. -/
structure Float64 where
  m : Int := 0
  e : Int := 0
  deriving DecidableEq, Repr

/-- Struct `StreamSpec` of context.go. -/
structure StreamSpec where
  Name : String := ""
  Width : Int := 0
  Height : Int := 0
  Force : Bool := false
  Bitrate : Int := 0
  Scale : Float64 := {}
  deriving DecidableEq, Repr

/-- The fields of `ContextConfig` read by the model.  `ListGenerator` and `TSGenerator`
say whether the callback is set (non-nil); the callback itself is an argument of the
function that calls it.  The slice `StreamSpec` is its list of elements together with
`StreamSpecAllocated`, which tells the empty slice that is not nil (`[]StreamSpec{}`)
from the nil slice: the slice is nil when the list is empty and the flag is unset. -/
structure ContextConfig where
  Format : String := ""
  ChunkDuration : Int := 0
  MaxBuffer : Int := 0
  MinBuffer : Int := 0
  StreamSpec : List StreamSpec := []
  SupportVideoCodec : List String := []
  SupportAudioCodec : List String := []
  ListGenerator : Bool := false
  TSGenerator : Bool := false
  IdleTimeout : Int := 0
  HWAccel : Int := 0
  TmpPath : String := ""
  FFMpegPath : String := ""
  FFProbePath : String := ""
  StreamSpecAllocated : Bool := false
  deriving DecidableEq, Repr

/-- The fields of `ProbeInfo` read by the model. -/
structure ProbeInfo where
  Duration : Float64 := {}
  VideoBitrate : Int := 0
  Width : Int := 0
  Height : Int := 0
  AudioCodec : String := ""
  VideoCodec : String := ""
  Format : String := ""
  deriving DecidableEq, Repr

/-- The fields of `Context` reachable from a stream through its back pointer. -/
structure Context where
  id : String := ""
  contextConfig : ContextConfig := {}
  path : String := ""
  lastAccess : Int := 0
  deriving DecidableEq, Repr

/-- Record `tsChunk` of chunk.go.  `done` is true once `close(done)` has run;
`f` is true while an open file handle is held. -/
structure tsChunk where
  id : Int
  duration : Rat := 0
  done : Bool := false
  f : Bool := false
  path : String := ""
  deriving DecidableEq, Repr

/-- A started transcoder process (`*exec.Cmd` after `Start`): its pid, the
segment index its argv was built for, and whether it is stopped by a suspend signal. -/
structure Cmd where
  pid : Nat
  index : Int
  suspended : Bool := false
  deriving DecidableEq, Repr

/-- External actions performed by the engine. -/
inductive Effect where
  | closeFile (c : Nat)
  | remove (path : String)
  | kill (pid : Nat)
  | start (pid : Nat) (index : Int)
  | suspend (pid : Nat)
  | resume (pid : Nat)
  deriving DecidableEq, Repr

/-- Errors returned by the engine's entry points. -/
inductive Err where
  | ErrInvalidFormat
  | ErrNoChunkID
  | ErrEmptyConfig
  | ErrFFMpegPath
  | ErrFormat
  | ErrListGenerator
  | ErrTSGenerator
  | ErrChunkDuration
  | ErrMaxBuffer
  | ErrMinBuffer
  | ErrTmpPath
  | ErrStreamSpec
  | ErrIdleTimeout
  | stderrPipe
  | stdoutPipe
  | start
  | openFile
  | mkdirAll
  deriving DecidableEq, Repr

/-- Run-time panics of the Go program. -/
inductive Panic where
  | closeOfClosedChannel
  | nilDereference
  | divideByZero
  | sliceOutOfRange
  | indexOutOfRange
  deriving DecidableEq, Repr

/-- What the operating system answers when a transcoder is launched. -/
inductive Spawn where
  | ok
  | stderrPipeFails
  | stdoutPipeFails
  | startFails
  deriving DecidableEq, Repr

/-- Result of a serving call: either the caller blocks on `<-c.done` of the
record at address `c` and then gets that record, or an error is returned. -/
inductive Served where
  | wait (c : Nat)
  | fail (e : Err)
  deriving DecidableEq, Repr

/-- Struct `Stream` of stream.go (the engine part), with the record heap and the
trace of external actions. -/
structure Stream where
  spec : StreamSpec := {}
  context : Context := {}
  format : String := ""
  probe : ProbeInfo := {}
  bitrate : Int := 0
  width : Int := 0
  height : Int := 0
  heap : List tsChunk := []
  chunks : List (Int × Nat) := []
  goal : Int := 0
  cmd : Option Cmd := none
  nextPid : Nat := 0
  trace : List Effect := []
  deriving DecidableEq, Repr

/-! ## Go `int` -/

/-- The Go `int` (64 bits, two's complement) that an exact integer result `x` becomes:
sums, products and increments wrap around. -/
def wrap64 (x : Int) : Int := (x + 2 ^ 63) % 2 ^ 64 - 2 ^ 63

/-! ## The map `chunks` -/

/-- Map read `m[k]` (with the `ok` flag as `Option`). -/
def mapGet (m : List (Int × Nat)) (k : Int) : Option Nat :=
  (m.find? (fun e => decide (e.1 = k))).map (fun e => e.2)

/-- Map removal `delete(m, k)`. -/
def mapDelete (m : List (Int × Nat)) (k : Int) : List (Int × Nat) :=
  m.filter (fun e => !decide (e.1 = k))

/-- Map write `m[k] = v`. -/
def mapSet (m : List (Int × Nat)) (k : Int) (v : Nat) : List (Int × Nat) :=
  mapDelete m k ++ [(k, v)]

/-- The ids resident in the map. -/
def resident (s : Stream) : List Int := s.chunks.map (fun e => e.1)

/-- The record stored at address `c`, if any. -/
def Stream.record (s : Stream) (c : Nat) : Option tsChunk := s.heap[c]?

/-! ## chunk.go -/

/-- Method `tsChunk.Close`: drops the file handle (`f.Close()` on a nil handle
only returns an error). -/
def tsChunk.Close (c : tsChunk) : tsChunk := { c with f := false }

/-- Method `tsChunk.destroy` applied to the record at address `c`: closes its file
handle, removes its file.  The channel `done` is not touched. -/
def destroy (s : Stream) (c : Nat) : Stream :=
  match s.heap[c]? with
  | none => s
  | some r =>
    { s with
      heap := s.heap.set c r.Close
      trace := s.trace ++ (if r.f then [Effect.closeFile c] else []) ++ [Effect.remove r.path] }

/-- The loop `for _, c := range chunks { c.destroy() }` over map entries. -/
def destroyAll (s : Stream) (l : List (Int × Nat)) : Stream :=
  l.foldl (fun st e => destroy st e.2) s

/-! ## stream.go -/

/-- Constructor `newStream`. -/
def newStream (spec : StreamSpec) (context : Context) (info : ProbeInfo) : Stream :=
  { spec := spec, probe := info, context := context, format := context.contextConfig.Format,
    chunks := [] }

/-- Method `Context.access`, seen from the stream: stamps `lastAccess`. -/
def access (s : Stream) (now : Int) : Stream :=
  { s with context := { s.context with lastAccess := now } }

/-- Method `Stream.checkGoal`. -/
def checkGoal (s : Stream) (index : Int) : Stream :=
  let goal := wrap64 (index + s.context.contextConfig.MinBuffer)
  let s1 :=
    if goal > s.goal then { s with goal := wrap64 (index + s.context.contextConfig.MaxBuffer) }
    else s
  match s1.cmd with
  | none => s1
  | some c =>
    { s1 with
      cmd := some { c with suspended := false }
      trace := s1.trace ++ [Effect.resume c.pid] }

/-- Method `Stream.stopProcess`. -/
def stopProcess (s : Stream) : Stream :=
  let chunks := s.chunks
  let s1 := { s with chunks := [] }
  let s2 := destroyAll s1 chunks
  match s2.cmd with
  | none => s2
  | some c => { s2 with cmd := none, trace := s2.trace ++ [Effect.kill c.pid] }

/-- Method `Stream.Close`. -/
def Stream.Close (s : Stream) : Stream := stopProcess s

/-- Method `Stream.waitForChunk`, up to the receive on `done`. -/
def waitForChunk (s : Stream) (index : Int) : Stream × Served :=
  match mapGet s.chunks index with
  | some c => (s, Served.wait c)
  | none =>
    let c := s.heap.length
    ({ s with heap := s.heap ++ [{ id := index }], chunks := mapSet s.chunks index c },
      Served.wait c)

/-- Method `Stream.restartAtChunk`. -/
def restartAtChunk (s : Stream) (index : Int) (sp : Spawn) : Stream × Served :=
  let s1 := stopProcess s
  let s2 := { s1 with goal := wrap64 (index + s1.context.contextConfig.MaxBuffer) }
  match sp with
  | Spawn.stderrPipeFails => (s2, Served.fail Err.stderrPipe)
  | Spawn.stdoutPipeFails => (s2, Served.fail Err.stdoutPipe)
  | Spawn.startFails =>
    ({ s2 with heap := s2.heap ++ [{ id := index }], chunks := mapSet s2.chunks index s2.heap.length },
      Served.fail Err.start)
  | Spawn.ok =>
    let s3 : Stream :=
      { s2 with heap := s2.heap ++ [{ id := index }], chunks := mapSet s2.chunks index s2.heap.length }
    let s4 : Stream :=
      { s3 with
        cmd := some { pid := s3.nextPid, index := index }
        nextPid := s3.nextPid + 1
        trace := s3.trace ++ [Effect.start s3.nextPid index] }
    waitForChunk s4 index

/-- The test of the near-miss loop of `serveChunk`: some `i` with
`index - 3 ≤ i < index` is in the map. -/
def nearMiss (s : Stream) (index : Int) : Bool :=
  [index - 3, index - 2, index - 1].any (fun i => (mapGet s.chunks i).isSome)

/-- Method `Stream.serveChunk`. -/
def serveChunk (s : Stream) (index : Int) (sp : Spawn) : Stream × Served :=
  let s1 := checkGoal s index
  match mapGet s1.chunks index with
  | some c => (s1, Served.wait c)
  | none =>
    if nearMiss s1 index then waitForChunk s1 index
    else restartAtChunk s1 index sp

/-- Method `Stream.Chunk` (called at time `now`). -/
def Stream.Chunk (s : Stream) (now : Int) (start : Int) (sp : Spawn) : Stream × Served :=
  let s0 := access s now
  if s0.format = FormatMP4 then (s0, Served.fail Err.ErrInvalidFormat)
  else if s0.format = FormatHLS then serveChunk s0 start sp
  else (s0, Served.fail Err.ErrInvalidFormat)

/-- The eviction pass at the end of an ingestion step of `monitorChunk`. -/
def evict (s : Stream) : Stream :=
  let low := s.goal - s.context.contextConfig.MaxBuffer
  let s1 := destroyAll s (s.chunks.filter (fun e => decide (e.1 < low)))
  { s1 with chunks := s.chunks.filter (fun e => !decide (e.1 < low)) }

/-- Marking of the record for `id` in an ingestion step: an existing record gets the
path and its channel is closed (closing a closed channel panics); otherwise a
record with the path and a closed channel is inserted. -/
def markReady (s : Stream) (id : Int) (segment : String) : Except Panic Stream :=
  match mapGet s.chunks id with
  | some c =>
    match s.heap[c]? with
    | none => Except.error Panic.nilDereference
    | some r =>
      if r.done then Except.error Panic.closeOfClosedChannel
      else Except.ok { s with heap := s.heap.set c { r with path := segment, done := true } }
  | none =>
    Except.ok
      { s with
        heap := s.heap ++ [{ id := id, path := segment, done := true }]
        chunks := mapSet s.chunks id s.heap.length }

/-- The suspension test of an ingestion step: `suspendProcess(s.cmd.Process.Pid)`
when `id >= s.goal`. -/
def suspendAtGoal (s : Stream) (id : Int) : Except Panic Stream :=
  if id ≥ s.goal then
    match s.cmd with
    | none => Except.error Panic.nilDereference
    | some c =>
      Except.ok
        { s with
          cmd := some { c with suspended := true }
          trace := s.trace ++ [Effect.suspend c.pid] }
  else Except.ok s

/-- One iteration of the loop of `monitorChunk`, for a line that resolved to
`(id, segment)`. -/
def monitorChunkEvent (s : Stream) (id : Int) (segment : String) : Except Panic Stream :=
  match markReady s id segment with
  | Except.error p => Except.error p
  | Except.ok s1 =>
    match suspendAtGoal s1 id with
    | Except.error p => Except.error p
    | Except.ok s2 => Except.ok (evict s2)

/-- The loop of `monitorChunk` over the resolved lines of the transcoder's stderr. -/
def monitorChunk (s : Stream) : List (Int × String) → Except Panic Stream
  | [] => Except.ok s
  | (id, segment) :: rest =>
    match monitorChunkEvent s id segment with
    | Except.error p => Except.error p
    | Except.ok s1 => monitorChunk s1 rest

/-! ## Traces of the engine -/

/-- A step of the engine: a `serveChunk` call or one ingested readiness event. -/
inductive Step where
  | serve (index : Int) (sp : Spawn)
  | ready (id : Int) (segment : String)
  deriving DecidableEq, Repr

/-- Effect of one step on the engine state. -/
def step (s : Stream) : Step → Except Panic Stream
  | Step.serve index sp => Except.ok (serveChunk s index sp).1
  | Step.ready id segment => monitorChunkEvent s id segment

/-- Effect of a sequence of steps. -/
def run (s : Stream) : List Step → Except Panic Stream
  | [] => Except.ok s
  | st :: rest =>
    match step s st with
    | Except.error p => Except.error p
    | Except.ok s1 => run s1 rest

/-- An HLS context with chunks of 10 seconds and the given buffer sizes. -/
def engineContext (maxBuffer minBuffer : Int) : Context :=
  { contextConfig := { Format := FormatHLS, ChunkDuration := 10,
                        MaxBuffer := maxBuffer, MinBuffer := minBuffer } }

/-- A probed source of 25 seconds (the `float64` 25 is `25 * 2^0`). -/
def engineInfo : ProbeInfo := { Duration := { m := 25, e := 0 } }

/-- A fresh HLS engine with the given buffer sizes (source of 25 seconds, chunks of 10). -/
def engine (maxBuffer minBuffer : Int) : Stream :=
  newStream {} (engineContext maxBuffer minBuffer) engineInfo

/-- An engine whose map holds fired records for the ids 10, 11 and 12, produced by a
live process that was started at 10. -/
def engineAt10 : Stream :=
  { engine 5 2 with
    heap := [{ id := 10, done := true, path := "/tmp/10.ts" },
             { id := 11, done := true, path := "/tmp/11.ts" },
             { id := 12, done := true, path := "/tmp/12.ts" }]
    chunks := [(10, 0), (11, 1), (12, 2)]
    goal := 15
    cmd := some { pid := 0, index := 10 }
    nextPid := 1
    trace := [Effect.start 0 10] }

/-- Requests and readiness events: index 0 is requested on a fresh engine, the
segments 0 to 4 are reported, then index 4 is requested. -/
def traceServe4 : List Step :=
  [Step.serve 0 Spawn.ok, Step.ready 0 "/tmp/0.ts", Step.ready 1 "/tmp/1.ts",
    Step.ready 2 "/tmp/2.ts", Step.ready 3 "/tmp/3.ts", Step.ready 4 "/tmp/4.ts",
    Step.serve 4 Spawn.ok]

/-- Requests and readiness events: index 0 is requested on a fresh engine and the
segments 0 to 5 are reported (the last one suspends the process). -/
def traceSuspended : List Step :=
  [Step.serve 0 Spawn.ok, Step.ready 0 "/tmp/0.ts", Step.ready 1 "/tmp/1.ts",
    Step.ready 2 "/tmp/2.ts", Step.ready 3 "/tmp/3.ts", Step.ready 4 "/tmp/4.ts",
    Step.ready 5 "/tmp/5.ts"]

/-- Requests that leave a pending record behind the window: index 0 is requested and
reported, index 3 and then index 6 are requested (each a near-miss that inserts a
pending record, the second raising the goal to 11), then segment 1 is reported. -/
def tracePendingEvicted : List Step :=
  [Step.serve 0 Spawn.ok, Step.ready 0 "/tmp/0.ts", Step.serve 3 Spawn.ok,
    Step.serve 6 Spawn.ok, Step.ready 1 "/tmp/1.ts"]

/-- Requests 0, 1 and 2 served one after the other, each segment being reported
after its request. -/
def traceServed012 : List Step :=
  [Step.serve 0 Spawn.ok, Step.ready 0 "/tmp/0.ts", Step.serve 1 Spawn.ok,
    Step.ready 1 "/tmp/1.ts", Step.serve 2 Spawn.ok, Step.ready 2 "/tmp/2.ts"]

/-- The effects appended to the trace between the states `s` and `t`. -/
def newEffects (s t : Stream) : List Effect := t.trace.drop s.trace.length

/-- The readiness events for the segments 0 to 4. -/
def events0to4 : List (Int × String) :=
  [(0, "/tmp/0.ts"), (1, "/tmp/1.ts"), (2, "/tmp/2.ts"), (3, "/tmp/3.ts"), (4, "/tmp/4.ts")]

/-- The segment plan in the words of the specification: `n` records with the ids
`id, id + 1, ...`, each of duration `C` except the last, of duration `D - C * (n - 1)`. -/
def segmentPlan (chunkDuration : Int) (duration : Rat) (id : Int) (n : Nat) : List tsChunk :=
  (List.range n).map (fun (i : Nat) =>
    { id := id + (i : Int)
      duration := if i + 1 < n then (chunkDuration : Rat)
        else duration - (chunkDuration : Rat) * ((n : Rat) - 1) })

/-! ## Text formatting (`fmt`, `strings`) -/

/-- Nearest natural number to `num / den`, ties to even. -/
def roundHalfEven (num den : Nat) : Nat :=
  let q := num / den
  let r := num % den
  if 2 * r < den then q else if den < 2 * r then q + 1 else if q % 2 = 0 then q else q + 1

/-- Zero padding on the left to the width `w`. -/
def padLeftZeros (w : Nat) (t : String) : String :=
  String.mk (List.replicate (w - t.length) '0') ++ t

/-- The verb `%.<prec>f` of `fmt.Sprintf` for the value `± num / den`: correctly rounded
decimal with `prec` digits after the point. -/
def formatFixed (prec : Nat) (neg : Bool) (num den : Nat) : String :=
  let scaled := roundHalfEven (num * 10 ^ prec) den
  (if neg then "-" else "") ++ toString (scaled / 10 ^ prec) ++
    (if prec = 0 then "" else "." ++ padLeftZeros prec (toString (scaled % 10 ^ prec)))

/-- The verb `%.<prec>f` for a duration. -/
def formatFloatRat (prec : Nat) (q : Rat) : String :=
  formatFixed prec (decide (q < 0)) q.num.natAbs q.den

/-- Function `strings.Split` for a separator of one character. -/
def stringsSplit (sep : Char) : List Char → List (List Char)
  | [] => [[]]
  | c :: cs =>
    if c = sep then [] :: stringsSplit sep cs
    else
      match stringsSplit sep cs with
      | [] => [[c]]
      | l :: ls => (c :: l) :: ls

/-- The lines of a text that start with `pre`. -/
def linesWith (pre text : String) : List String :=
  ((stringsSplit (Char.ofNat 10) text.toList).filter (fun l => pre.toList.isPrefixOf l)).map String.mk

/-! ## `float64` arithmetic

Values are finite and normal; every operation rounds its exact result to the nearest
value with a significand of 53 bits, ties to even. -/

/-- Number of binary digits of `n` (the first argument bounds the recursion). -/
def bitLength : Nat → Nat → Nat
  | 0, _ => 0
  | fuel + 1, n => if n = 0 then 0 else bitLength fuel (n / 2) + 1

/-- The value `m * 2^e` with the factors of two moved out of `m`. -/
def Float64.normalize : Nat → Int → Int → Float64
  | 0, m, e => { m := m, e := e }
  | fuel + 1, m, e =>
    if m = 0 then { m := 0, e := 0 }
    else if m % 2 = 0 then Float64.normalize fuel (m / 2) (e + 1)
    else { m := m, e := e }

/-- The `float64` nearest to `± (N / D) * 2^e`. -/
def Float64.round (neg : Bool) (N D : Nat) (e : Int) : Float64 :=
  if N = 0 ∨ D = 0 then { m := 0, e := 0 }
  else
    let t : Int := 53 - ((bitLength N N : Int) - (bitLength D D : Int))
    let N1 : Nat := if 0 ≤ t then N * 2 ^ t.toNat else N
    let D1 : Nat := if 0 ≤ t then D else D * 2 ^ (-t).toNat
    let D2 : Nat := if N1 / D1 < 2 ^ 53 then D1 else D1 * 2
    let t2 : Int := if N1 / D1 < 2 ^ 53 then t else t - 1
    let m : Nat := roundHalfEven N1 D2
    Float64.normalize 64 (if neg then -(m : Int) else (m : Int)) (e - t2)

/-- Conversion `float64(n)` of an `int`. -/
def Float64.ofInt (n : Int) : Float64 := Float64.round (decide (n < 0)) n.natAbs 1 0

/-- The `float64` nearest to the fraction `num / den`, as a decimal literal denotes it. -/
def Float64.ofRatio (num : Int) (den : Nat) : Float64 :=
  Float64.round (decide (num < 0)) num.natAbs den 0

/-- Product `a * b` in `float64`. -/
def Float64.mul (a b : Float64) : Float64 :=
  Float64.round (decide (a.m < 0) != decide (b.m < 0)) (a.m.natAbs * b.m.natAbs) 1 (a.e + b.e)

/-- Quotient `a / b` in `float64`, for `b` different from zero. -/
def Float64.div (a b : Float64) : Float64 :=
  Float64.round (decide (a.m < 0) != decide (b.m < 0)) a.m.natAbs b.m.natAbs (a.e - b.e)

/-- Conversion `int(x)` of a `float64`: truncation toward zero. -/
def Float64.toInt (a : Float64) : Int :=
  if 0 ≤ a.e then a.m * 2 ^ a.e.toNat else Int.tdiv a.m (2 ^ (-a.e).toNat)

/-- Conversion `int(x)` of a `float64` to the 64-bit `int`: the truncation toward zero
when it fits.  For a value outside the range of `int` the language leaves the result to
the implementation; the embedding takes the one of amd64, `-2^63`. -/
def Float64.toInt64 (a : Float64) : Int :=
  if -2 ^ 63 ≤ a.toInt ∧ a.toInt < 2 ^ 63 then a.toInt else -2 ^ 63

/-- The verb `%.<prec>f` for a `float64`. -/
def formatFloat64 (prec : Nat) (a : Float64) : String :=
  if 0 ≤ a.e then formatFixed prec (decide (a.m < 0)) (a.m.natAbs * 2 ^ a.e.toNat) 1
  else formatFixed prec (decide (a.m < 0)) a.m.natAbs (2 ^ (-a.e).toNat)

/-! ## context.go: `adjustSpec`, `fit` -/

/-- The statements `if x%2 != 0 { x++ }` of `adjustSpec` (`%` truncates like Go, `++`
wraps around). -/
def evenUp (x : Int) : Int := if Int.tmod x 2 ≠ 0 then wrap64 (x + 1) else x

/-- The bitrate `originBitrate` of `adjustSpec`: doubled when the source is not h264. -/
def originBitrate (info : ProbeInfo) : Int :=
  if info.VideoCodec ≠ "h264" then wrap64 (info.VideoBitrate * 2) else info.VideoBitrate

/-- The `switch` of `adjustSpec`: the dimensions follow from the scale, else from the
width, else from the height. -/
def adjustDims (spec : StreamSpec) (info : ProbeInfo) : StreamSpec :=
  if spec.Scale.m ≠ 0 then
    { spec with
      Width := (Float64.mul (Float64.ofInt info.Width) spec.Scale).toInt64
      Height := (Float64.mul (Float64.ofInt info.Height) spec.Scale).toInt64 }
  else if spec.Width ≠ 0 then
    { spec with
      Scale := Float64.div (Float64.ofInt spec.Width) (Float64.ofInt info.Width)
      Height := (Float64.mul (Float64.ofInt info.Height)
        (Float64.div (Float64.ofInt spec.Width) (Float64.ofInt info.Width))).toInt64 }
  else if spec.Height ≠ 0 then
    { spec with
      Scale := Float64.div (Float64.ofInt spec.Height) (Float64.ofInt info.Height)
      Width := (Float64.mul (Float64.ofInt info.Width)
        (Float64.div (Float64.ofInt spec.Height) (Float64.ofInt info.Height))).toInt64 }
  else spec

/-- The two roundings of `adjustSpec` to even dimensions. -/
def evenDims (spec : StreamSpec) : StreamSpec :=
  { spec with Height := evenUp spec.Height, Width := evenUp spec.Width }

/-- Function `adjustSpec`.  The products, the quotient and the increments are those of
the 64-bit `int`.  The integer division of the bitrate panics when the pixel count
`info.Width * info.Height` of the source is 0 as an `int`: when a factor is 0, or when
the product wraps around to 0. -/
def adjustSpec (spec : StreamSpec) (info : ProbeInfo) : Except Panic StreamSpec :=
  if spec.Force = true ∧ spec.Bitrate > 0 then Except.ok spec
  else if spec.Width = 0 ∧ spec.Height = 0 ∧ spec.Scale.m = 0 then Except.ok spec
  else if wrap64 (info.Width * info.Height) = 0 then Except.error Panic.divideByZero
  else
    Except.ok
      { evenDims (adjustDims spec info) with
        Bitrate :=
          wrap64 (wrap64 (Int.tdiv
            (wrap64 ((evenDims (adjustDims spec info)).Width *
              (evenDims (adjustDims spec info)).Height))
            (wrap64 (info.Width * info.Height))) * originBitrate info) }

/-- Function `fit`. -/
def fit (spec : StreamSpec) (info : ProbeInfo) : Bool :=
  if spec.Force then true
  else if spec.Width = 0 ∧ spec.Height = 0 then true
  else if spec.Width < info.Width then true
  else false

/-- A probed h264 source of 1920x1080 at 4,000,000 b/s. -/
def info1080 : ProbeInfo :=
  { Duration := Float64.ofInt 25, Width := 1920, Height := 1080, VideoCodec := "h264", AudioCodec := "aac",
    VideoBitrate := 4000000 }

/-- A probed h264 source of 1280x720. -/
def info720 : ProbeInfo :=
  { Duration := Float64.ofInt 25, Width := 1280, Height := 720, VideoCodec := "h264", AudioCodec := "aac",
    VideoBitrate := 2000000 }

/-! ## stream.go: `needTranscode` -/

/-- The loop of `supportVideoCodec` and `supportAudioCodec` over a list of codecs. -/
def codecIn (codec : String) : List String → Bool
  | [] => false
  | c :: rest => if c = codec then true else codecIn codec rest

/-- Method `Stream.supportVideoCodec`. -/
def supportVideoCodec (s : Stream) (codec : String) : Bool :=
  codecIn codec s.context.contextConfig.SupportVideoCodec

/-- Method `Stream.supportAudioCodec`. -/
def supportAudioCodec (s : Stream) (codec : String) : Bool :=
  codecIn codec s.context.contextConfig.SupportAudioCodec

/-- Method `Stream.needTranscode`.  The bitrate of the spec is compared with the field
`bitrate` of the stream. -/
def needTranscode (s : Stream) : Bool :=
  if s.spec.Force then true
  else if !supportVideoCodec s s.probe.VideoCodec || !supportAudioCodec s s.probe.AudioCodec then
    true
  else if s.spec.Width > 0 ∧ s.spec.Width ≠ s.probe.Width then true
  else if s.spec.Height > 0 ∧ s.spec.Height ≠ s.probe.Height then true
  else if s.spec.Bitrate > 0 ∧ s.spec.Bitrate ≠ s.bitrate then true
  else if s.spec.Scale.m > 0 then true
  else false

/-- The condition that the specification gives for `needTranscode`, with the bitrate of
the spec compared with the probed video bitrate. -/
def needTranscodeSpec (s : Stream) : Prop :=
  s.spec.Force = true ∨ s.spec.Scale.m > 0 ∨
  (s.spec.Width > 0 ∧ s.spec.Width ≠ s.probe.Width) ∨
  (s.spec.Height > 0 ∧ s.spec.Height ≠ s.probe.Height) ∨
  (s.spec.Bitrate > 0 ∧ s.spec.Bitrate ≠ s.probe.VideoBitrate) ∨
  s.probe.VideoCodec ∉ s.context.contextConfig.SupportVideoCodec ∨
  s.probe.AudioCodec ∉ s.context.contextConfig.SupportAudioCodec

/-- An HLS context that supports h264 and aac. -/
def contextH264 : Context :=
  { id := "movie", path := "/media/movie.mkv"
    contextConfig :=
      { Format := FormatHLS, ChunkDuration := 10, MaxBuffer := 5, MinBuffer := 2
        SupportVideoCodec := ["h264"], SupportAudioCodec := ["aac"]
        ListGenerator := true, TSGenerator := true
        TmpPath := "/tmp/vod/movie", FFMpegPath := "/usr/bin/ffmpeg"
        FFProbePath := "/usr/bin/ffprobe"
        StreamSpec := [{ Name := "Origin" }] } }

/-- The stream that `newContext` builds for the spec `{Name: "4M", Bitrate: 4000000}` on
the h264 source of 1920x1080 at 4,000,000 b/s (`adjustSpec` returns this spec unchanged). -/
def stream4M : Stream := newStream { Name := "4M", Bitrate := 4000000 } contextH264 info1080

/-! ## Validation of the configuration (context.go, service.go) -/

/-- Method `ContextConfig.valid` (`none` for a nil receiver; the result `none` is the
nil error). -/
def ContextConfig.valid (c : Option ContextConfig) : Option Err :=
  match c with
  | none => some Err.ErrEmptyConfig
  | some c =>
    if c.FFMpegPath = "" ∨ c.FFProbePath = "" then some Err.ErrFFMpegPath
    else if c.Format = "" then some Err.ErrFormat
    else if c.Format = FormatHLS ∧ c.ListGenerator = false then some Err.ErrListGenerator
    else if c.Format = FormatHLS ∧ c.TSGenerator = false then some Err.ErrTSGenerator
    else if c.Format = FormatHLS ∧ c.ChunkDuration = 0 then some Err.ErrChunkDuration
    else if c.Format = FormatHLS ∧ c.MaxBuffer = 0 then some Err.ErrMaxBuffer
    else if c.Format = FormatHLS ∧ c.MinBuffer = 0 then some Err.ErrMinBuffer
    else if c.Format = FormatHLS ∧ c.TmpPath = "" then some Err.ErrTmpPath
    else if c.StreamSpec.length = 0 then some Err.ErrStreamSpec
    else none

/-- Function `supportedFormat`. -/
def supportedFormat (format : String) : Bool :=
  format = FormatMP4 || format = FormatHLS || format = FormatTS

/-- Method `Service.mergeConfig`: the unset fields of the request are taken from the
configuration `sc` of the service. -/
def mergeConfig (sc : ContextConfig) (config : Option ContextConfig) : ContextConfig :=
  let c : ContextConfig := match config with
    | none => {}
    | some c => c
  { c with
    ListGenerator := if c.ListGenerator = false then sc.ListGenerator else c.ListGenerator
    TSGenerator := if c.TSGenerator = false then sc.TSGenerator else c.TSGenerator
    TmpPath := if c.TmpPath = "" then sc.TmpPath else c.TmpPath
    FFMpegPath := if c.FFMpegPath = "" then sc.FFMpegPath else c.FFMpegPath
    FFProbePath := if c.FFProbePath = "" then sc.FFProbePath else c.FFProbePath
    ChunkDuration := if c.ChunkDuration = 0 then sc.ChunkDuration else c.ChunkDuration
    Format := if c.Format = "" then sc.Format else c.Format
    StreamSpec :=
      if c.StreamSpec = [] ∧ c.StreamSpecAllocated = false then sc.StreamSpec
      else c.StreamSpec
    StreamSpecAllocated :=
      if c.StreamSpec = [] ∧ c.StreamSpecAllocated = false then sc.StreamSpecAllocated
      else c.StreamSpecAllocated
    SupportVideoCodec :=
      if c.SupportVideoCodec.length = 0 then sc.SupportVideoCodec else c.SupportVideoCodec
    SupportAudioCodec :=
      if c.SupportAudioCodec.length = 0 then sc.SupportAudioCodec else c.SupportAudioCodec
    HWAccel := if c.HWAccel = 0 then sc.HWAccel else c.HWAccel
    MaxBuffer := if c.MaxBuffer = 0 then sc.MaxBuffer else c.MaxBuffer
    MinBuffer := if c.MinBuffer = 0 then sc.MinBuffer else c.MinBuffer }

/-- The checks of `Service.CreateContext` before the source is probed: the merged
configuration is validated, then its format is checked. -/
def createContextCheck (sc : ContextConfig) (config : Option ContextConfig) : Option Err :=
  match ContextConfig.valid (some (mergeConfig sc config)) with
  | some e => some e
  | none => if supportedFormat (mergeConfig sc config).Format then none else some Err.ErrInvalidFormat

/-! ## hwaccel.go -/

/-- Struct `hwInfo` (without the detector). -/
structure hwInfo where
  codec : Int
  name : String
  decoderArgs : List String
  encoderArgs : List String
  encodeFactor : Float64
  scaleArgs : Int → Int → List String

/-- Function `scaleArgs`. -/
def scaleArgs (w h : Int) : List String :=
  ["-vf", "format=nv12,scale=force_original_aspect_ratio=decrease:w=" ++ toString w ++
    ":h=" ++ toString h]

/-- Function `scaleVAAPI`. -/
def scaleVAAPI (w h : Int) : List String :=
  ["-vf", "format=nv12|vaapi,hwupload,scale_vaapi=force_original_aspect_ratio=decrease:" ++
    "format=nv12:w=" ++ toString w ++ ":h=" ++ toString h]

/-- Function `scaleNVENC`. -/
def scaleNVENC (w h : Int) : List String :=
  ["-vf", "format=nv12|cuda,hwupload,scale_cuda=force_original_aspect_ratio=decrease:" ++
    "passthrough=0:w=" ++ toString w ++ ":h=" ++ toString h]

/-- Entry `HWAccelNone` of the table `allHWInfos`. -/
def hwNone : hwInfo :=
  { codec := -1, name := "none", decoderArgs := []
    encoderArgs := ["libx264", "-preset", "fast", "-crf", "23"]
    encodeFactor := { m := 1, e := 0 }, scaleArgs := scaleArgs }

/-- Table `allHWInfos`. -/
def allHWInfos (h : Int) : Option hwInfo :=
  if h = -1 then some hwNone
  else if h = 0 then
    some { codec := 0, name := "auto", decoderArgs := [], encoderArgs := []
           encodeFactor := { m := 1, e := 0 }, scaleArgs := scaleArgs }
  else if h = 1 then
    some { codec := 1, name := "NVEnc", decoderArgs := ["cuda"]
           encoderArgs := ["h264_nvenc", "-preset", "p6", "-tune", "ll", "-rc", "vbr",
             "-rc-lookahead", "30", "-cq", "23", "-temporal-aq", "1"]
           encodeFactor := { m := 1, e := 1 }, scaleArgs := scaleNVENC }
  else if h = 5 then
    some { codec := 5, name := "VideoToolBox", decoderArgs := ["videotoolbox"]
           encoderArgs := ["h264_videotoolbox", "-q:v", "50"]
           encodeFactor := { m := 1, e := 1 }, scaleArgs := scaleArgs }
  else if h = 2 then
    some { codec := 2, name := "QSV", decoderArgs := ["qsv"], encoderArgs := ["h264_qsv"]
           encodeFactor := { m := 1, e := 1 }, scaleArgs := scaleArgs }
  else if h = 7 then
    some { codec := 7, name := "AMF", decoderArgs := [], encoderArgs := ["h264_amf"]
           encodeFactor := { m := 1, e := 1 }, scaleArgs := scaleArgs }
  else if h = 3 then
    some { codec := 3, name := "VAAPI"
           decoderArgs := ["vaapi", "-hwaccel_device", "/dev/dri/renderD128",
             "-hwaccel_output_format", "vaapi"]
           encoderArgs := ["h264_vaapi", "-global_quality", "21"]
           encodeFactor := { m := 1, e := 1 }, scaleArgs := scaleVAAPI }
  else if h = 4 then
    some { codec := 4, name := "VAAPI Low Power"
           decoderArgs := ["vaapi", "-hwaccel_device", "/dev/dri/renderD128",
             "-hwaccel_output_format", "vaapi"]
           encoderArgs := ["h264_vaapi", "-low_power", "1"]
           encodeFactor := { m := 1, e := 1 }, scaleArgs := scaleVAAPI }
  else none

/-! ## ffmpeg.go -/

/-- The loop of `filepath.Clean` over the elements of a path: empty elements and `.` are
dropped, `..` removes the element before it (or is dropped at the root). -/
def cleanElements (rooted : Bool) : List (List Char) → List (List Char) → List (List Char)
  | acc, [] => acc.reverse
  | acc, c :: cs =>
    if c = [] ∨ c = ['.'] then cleanElements rooted acc cs
    else if c = ['.', '.'] then
      match acc with
      | top :: rest =>
        if top = ['.', '.'] then cleanElements rooted (c :: acc) cs
        else cleanElements rooted rest cs
      | [] => if rooted then cleanElements rooted [] cs else cleanElements rooted [c] cs
    else cleanElements rooted (c :: acc) cs

/-- Function `filepath.Clean` (slash-separated paths). -/
def filepathClean (path : List Char) : List Char :=
  let rooted := decide (path.head? = some '/')
  let body := List.intercalate ['/'] (cleanElements rooted [] (stringsSplit '/' path))
  let r := if rooted then '/' :: body else body
  if r = [] then ['.'] else r

/-- Function `filepath.Join`: the non-empty elements joined by slashes, cleaned. -/
def filepathJoin (elems : List String) : String :=
  let parts := (elems.filter (fun e => e ≠ "")).map String.toList
  if parts = [] then "" else String.mk (filepathClean (List.intercalate ['/'] parts))

/-- The verb `%02d` of `fmt.Sprintf`. -/
def pad2 (x : Int) : String :=
  if x < 0 then "-" ++ padLeftZeros 1 (toString x.natAbs) else padLeftZeros 2 (toString x)

/-- Function `formatTime` of stream.go (`/` and `%` truncate like Go). -/
def formatTime (seconds : Int) : String :=
  pad2 (Int.tdiv seconds 3600) ++ ":" ++ pad2 (Int.tdiv (Int.tmod seconds 3600) 60) ++ ":" ++
    pad2 (Int.tmod seconds 60) ++ ".000"

/-- Method `Stream.buildHLSArgs`. -/
def buildHLSArgs (s : Stream) (start : Int) (transcode : Bool) : List String :=
  ["-max_delay", "5000000",
    "-avoid_negative_ts", "disabled",
    "-f", "segment",
    "-segment_format", "mpegts",
    "-segment_list", filepathJoin [s.context.contextConfig.TmpPath, "index.m3u8"],
    "-segment_list_type", "m3u8",
    "-segment_time", formatTime s.context.contextConfig.ChunkDuration,
    "-segment_start_number", toString start,
    "-break_non_keyframes", "1",
    "-individual_header_trailer", "0",
    "-write_header_trailer", "0",
    filepathJoin [s.context.contextConfig.TmpPath, "%d.ts"]] ++
  (if transcode then ["-force_key_frames", "expr:gte(t,n_forced*3)"] else [])

/-- The entry of `allHWInfos` used by `buildFFMpegArgs`. -/
def hwAccelOf (s : Stream) : hwInfo :=
  match allHWInfos s.context.contextConfig.HWAccel with
  | some h => h
  | none => hwNone

/-- The seek arguments of `buildFFMpegArgs`: `-ss` with the start in seconds, for a
start index above 0. -/
def seekArgs (s : Stream) (start : Int) : List String :=
  if start > 0 then
    ["-ss", formatFloat64 6
      (if s.format = FormatHLS then
        Float64.mul (Float64.ofInt start) (Float64.ofInt s.context.contextConfig.ChunkDuration)
      else Float64.ofInt start)]
  else []

/-- The codec arguments of `buildFFMpegArgs`. -/
def codecArgs (s : Stream) (transcode : Bool) : List String :=
  if !transcode then ["-c", "copy"]
  else
    ["-c:v"] ++ (hwAccelOf s).encoderArgs ++
    (if s.spec.Bitrate > 0 then
      ["-b:v", toString (Float64.mul (Float64.ofInt s.spec.Bitrate) (hwAccelOf s).encodeFactor).toInt]
    else []) ++
    ["-c:a", "aac"] ++
    (if s.spec.Width > 0 then (hwAccelOf s).scaleArgs s.spec.Width s.spec.Height else [])

/-- Method `Stream.buildFFMpegArgs`: the successive `append`s, in order. -/
def buildFFMpegArgs (s : Stream) (start : Int) (transcode : Bool) (format : String)
    (pipe : Bool) : List String :=
  ["-loglevel", "debug", "-noaccurate_seek", "-noautorotate"] ++
  seekArgs s start ++
  (if (hwAccelOf s).decoderArgs.length ≠ 0 ∧ transcode = true
    then ["-hwaccel"] ++ (hwAccelOf s).decoderArgs else []) ++
  ["-i", s.context.path] ++
  ["-y", "-copyts", "-fflags", "+genpts"] ++
  (if format = FormatHLS then ["-f", "mpegts"] else []) ++
  codecArgs s transcode ++
  (if format = FormatMP4 then ["-movflags", "frag_keyframe+empty_moov"] else []) ++
  (if format = FormatMP4 then ["-f", format] else []) ++
  (if format = FormatHLS then buildHLSArgs s start transcode else []) ++
  (if pipe then ["pipe:1"] else [])

/-- The arguments `a`, `b` stand next to each other, in this order, in `args`. -/
def adjacent (a b : String) (args : List String) : Prop := [a, b] <:+: args

/-- A fresh stream for the spec `Origin` in the context `contextH264`. -/
def streamOrigin : Stream := newStream { Name := "Origin" } contextH264 info1080

/-! ## The parser of the transcoder's stderr (`bytes`, `filepath`, `strconv`) -/

/-- The single quote. -/
def quoteChar : Char := Char.ofNat 39

/-- The marker `segment:` searched by `resolveChunkID`. -/
def segmentMarker : List Char := "segment:".toList

/-- Function `bytes.Index`: position of the first instance of `sep`, if any. -/
def bytesIndexNat (sep : List Char) : List Char → Option Nat
  | [] => if sep.isEmpty then some 0 else none
  | c :: cs =>
    if sep.isPrefixOf (c :: cs) then some 0 else (bytesIndexNat sep cs).map (fun i => i + 1)

/-- Function `bytes.Index`, with `-1` when `sep` is not present. -/
def bytesIndex (s sep : List Char) : Int :=
  match bytesIndexNat sep s with
  | some i => (i : Int)
  | none => -1

/-- Function `bytes.Contains`. -/
def bytesContains (s sep : List Char) : Bool := (bytesIndexNat sep s).isSome

/-- Function `filepath.Base` (slash-separated paths): the last element of the path,
trailing slashes removed; `.` for the empty path and `/` for a path of slashes. -/
def filepathBase (path : List Char) : List Char :=
  if path = [] then ['.']
  else
    let stripped := (path.reverse.dropWhile (fun c => c = '/')).reverse
    let last := (stripped.reverse.takeWhile (fun c => c ≠ '/')).reverse
    if last = [] then ['/'] else last

/-- Value of a decimal digit. -/
def digitValue (c : Char) : Nat := c.toNat - 48

/-- Value of a string of decimal digits. -/
def decimalValue (ds : List Char) : Nat := ds.foldl (fun a d => 10 * a + digitValue d) 0

/-- Function `strconv.Atoi` (64-bit `int`): an optional sign followed by decimal digits,
in range; `none` stands for the error. -/
def strconvAtoi (s : List Char) : Option Int :=
  let signed := s.head? = some '-' ∨ s.head? = some '+'
  let ds := if signed then s.tail else s
  if ds = [] ∨ ds.all Char.isDigit = false then none
  else
    let v : Int := if s.head? = some '-' then -(decimalValue ds : Int) else (decimalValue ds : Int)
    if -(2 : Int) ^ 63 ≤ v ∧ v ≤ (2 : Int) ^ 63 - 1 then some v else none

/-- Method `Stream.resolveChunkID`.  The slice `line[start:]` panics when `start` is
past the end of the line. -/
def resolveChunkID (line : List Char) : Except Panic (Int × String × Option Err) :=
  let id := bytesIndex line segmentMarker
  if id < 0 then Except.ok (-1, "", some Err.ErrNoChunkID)
  else
    let start := id.toNat + (segmentMarker.length + 1)
    if line.length < start then Except.error Panic.sliceOutOfRange
    else
      let stop := bytesIndex (line.drop start) [quoteChar]
      if stop < 0 then Except.ok (-1, "", some Err.ErrNoChunkID)
      else
        let segment := (line.drop start).take stop.toNat
        let parts := stringsSplit '.' (filepathBase segment)
        if parts.length ≠ 2 then Except.ok (-1, "", some Err.ErrNoChunkID)
        else
          match strconvAtoi parts.head! with
          | some i => Except.ok (i, String.mk segment, none)
          | none => Except.ok (-1, "", some Err.ErrNoChunkID)

/-- One iteration of the loop of `monitorChunk`, for a line read from stderr. -/
def monitorChunkLine (s : Stream) (line : List Char) : Except Panic Stream :=
  if bytesContains line ".ts".toList = false ∨ bytesContains line "ended".toList = false then
    Except.ok s
  else
    match resolveChunkID line with
    | Except.error p => Except.error p
    | Except.ok (_, _, some _) => Except.ok s
    | Except.ok (id, segment, none) => monitorChunkEvent s id segment

/-- The line of the source comment for the segment `/tmp/0.ts`. -/
def lineSegment0 : String :=
  "[segment @ 0x146e05e50] segment:\x27/tmp/0.ts\x27 count:0 ended\n"

/-- A marker line whose stem is `-1`. -/
def lineSegmentMinus1 : String :=
  "[segment @ 0x146e05e50] segment:\x27/tmp/" ++ "-1.ts\x27 count:0 ended\n"

/-! ## stream.go: `generateChunks` -/

/-- The value of a `float64`, as a rational. -/
def Float64.toRat (a : Float64) : Rat := (a.m : Rat) * (2 : Rat) ^ a.e

/-- Comparison `a < b` of two `float64` (exact). -/
def Float64.lt (a b : Float64) : Bool :=
  decide (a.m * 2 ^ (a.e - min a.e b.e).toNat < b.m * 2 ^ (b.e - min a.e b.e).toNat)

/-- Difference `a - b` in `float64`: the exact difference, rounded. -/
def Float64.sub (a b : Float64) : Float64 :=
  Float64.round
    (decide (a.m * 2 ^ (a.e - min a.e b.e).toNat - b.m * 2 ^ (b.e - min a.e b.e).toNat < 0))
    (a.m * 2 ^ (a.e - min a.e b.e).toNat - b.m * 2 ^ (b.e - min a.e b.e).toNat).natAbs 1
    (min a.e b.e)

/-- The loop of `generateChunks` with the arithmetic of `float64` on the remaining
duration, with a bound on the number of iterations: `none` when the bound is hit with
the loop condition still true.  The duration of a record is kept as the value of its
`float64`. -/
def generateChunksLoop64 (chunkDuration : Int) :
    Nat → Float64 → Int → List tsChunk → Option (List tsChunk)
  | 0, duration, _, chunks => if 0 < duration.m then none else some chunks
  | fuel + 1, duration, id, chunks =>
    if 0 < duration.m then
      let size : Float64 :=
        if Float64.lt duration (Float64.ofInt chunkDuration) then duration
        else Float64.ofInt chunkDuration
      generateChunksLoop64 chunkDuration fuel (Float64.sub duration size) (id + 1)
        (chunks ++ [{ id := id, duration := size.toRat }])
    else some chunks

/-- Method `Stream.generateChunks`: the loop runs in `float64` arithmetic on the probed
duration.  `none` stands for a loop that does not end; the iteration bound
`⌈Duration⌉ + 1` is not hit by a loop that ends (with `ChunkDuration ≥ 1` an iteration
that changes the remaining duration lowers it by at least 1 or to 0, and an iteration
that does not change it repeats for ever). -/
def generateChunks (s : Stream) : Option (List tsChunk) :=
  generateChunksLoop64 s.context.contextConfig.ChunkDuration
    ((Int.toNat ⌈s.probe.Duration.toRat⌉) + 1) s.probe.Duration 0 []

/-- Method `Stream.ChunkLength`. -/
def ChunkLength (s : Stream) : Option Nat := (generateChunks s).map List.length

/-- The loop of `generateChunks` on exact values: the remaining duration is a rational
and the subtraction is not rounded.  This is not the program; it is the arithmetic that
the `float64` loop is compared with (`generateChunksLoop64_eq`: the two agree for a
duration below 2^53). -/
def generateChunksLoop (chunkDuration : Int) : Nat → Rat → Int → List tsChunk → Option (List tsChunk)
  | 0, duration, _, chunks => if duration > 0 then none else some chunks
  | fuel + 1, duration, id, chunks =>
    if duration > 0 then
      let size : Rat := if duration < (chunkDuration : Rat) then duration else (chunkDuration : Rat)
      generateChunksLoop chunkDuration fuel (duration - size) (id + 1)
        (chunks ++ [{ id := id, duration := size }])
    else some chunks

/-! ## The media playlist -/

/-- Function `DefaultTSGenerator`. -/
def DefaultTSGenerator (index : Int) (stream : Stream) (context : Context) : String :=
  "/video/ts?id=" ++ context.id ++ "&index=" ++ toString index ++ "&spec=" ++
    stream.spec.Name ++ "\n"

/-- The loop of `contentHLS`: for the segment at position `i` the line `#EXTINF` and the
text of the generator are written to the buffer. -/
def contentHLSLoop (s : Stream) (TSGenerator : Int → Stream → Context → String) :
    Nat → List tsChunk → String → String
  | _, [], buf => buf
  | i, c :: rest, buf =>
    contentHLSLoop s TSGenerator (i + 1) rest
      (buf ++ ("#EXTINF:" ++ formatFloatRat 3 c.duration ++ ",\n") ++ TSGenerator (i : Int) s s.context)

/-- Method `Stream.contentHLS`, for the generator set in the configuration; `none` when
`generateChunks` does not end. -/
def contentHLS (s : Stream) (TSGenerator : Int → Stream → Context → String) : Option String :=
  (generateChunks s).map (fun chunks =>
    let buf := "#EXTM3U\n" ++ "#EXT-X-VERSION:4\n" ++ "#EXT-X-MEDIA-SEQUENCE:0\n" ++
      "#EXT-X-PLAYLIST-TYPE:VOD\n" ++
      ("#EXT-X-TARGETDURATION:" ++ toString s.context.contextConfig.ChunkDuration ++ "\n")
    contentHLSLoop s TSGenerator 0 chunks buf ++ "#EXT-X-ENDLIST\n")

/-- The playlist entries of the segments `chunks`, the first one at position `i`, as the
specification words them: `#EXTINF:<duration, 3 decimals>,` and the generated line. -/
def playlistEntries (s : Stream) (TSGenerator : Int → Stream → Context → String) :
    Nat → List tsChunk → List String
  | _, [] => []
  | i, c :: rest =>
    ("#EXTINF:" ++ formatFloatRat 3 c.duration ++ ",\n" ++ TSGenerator (i : Int) s s.context) ::
      playlistEntries s TSGenerator (i + 1) rest

/-- Concatenation of a list of texts. -/
def concatAll (l : List String) : String := l.foldr (fun a b => a ++ b) ""

/-- A fresh HLS stream for the spec `Origin` in the context `movie` (source of 25
seconds, chunks of 10). -/
def movieStream : Stream :=
  newStream { Name := "Origin" } { engineContext 5 2 with id := "movie" } engineInfo

/-- The media playlist of `movieStream` with `DefaultTSGenerator`. -/
def moviePlaylist : String :=
  "#EXTM3U\n#EXT-X-VERSION:4\n#EXT-X-MEDIA-SEQUENCE:0\n#EXT-X-PLAYLIST-TYPE:VOD\n" ++
  "#EXT-X-TARGETDURATION:10\n" ++
  "#EXTINF:10.000,\n/video/ts?id=movie&index=0&spec=Origin\n" ++
  "#EXTINF:10.000,\n/video/ts?id=movie&index=1&spec=Origin\n" ++
  "#EXTINF:5.000,\n/video/ts?id=movie&index=2&spec=Origin\n" ++
  "#EXT-X-ENDLIST\n"

/-- The lines that the loop of `monitorChunk` gets from `out.ReadBytes('\n')` before the
stream ends: each one runs up to and including a newline.  What follows the last
newline comes back with `io.EOF`, and the loop breaks without looking at it. -/
def readLines : List Char → List Char → List (List Char)
  | _, [] => []
  | acc, c :: cs =>
    if c = Char.ofNat 10 then (acc ++ [c]) :: readLines [] cs else readLines (acc ++ [c]) cs

/-- The loop of `monitorChunk` over the text that the transcoder writes to stderr. -/
def monitorChunkLines (s : Stream) : List (List Char) → Except Panic Stream
  | [] => Except.ok s
  | line :: rest =>
    match monitorChunkLine s line with
    | Except.error p => Except.error p
    | Except.ok s1 => monitorChunkLines s1 rest

/-- Method `Stream.monitorChunk`, for the text `stderr` of the transcoder. -/
def monitorChunkStderr (s : Stream) (stderr : List Char) : Except Panic Stream :=
  monitorChunkLines s (readLines [] stderr)

/-! ## context.go: the context and its streams -/

/-- The close reason `Normal` of context.go (the only value of `CloseReason`). -/
def Normal : String := "normal"

/-- External actions of a context and of `Service.CreateContext`: directories made and
removed, calls of the callback `onClose` with the context id and the reason, and the
start of the goroutine `checkAlive`. -/
inductive ContextEffect where
  | mkdirAll (path : String)
  | removeAll (path : String)
  | onClose (id : String) (reason : String)
  | goCheckAlive
  deriving DecidableEq, Repr

/-- Struct `Context` of context.go, as the owner of its streams (`Context` above is what
a stream sees of it through its back pointer).  `onClose` says whether the callback is
set (non-nil), `closed` whether the channel `closed` has been closed; `trace` lists the
external actions in program order. -/
structure ContextState where
  id : String := ""
  contextConfig : ContextConfig := {}
  streams : List Stream := []
  path : String := ""
  lastAccess : Int := 0
  onClose : Bool := false
  closed : Bool := false
  err : Option Err := none
  info : ProbeInfo := {}
  trace : List ContextEffect := []
  deriving DecidableEq, Repr

/-- The loop of `newContext` over the configured specs: a stream is built for each spec
that fits the source, from the adjusted spec. -/
def newContextStreams (context : Context) (info : ProbeInfo) :
    List StreamSpec → Except Panic (List Stream)
  | [] => Except.ok []
  | spec :: rest =>
    if fit spec info then
      match adjustSpec spec info with
      | Except.error p => Except.error p
      | Except.ok adjusted =>
        match newContextStreams context info rest with
        | Except.error p => Except.error p
        | Except.ok streams => Except.ok (newStream adjusted context info :: streams)
    else newContextStreams context info rest

/-- Function `newContext`, called at time `now`; `mkdir` is what the operating system
answers to `os.MkdirAll` (true when it succeeds). -/
def newContext (id path : String) (config : ContextConfig) (info : ProbeInfo) (onClose : Bool)
    (now : Int) (mkdir : Bool) : Except Panic (Except Err ContextState) :=
  let made : List ContextEffect :=
    if config.Format = FormatHLS then [ContextEffect.mkdirAll (filepathJoin [config.TmpPath, id])]
    else []
  if config.Format = FormatHLS ∧ mkdir = false then Except.ok (Except.error Err.mkdirAll)
  else
    match newContextStreams { id := id, contextConfig := config, path := path, lastAccess := now }
        info config.StreamSpec with
    | Except.error p => Except.error p
    | Except.ok streams =>
      Except.ok (Except.ok
        { id := id, path := path, lastAccess := now, contextConfig := config, closed := false
          onClose := onClose, info := info, streams := streams
          trace := made ++
            (if config.Format = FormatHLS ∧ config.IdleTimeout > 0
              then [ContextEffect.goCheckAlive] else []) })

/-- Method `Context.access`, called at time `now`. -/
def ContextState.access (c : ContextState) (now : Int) : ContextState :=
  { c with lastAccess := now, streams := c.streams.map (fun s => Vod.access s now) }

/-- Method `Context.Close`, with the error it returns (`none` is nil).  The call of a
nil callback panics. -/
def ContextState.Close (c : ContextState) : Except Panic (ContextState × Option Err) :=
  if c.closed then Except.ok (c, c.err)
  else
    let c1 : ContextState :=
      { c with
        streams := c.streams.map Stream.Close
        trace := c.trace ++ [ContextEffect.removeAll (filepathJoin [c.contextConfig.TmpPath, c.id])] }
    if c.onClose = false then Except.error Panic.nilDereference
    else Except.ok ({ c1 with closed := true }, none)

/-- One tick of the loop of `Context.checkAlive`, at time `now`. -/
def checkAliveTick (c : ContextState) (now : Int) : Except Panic ContextState :=
  if now - c.lastAccess > c.contextConfig.IdleTimeout then
    match ContextState.Close { c with err := some Err.ErrIdleTimeout } with
    | Except.error p => Except.error p
    | Except.ok (c1, _) => Except.ok c1
  else Except.ok c

/-- What a `Content` call hands to its caller: the opened source file, the stdout pipe of
a transcoder started with an argv, or a text held in a buffer. -/
inductive Body where
  | file (path : String)
  | pipe (args : List String)
  | text (t : String)
  deriving DecidableEq, Repr

/-- Method `Stream.content`; `sp` and `opened` are what the operating system answers to
the launch of the transcoder and to `os.Open`.  The started process is not recorded in
the stream. -/
def Stream.content (s : Stream) (sp : Spawn) (opened : Bool) : Except Err Body :=
  let format := s.context.contextConfig.Format
  if needTranscode s = false ∧ s.probe.Format = format then
    if opened then Except.ok (Body.file s.context.path) else Except.error Err.openFile
  else
    match sp with
    | Spawn.stdoutPipeFails => Except.error Err.stdoutPipe
    | Spawn.stderrPipeFails => Except.error Err.stderrPipe
    | Spawn.startFails => Except.error Err.start
    | Spawn.ok => Except.ok (Body.pipe (buildFFMpegArgs s 0 (needTranscode s) format true))

/-- Method `Stream.Content`, for the generator set in the configuration; `none` when
`generateChunks` does not end. -/
def Stream.Content (s : Stream) (TSGenerator : Int → Stream → Context → String) (sp : Spawn)
    (opened : Bool) : Option (Except Err Body) :=
  if s.format = FormatMP4 then some (Stream.content s sp opened)
  else if s.format = FormatHLS then
    (contentHLS s TSGenerator).map (fun t => Except.ok (Body.text t))
  else some (Except.error Err.ErrInvalidFormat)

/-- Function `DefaultListGenerator`. -/
def DefaultListGenerator (index : Int) (stream : Stream) : String :=
  "#EXT-X-STREAM-INF:BANDWIDTH=" ++ toString (index * 5000) ++ ",RESOLUTION=" ++
    toString stream.width ++ "x" ++ toString stream.height ++
    ",CODECS=\x22avc1.42e00a,mp4a.40.2\x22\n" ++
    ("index.m3u8?spec=" ++ stream.spec.Name ++ "\n")

/-- The loop of `multiStreamContent` over the streams, the first one at position `i`. -/
def multiStreamLoop : Nat → List Stream → String → String
  | _, [], buf => buf
  | i, s :: rest, buf => multiStreamLoop (i + 1) rest (buf ++ DefaultListGenerator (i : Int) s)

/-- Method `Context.multiStreamContent`. -/
def multiStreamContent (c : ContextState) : String :=
  multiStreamLoop 0 c.streams "#EXTM3U\n" ++ "#EXT-X-ENDLIST\n"

/-- Method `Context.Content`, called at time `now`.  The expression `c.streams[0]`
panics when the context has no stream. -/
def ContextState.Content (c : ContextState) (now : Int)
    (TSGenerator : Int → Stream → Context → String) (sp : Spawn) (opened : Bool) :
    Except Panic (ContextState × Option (Except Err Body)) :=
  let c1 := c.access now
  if c1.contextConfig.Format = FormatHLS then
    match c1.streams with
    | [s] => Except.ok (c1, Stream.Content s TSGenerator sp opened)
    | _ => Except.ok (c1, some (Except.ok (Body.text (multiStreamContent c1))))
  else
    match c1.streams with
    | [] => Except.error Panic.indexOutOfRange
    | s :: _ => Except.ok (c1, Stream.Content s TSGenerator sp opened)

/-- Method `Service.CreateContext` for a service with the configuration `sc`, called at
time `now`; `probe` is the result of `Service.Probe` on the path, `mkdir1` and `mkdir2`
what the operating system answers to the two `os.MkdirAll`.  The callback handed to
`newContext` is `s.stopContext`. -/
def CreateContext (sc : ContextConfig) (id path : String) (config : Option ContextConfig)
    (probe : Except Err ProbeInfo) (now : Int) (mkdir1 mkdir2 : Bool) :
    Except Panic (Except Err ContextState) :=
  let merged := mergeConfig sc config
  match ContextConfig.valid (some merged) with
  | some e => Except.ok (Except.error e)
  | none =>
    if supportedFormat merged.Format = false then Except.ok (Except.error Err.ErrInvalidFormat)
    else
      match probe with
      | Except.error e => Except.ok (Except.error e)
      | Except.ok info =>
        let joined : ContextConfig := { merged with TmpPath := filepathJoin [merged.TmpPath, id] }
        if mkdir1 = false then Except.ok (Except.error Err.mkdirAll)
        else
          match newContext id path joined info true now mkdir2 with
          | Except.ok (Except.ok c) =>
            Except.ok (Except.ok
              { c with
                trace := [ContextEffect.removeAll joined.TmpPath,
                  ContextEffect.mkdirAll joined.TmpPath] ++ c.trace })
          | r => r

/-- The preset `Resolution1080P` of context.go. -/
def Resolution1080P : StreamSpec := { Name := "1080P", Width := 1920, Height := 1080 }

/-- The preset `Origin` of context.go. -/
def Origin : StreamSpec := { Name := "Origin" }

/-- The configuration of a service made by `NewService` for HLS with the spec `Origin`,
the tmp path `/tmp/vod` and an idle timeout of 2 seconds (default chunk duration 6 and
buffers 10 and 3, no hardware acceleration). -/
def serviceHLS : ContextConfig :=
  { Format := FormatHLS, ChunkDuration := 6, MaxBuffer := 10, MinBuffer := 3
    StreamSpec := [Origin], SupportVideoCodec := ["h264"], SupportAudioCodec := ["aac"]
    ListGenerator := true, TSGenerator := true, IdleTimeout := 2, HWAccel := -1
    TmpPath := "/tmp/vod", FFMpegPath := "/usr/bin/ffmpeg", FFProbePath := "/usr/bin/ffprobe" }

/-- The configuration of a service made by `NewService` for the format `mp4` with the
spec `Resolution1080P`. -/
def serviceMP4 : ContextConfig :=
  { Format := FormatMP4
    StreamSpec := [Resolution1080P], SupportVideoCodec := ["h264"], SupportAudioCodec := ["aac"]
    HWAccel := -1
    TmpPath := "/tmp/vod", FFMpegPath := "/usr/bin/ffmpeg", FFProbePath := "/usr/bin/ffprobe" }

/-- The configuration of a service made by `NewService` for the format `ts` with the
spec `Origin`. -/
def serviceTS : ContextConfig :=
  { Format := FormatTS
    StreamSpec := [Origin], SupportVideoCodec := ["h264"], SupportAudioCodec := ["aac"]
    HWAccel := -1
    TmpPath := "/tmp/vod", FFMpegPath := "/usr/bin/ffmpeg", FFProbePath := "/usr/bin/ffprobe" }

/-- The context that `CreateContext` builds in `serviceHLS` for the id `movie`, the
configuration of the service passed again as the request (as the test
`TestCreateContextHLSWithIdle` does) and the h264 source of 1920x1080, at time 0. -/
def movieContext : ContextState :=
  { id := "movie", path := "/media/movie.mkv", lastAccess := 0
    contextConfig := { serviceHLS with TmpPath := "/tmp/vod/movie" }
    onClose := true, closed := false, err := none, info := info1080
    streams :=
      [newStream Origin
        { id := "movie", path := "/media/movie.mkv", lastAccess := 0
          contextConfig := { serviceHLS with TmpPath := "/tmp/vod/movie" } } info1080]
    trace := [ContextEffect.removeAll "/tmp/vod/movie", ContextEffect.mkdirAll "/tmp/vod/movie",
      ContextEffect.mkdirAll "/tmp/vod/movie/movie", ContextEffect.goCheckAlive] }

/-! ## Basic facts -/

theorem checkGoal_eq (s : Stream) (index : Int) :
    checkGoal s index =
      { s with
        goal := if wrap64 (index + s.context.contextConfig.MinBuffer) > s.goal
          then wrap64 (index + s.context.contextConfig.MaxBuffer) else s.goal
        cmd := s.cmd.map (fun c => { c with suspended := false })
        trace := s.trace ++ (s.cmd.map (fun c => Effect.resume c.pid)).toList } := by
  unfold checkGoal
  by_cases h : wrap64 (index + s.context.contextConfig.MinBuffer) > s.goal <;>
    cases hc : s.cmd <;> simp [h, hc]
  rw [← hc]

theorem checkGoal_chunks (s : Stream) (index : Int) : (checkGoal s index).chunks = s.chunks := by
  rw [checkGoal_eq]

theorem checkGoal_heap (s : Stream) (index : Int) : (checkGoal s index).heap = s.heap := by
  rw [checkGoal_eq]

theorem checkGoal_context (s : Stream) (index : Int) :
    (checkGoal s index).context = s.context := by
  rw [checkGoal_eq]

theorem checkGoal_nextPid (s : Stream) (index : Int) :
    (checkGoal s index).nextPid = s.nextPid := by
  rw [checkGoal_eq]

theorem checkGoal_goal_eq (s : Stream) (index : Int) :
    (checkGoal s index).goal =
      if wrap64 (index + s.context.contextConfig.MinBuffer) > s.goal
      then wrap64 (index + s.context.contextConfig.MaxBuffer) else s.goal := by
  rw [checkGoal_eq]

theorem wrap64_of_range (x : Int) (h1 : -2 ^ 63 ≤ x) (h2 : x < 2 ^ 63) : wrap64 x = x := by
  unfold wrap64
  norm_num at h1 h2 ⊢
  omega

theorem wrap64_range (x : Int) : -2 ^ 63 ≤ wrap64 x ∧ wrap64 x < 2 ^ 63 := by
  unfold wrap64
  norm_num
  omega

theorem nearMiss_iff (s : Stream) (index : Int) :
    nearMiss s index = true ↔
      ∃ i, index - 3 ≤ i ∧ i < index ∧ (mapGet s.chunks i).isSome = true := by
  simp only [nearMiss, List.any_cons, List.any_nil, Bool.or_false, Bool.or_eq_true]
  constructor
  · rintro (h | h | h)
    · exact ⟨_, by omega, by omega, h⟩
    · exact ⟨_, by omega, by omega, h⟩
    · exact ⟨_, by omega, by omega, h⟩
  · rintro ⟨i, h1, h2, h⟩
    have hi : i = index - 3 ∨ i = index - 2 ∨ i = index - 1 := by omega
    rcases hi with rfl | rfl | rfl
    · exact Or.inl h
    · exact Or.inr (Or.inl h)
    · exact Or.inr (Or.inr h)

theorem nearMiss_checkGoal (s : Stream) (index j : Int) :
    nearMiss (checkGoal s j) index = nearMiss s index := by
  simp only [nearMiss, checkGoal_chunks]

/-! ## Facts about `destroy` -/

theorem destroy_chunks (s : Stream) (c : Nat) : (destroy s c).chunks = s.chunks := by
  unfold destroy; split <;> rfl

theorem destroy_goal (s : Stream) (c : Nat) : (destroy s c).goal = s.goal := by
  unfold destroy; split <;> rfl

theorem destroy_cmd (s : Stream) (c : Nat) : (destroy s c).cmd = s.cmd := by
  unfold destroy; split <;> rfl

theorem destroy_nextPid (s : Stream) (c : Nat) : (destroy s c).nextPid = s.nextPid := by
  unfold destroy; split <;> rfl

theorem destroy_context (s : Stream) (c : Nat) : (destroy s c).context = s.context := by
  unfold destroy; split <;> rfl

theorem destroy_heap_length (s : Stream) (c : Nat) :
    (destroy s c).heap.length = s.heap.length := by
  unfold destroy; split <;> simp

theorem destroy_record (s : Stream) (c a : Nat) :
    (destroy s c).record a = if a = c then (s.record a).map tsChunk.Close else s.record a := by
  unfold destroy Stream.record
  cases h : s.heap[c]? with
  | none =>
    by_cases hac : a = c
    · subst hac; simp [h]
    · simp [hac]
  | some r =>
    by_cases hac : a = c
    · subst hac
      have hlt : a < s.heap.length := by
        rcases Nat.lt_or_ge a s.heap.length with hlt | hge
        · exact hlt
        · rw [List.getElem?_eq_none hge] at h; cases h
      simp [h, List.getElem?_set, hlt]
    · have hca : ¬ c = a := fun e => hac e.symm
      simp [hac, List.getElem?_set, hca]

theorem destroy_trace (s : Stream) (c : Nat) :
    ∃ t, (destroy s c).trace = s.trace ++ t ∧
      (∀ e ∈ t, (∃ a, e = Effect.closeFile a) ∨ (∃ q, e = Effect.remove q)) ∧
      (∀ r, s.record c = some r → Effect.remove r.path ∈ t) := by
  unfold destroy Stream.record
  cases h : s.heap[c]? with
  | none => exact ⟨[], by simp, by simp, by simp⟩
  | some r =>
    refine ⟨(if r.f then [Effect.closeFile c] else []) ++ [Effect.remove r.path], ?_, ?_, ?_⟩
    · simp
    · intro e he
      by_cases hf : r.f = true
      · simp [hf] at he
        rcases he with rfl | rfl
        · exact Or.inl ⟨_, rfl⟩
        · exact Or.inr ⟨_, rfl⟩
      · simp [hf] at he
        exact Or.inr ⟨_, he⟩
    · intro r1 hr1
      cases hr1
      simp

theorem destroyAll_nil (s : Stream) : destroyAll s [] = s := rfl

theorem destroyAll_cons (s : Stream) (e : Int × Nat) (l : List (Int × Nat)) :
    destroyAll s (e :: l) = destroyAll (destroy s e.2) l := rfl

theorem destroyAll_chunks (s : Stream) (l : List (Int × Nat)) :
    (destroyAll s l).chunks = s.chunks := by
  induction l generalizing s with
  | nil => rfl
  | cons e l ih => rw [destroyAll_cons, ih, destroy_chunks]

theorem destroyAll_goal (s : Stream) (l : List (Int × Nat)) :
    (destroyAll s l).goal = s.goal := by
  induction l generalizing s with
  | nil => rfl
  | cons e l ih => rw [destroyAll_cons, ih, destroy_goal]

theorem destroyAll_cmd (s : Stream) (l : List (Int × Nat)) :
    (destroyAll s l).cmd = s.cmd := by
  induction l generalizing s with
  | nil => rfl
  | cons e l ih => rw [destroyAll_cons, ih, destroy_cmd]

theorem destroyAll_nextPid (s : Stream) (l : List (Int × Nat)) :
    (destroyAll s l).nextPid = s.nextPid := by
  induction l generalizing s with
  | nil => rfl
  | cons e l ih => rw [destroyAll_cons, ih, destroy_nextPid]

theorem destroyAll_context (s : Stream) (l : List (Int × Nat)) :
    (destroyAll s l).context = s.context := by
  induction l generalizing s with
  | nil => rfl
  | cons e l ih => rw [destroyAll_cons, ih, destroy_context]

theorem destroyAll_heap_length (s : Stream) (l : List (Int × Nat)) :
    (destroyAll s l).heap.length = s.heap.length := by
  induction l generalizing s with
  | nil => rfl
  | cons e l ih => rw [destroyAll_cons, ih, destroy_heap_length]

theorem destroyAll_record (s : Stream) (l : List (Int × Nat)) (a : Nat) :
    (destroyAll s l).record a =
      if a ∈ l.map (fun e => e.2) then (s.record a).map tsChunk.Close else s.record a := by
  induction l generalizing s with
  | nil => simp [destroyAll_nil]
  | cons e l ih =>
    rw [destroyAll_cons, ih, destroy_record]
    have hcc : ∀ o : Option tsChunk,
        (o.map tsChunk.Close).map tsChunk.Close = o.map tsChunk.Close := by
      intro o; cases o <;> rfl
    have hmem : a ∈ (e :: l).map (fun e => e.2) ↔ a = e.2 ∨ a ∈ l.map (fun e => e.2) := by
      simp only [List.map_cons, List.mem_cons]
    by_cases h1 : a = e.2
    · by_cases h2 : a ∈ l.map (fun e => e.2)
      · rw [if_pos h2, if_pos h1, hcc, if_pos (hmem.2 (Or.inl h1))]
      · rw [if_neg h2, if_pos h1, if_pos (hmem.2 (Or.inl h1))]
    · by_cases h2 : a ∈ l.map (fun e => e.2)
      · rw [if_pos h2, if_neg h1, if_pos (hmem.2 (Or.inr h2))]
      · rw [if_neg h2, if_neg h1, if_neg (fun h => (hmem.1 h).elim h1 h2)]

theorem destroyAll_done (s : Stream) (l : List (Int × Nat)) (a : Nat) :
    ((destroyAll s l).record a).map (fun r => r.done) = (s.record a).map (fun r => r.done) := by
  rw [destroyAll_record]
  split_ifs <;> cases s.record a <;> rfl

theorem destroyAll_trace (s : Stream) (l : List (Int × Nat)) :
    ∃ t, (destroyAll s l).trace = s.trace ++ t ∧
      (∀ e ∈ t, (∃ a, e = Effect.closeFile a) ∨ (∃ q, e = Effect.remove q)) ∧
      (∀ e ∈ l, ∀ r, s.record e.2 = some r → Effect.remove r.path ∈ t) := by
  induction l generalizing s with
  | nil => exact ⟨[], by simp [destroyAll_nil], by simp, by simp⟩
  | cons e l ih =>
    obtain ⟨t1, h1, h1k, h1r⟩ := destroy_trace s e.2
    obtain ⟨t2, h2, h2k, h2r⟩ := ih (destroy s e.2)
    refine ⟨t1 ++ t2, ?_, ?_, ?_⟩
    · rw [destroyAll_cons, h2, h1, List.append_assoc]
    · intro x hx
      rcases List.mem_append.1 hx with hx | hx
      · exact h1k x hx
      · exact h2k x hx
    · intro x hx r hr
      rcases List.mem_cons.1 hx with rfl | hx
      · exact List.mem_append.2 (Or.inl (h1r r hr))
      · by_cases hxe : x.2 = e.2
        · rw [hxe] at hr
          exact List.mem_append.2 (Or.inl (h1r r hr))
        · have hrec : (destroy s e.2).record x.2 = some r := by
            rw [destroy_record, if_neg hxe, hr]
          exact List.mem_append.2 (Or.inr (h2r x hx r hrec))

/-! ## Facts about the map -/

theorem mapGet_nil (k : Int) : mapGet [] k = none := rfl

theorem mapGet_cons (e : Int × Nat) (m : List (Int × Nat)) (k : Int) :
    mapGet (e :: m) k = if e.1 = k then some e.2 else mapGet m k := by
  by_cases h : e.1 = k <;> simp [mapGet, List.find?_cons, h]

theorem mapGet_append (m1 m2 : List (Int × Nat)) (k : Int) :
    mapGet (m1 ++ m2) k = (mapGet m1 k).or (mapGet m2 k) := by
  induction m1 with
  | nil => simp [mapGet_nil]
  | cons e m ih =>
    rw [List.cons_append, mapGet_cons, mapGet_cons, ih]
    split_ifs <;> simp

theorem mapGet_mapDelete (m : List (Int × Nat)) (k j : Int) :
    mapGet (mapDelete m k) j = if j = k then none else mapGet m j := by
  induction m with
  | nil => simp [mapDelete, mapGet_nil]
  | cons e m ih =>
    unfold mapDelete at ih ⊢
    by_cases h : e.1 = k
    · have hf : (!decide (e.1 = k)) = false := by simp [h]
      rw [List.filter_cons_of_neg (by simp [h]), ih, mapGet_cons]
      by_cases hj : j = k
      · simp [hj]
      · have : ¬ e.1 = j := by rw [h]; exact fun e => hj e.symm
        simp [hj, this]
    · rw [List.filter_cons_of_pos (by simp [h]), mapGet_cons, ih, mapGet_cons]
      by_cases hj : j = k
      · have : ¬ e.1 = j := by rw [hj]; exact h
        simp [hj, this, h]
      · simp [hj]

theorem mapGet_mapSet (m : List (Int × Nat)) (k j : Int) (v : Nat) :
    mapGet (mapSet m k v) j = if j = k then some v else mapGet m j := by
  unfold mapSet
  rw [mapGet_append, mapGet_mapDelete, mapGet_cons, mapGet_nil]
  by_cases hj : j = k
  · simp [hj]
  · have : ¬ k = j := fun e => hj e.symm
    simp [hj, this]

theorem mapGet_isSome_iff (m : List (Int × Nat)) (k : Int) :
    (mapGet m k).isSome = true ↔ k ∈ m.map (fun e => e.1) := by
  induction m with
  | nil => simp [mapGet_nil]
  | cons e m ih =>
    rw [mapGet_cons]
    by_cases h : e.1 = k
    · simp [h]
    · have hk : ¬ k = e.1 := fun x => h x.symm
      simp [h, hk, ih]

theorem mapGet_mem (m : List (Int × Nat)) (k : Int) (c : Nat) (h : mapGet m k = some c) :
    (k, c) ∈ m := by
  induction m with
  | nil => simp [mapGet_nil] at h
  | cons e m ih =>
    rw [mapGet_cons] at h
    by_cases hk : e.1 = k
    · rw [if_pos hk] at h
      cases h
      exact List.mem_cons.2 (Or.inl (by rw [← hk]))
    · rw [if_neg hk] at h
      exact List.mem_cons.2 (Or.inr (ih h))

/-! ## Facts about `stopProcess` and `restartAtChunk` -/

theorem stopProcess_eq (s : Stream) :
    stopProcess s =
      { destroyAll { s with chunks := [] } s.chunks with
        cmd := none
        trace := (destroyAll { s with chunks := [] } s.chunks).trace ++
          (s.cmd.map (fun c => Effect.kill c.pid)).toList } := by
  unfold stopProcess
  simp only
  generalize hd : destroyAll { s with chunks := [] } s.chunks = d
  have hc : d.cmd = s.cmd := by rw [← hd]; exact destroyAll_cmd _ _
  cases h : s.cmd with
  | none =>
    rw [h] at hc
    simp [hc]
    rw [← hc]
  | some c =>
    rw [h] at hc
    simp [hc]

theorem stopProcess_chunks (s : Stream) : (stopProcess s).chunks = [] := by
  rw [stopProcess_eq]; exact destroyAll_chunks _ _

theorem stopProcess_cmd (s : Stream) : (stopProcess s).cmd = none := by
  rw [stopProcess_eq]

theorem stopProcess_goal (s : Stream) : (stopProcess s).goal = s.goal := by
  rw [stopProcess_eq]; exact destroyAll_goal _ _

theorem stopProcess_context (s : Stream) : (stopProcess s).context = s.context := by
  rw [stopProcess_eq]; exact destroyAll_context _ _

theorem stopProcess_nextPid (s : Stream) : (stopProcess s).nextPid = s.nextPid := by
  rw [stopProcess_eq]; exact destroyAll_nextPid _ _

theorem stopProcess_heap_length (s : Stream) : (stopProcess s).heap.length = s.heap.length := by
  rw [stopProcess_eq]; exact destroyAll_heap_length _ _

theorem stopProcess_record (s : Stream) (a : Nat) :
    (stopProcess s).record a =
      if a ∈ s.chunks.map (fun e => e.2) then (s.record a).map tsChunk.Close else s.record a := by
  rw [stopProcess_eq]
  exact destroyAll_record { s with chunks := [] } s.chunks a

theorem stopProcess_trace (s : Stream) :
    ∃ t, (stopProcess s).trace =
        s.trace ++ t ++ (s.cmd.map (fun c => Effect.kill c.pid)).toList ∧
      (∀ e ∈ t, (∃ a, e = Effect.closeFile a) ∨ (∃ q, e = Effect.remove q)) ∧
      (∀ e ∈ s.chunks, ∀ r, s.record e.2 = some r → Effect.remove r.path ∈ t) := by
  obtain ⟨t, h1, h2, h3⟩ := destroyAll_trace { s with chunks := [] } s.chunks
  refine ⟨t, ?_, h2, h3⟩
  rw [stopProcess_eq]
  simp only [h1]

theorem restartAtChunk_ok (s : Stream) (index : Int) :
    restartAtChunk s index Spawn.ok =
      ({ stopProcess s with
          goal := wrap64 (index + s.context.contextConfig.MaxBuffer)
          heap := (stopProcess s).heap ++ [{ id := index, done := false, path := "" }]
          chunks := [(index, s.heap.length)]
          cmd := some { pid := s.nextPid, index := index }
          nextPid := s.nextPid + 1
          trace := (stopProcess s).trace ++ [Effect.start s.nextPid index] },
        Served.wait s.heap.length) := by
  simp only [restartAtChunk, waitForChunk, stopProcess_chunks, stopProcess_context,
    stopProcess_nextPid, stopProcess_heap_length, mapGet_mapSet, if_true]
  simp [mapSet, mapDelete]

/-! ## Facts about the ingestion step -/

theorem evict_chunks (s : Stream) :
    (evict s).chunks =
      s.chunks.filter (fun e => !decide (e.1 < s.goal - s.context.contextConfig.MaxBuffer)) := rfl

theorem evict_goal (s : Stream) : (evict s).goal = s.goal := by
  unfold evict; exact destroyAll_goal _ _

theorem evict_context (s : Stream) : (evict s).context = s.context := by
  unfold evict; exact destroyAll_context _ _

theorem evict_cmd (s : Stream) : (evict s).cmd = s.cmd := by
  unfold evict; exact destroyAll_cmd _ _

theorem evict_record (s : Stream) (a : Nat) :
    (evict s).record a =
      if a ∈ (s.chunks.filter
          (fun e => decide (e.1 < s.goal - s.context.contextConfig.MaxBuffer))).map (fun e => e.2)
      then (s.record a).map tsChunk.Close else s.record a := by
  unfold evict
  exact destroyAll_record s _ a

theorem evict_trace (s : Stream) :
    ∃ t, (evict s).trace = s.trace ++ t ∧
      (∀ e ∈ t, (∃ a, e = Effect.closeFile a) ∨ (∃ q, e = Effect.remove q)) ∧
      (∀ e ∈ s.chunks, e.1 < s.goal - s.context.contextConfig.MaxBuffer →
        ∀ r, s.record e.2 = some r → Effect.remove r.path ∈ t) := by
  obtain ⟨t, h1, h2, h3⟩ := destroyAll_trace s
    (s.chunks.filter (fun e => decide (e.1 < s.goal - s.context.contextConfig.MaxBuffer)))
  refine ⟨t, h1, h2, ?_⟩
  intro e he hlow r hr
  exact h3 e (List.mem_filter.2 ⟨he, by simpa using hlow⟩) r hr

theorem evict_lower_bound (s : Stream) :
    ∀ r ∈ resident (evict s), (evict s).goal - (evict s).context.contextConfig.MaxBuffer ≤ r := by
  intro r hr
  rw [evict_goal, evict_context]
  unfold resident at hr
  rw [evict_chunks] at hr
  obtain ⟨e, he, rfl⟩ := List.mem_map.1 hr
  have := (List.mem_filter.1 he).2
  simp at this
  omega

theorem monitorChunkEvent_ok (s t : Stream) (id : Int) (segment : String)
    (h : monitorChunkEvent s id segment = Except.ok t) :
    ∃ s1 s2, markReady s id segment = Except.ok s1 ∧ suspendAtGoal s1 id = Except.ok s2 ∧
      t = evict s2 := by
  unfold monitorChunkEvent at h
  split at h
  · cases h
  · rename_i s1 h1
    split at h
    · cases h
    · rename_i s2 h2
      cases h
      exact ⟨s1, s2, h1, h2, rfl⟩

theorem run_append (s : Stream) (a b : List Step) :
    run s (a ++ b) =
      match run s a with
      | Except.error p => Except.error p
      | Except.ok s1 => run s1 b := by
  induction a generalizing s with
  | nil => rfl
  | cons st a ih =>
    simp only [List.cons_append, run]
    cases step s st with
    | error p => rfl
    | ok s1 => exact ih s1

theorem evict_forgets (s : Stream) (k : Int)
    (h : k < s.goal - s.context.contextConfig.MaxBuffer) : mapGet (evict s).chunks k = none := by
  cases hk : mapGet (evict s).chunks k with
  | none => rfl
  | some c =>
    have hmem := mapGet_mem _ _ _ hk
    rw [evict_chunks] at hmem
    have := (List.mem_filter.1 hmem).2
    simp at this
    omega

theorem restartAtChunk_trace (s : Stream) (index : Int) (sp : Spawn) :
    ∃ t, (restartAtChunk s index sp).1.trace = s.trace ++ t := by
  obtain ⟨t, ht, _, _⟩ := stopProcess_trace s
  cases sp with
  | ok =>
    rw [restartAtChunk_ok]
    exact ⟨t ++ (s.cmd.map (fun c => Effect.kill c.pid)).toList ++ [Effect.start s.nextPid index],
      by simp [ht]⟩
  | stderrPipeFails =>
    exact ⟨t ++ (s.cmd.map (fun c => Effect.kill c.pid)).toList, by simp [restartAtChunk, ht]⟩
  | stdoutPipeFails =>
    exact ⟨t ++ (s.cmd.map (fun c => Effect.kill c.pid)).toList, by simp [restartAtChunk, ht]⟩
  | startFails =>
    exact ⟨t ++ (s.cmd.map (fun c => Effect.kill c.pid)).toList, by simp [restartAtChunk, ht]⟩

theorem waitForChunk_fields (s : Stream) (index : Int) :
    (waitForChunk s index).1.goal = s.goal ∧ (waitForChunk s index).1.cmd = s.cmd ∧
    (waitForChunk s index).1.trace = s.trace ∧ (waitForChunk s index).1.context = s.context ∧
    (mapGet (waitForChunk s index).1.chunks index).isSome = true := by
  unfold waitForChunk
  cases h : mapGet s.chunks index with
  | some c => simp [h]
  | none => simp [mapGet_mapSet]

theorem serveChunk_of_resident_or_near (s : Stream) (index : Int) (sp : Spawn)
    (h : (mapGet s.chunks index).isSome = true ∨ nearMiss s index = true) :
    serveChunk s index sp = waitForChunk (checkGoal s index) index := by
  unfold serveChunk
  simp only
  cases hm : mapGet (checkGoal s index).chunks index with
  | some c => simp [waitForChunk, hm]
  | none =>
    rw [checkGoal_chunks] at hm
    rcases h with h | h
    · rw [hm] at h; cases h
    · rw [nearMiss_checkGoal, h]; rfl

theorem markReady_ok (s : Stream) (id : Int) (segment : String)
    (h : ∀ a, mapGet s.chunks id = some a → ∃ r, s.record a = some r ∧ r.done = false) :
    ∃ s1, markReady s id segment = Except.ok s1 ∧ s1.goal = s.goal ∧ s1.cmd = s.cmd ∧
      s1.trace = s.trace ∧ s1.context = s.context := by
  unfold markReady
  cases hm : mapGet s.chunks id with
  | none => exact ⟨_, rfl, rfl, rfl, rfl, rfl⟩
  | some a =>
    obtain ⟨r, hr, hd⟩ := h a hm
    unfold Stream.record at hr
    simp only [hr, hd]
    exact ⟨_, rfl, rfl, rfl, rfl, rfl⟩

theorem not_suspend_of_file_effect (e : Effect) (p : Nat)
    (h : (∃ a, e = Effect.closeFile a) ∨ (∃ q, e = Effect.remove q)) : e ≠ Effect.suspend p := by
  rcases h with ⟨a, rfl⟩ | ⟨q, rfl⟩ <;> intro h <;> cases h

theorem suspendAtGoal_pos (s : Stream) (id : Int) (c : Cmd) (hc : s.cmd = some c)
    (h : id ≥ s.goal) :
    suspendAtGoal s id =
      Except.ok { s with cmd := some { c with suspended := true }
                         trace := s.trace ++ [Effect.suspend c.pid] } := by
  simp [suspendAtGoal, h, hc]

theorem suspendAtGoal_neg (s : Stream) (id : Int) (h : ¬ id ≥ s.goal) :
    suspendAtGoal s id = Except.ok s := by
  simp [suspendAtGoal, h]

theorem monitorChunkEvent_eq (s s1 s2 : Stream) (id : Int) (segment : String)
    (h1 : markReady s id segment = Except.ok s1) (h2 : suspendAtGoal s1 id = Except.ok s2) :
    monitorChunkEvent s id segment = Except.ok (evict s2) := by
  simp only [monitorChunkEvent, h1, h2]

theorem newEffects_append (s t : Stream) (l : List Effect) (h : t.trace = s.trace ++ l) :
    newEffects s t = l := by
  simp [newEffects, h]

theorem serveChunk_resumes_live_process_aux (s : Stream) (index : Int) (sp : Spawn) (c : Cmd)
    (hc : s.cmd = some c) :
    (∃ t, (serveChunk s index sp).1.trace = s.trace ++ [Effect.resume c.pid] ++ t) ∧
    ((mapGet s.chunks index).isSome = true ∨ nearMiss s index = true →
      (serveChunk s index sp).1.cmd = some { c with suspended := false }) := by
  have h1 : (checkGoal s index).cmd = some { c with suspended := false } := by
    rw [checkGoal_eq]; simp [hc]
  have h2 : (checkGoal s index).trace = s.trace ++ [Effect.resume c.pid] := by
    rw [checkGoal_eq]; simp [hc]
  refine ⟨?_, ?_⟩
  · by_cases hn : (mapGet s.chunks index).isSome = true ∨ nearMiss s index = true
    · rw [serveChunk_of_resident_or_near s index sp hn, (waitForChunk_fields _ _).2.2.1, h2]
      exact ⟨[], by simp⟩
    · have hm : mapGet (checkGoal s index).chunks index = none := by
        rw [checkGoal_chunks]
        cases hg : mapGet s.chunks index with
        | none => rfl
        | some a => exact absurd (Or.inl (by simp [hg])) hn
      have hnm : nearMiss (checkGoal s index) index = false := by
        rw [nearMiss_checkGoal]
        cases hg : nearMiss s index with
        | false => rfl
        | true => exact absurd (Or.inr hg) hn
      obtain ⟨t, ht⟩ := restartAtChunk_trace (checkGoal s index) index sp
      refine ⟨t, ?_⟩
      simp only [serveChunk, hm, hnm]
      rw [← h2]
      exact ht
  · intro hn
    rw [serveChunk_of_resident_or_near s index sp hn, (waitForChunk_fields _ _).2.1, h1]

/-! ## Settled claims -/

/-- C1. `serveChunk` decides between hit, near-miss and far-miss: a resident index is
waited on; a missing index with a resident id among the three before it gets a pending
record and is waited on, the process and the trace being those left by `checkGoal`
(no restart); otherwise the call is `restartAtChunk` at the index, which on a
successful launch records a process started at that index.  With the ids 10, 11, 12
resident, 14 and 15 wait on a new pending record and 16 restarts. -/
theorem serveChunk_decision (s : Stream) (index : Int) (sp : Spawn) :
    (∀ c, mapGet s.chunks index = some c →
      serveChunk s index sp = (checkGoal s index, Served.wait c)) ∧
    (mapGet s.chunks index = none →
      (∃ i, index - 3 ≤ i ∧ i < index ∧ (mapGet s.chunks i).isSome = true) →
      serveChunk s index sp =
        ({ checkGoal s index with
            heap := s.heap ++ [{ id := index, done := false, path := "" }]
            chunks := mapSet s.chunks index s.heap.length },
          Served.wait s.heap.length)) ∧
    (mapGet s.chunks index = none →
      (¬ ∃ i, index - 3 ≤ i ∧ i < index ∧ (mapGet s.chunks i).isSome = true) →
      serveChunk s index sp = restartAtChunk (checkGoal s index) index sp ∧
      (serveChunk s index Spawn.ok).1.cmd = some { pid := s.nextPid, index := index }) ∧
    ((serveChunk engineAt10 14 sp).2 = Served.wait 3 ∧
      (serveChunk engineAt10 14 sp).1.chunks = [(10, 0), (11, 1), (12, 2), (14, 3)] ∧
      (serveChunk engineAt10 14 sp).1.cmd = some { pid := 0, index := 10 } ∧
      (serveChunk engineAt10 15 sp).2 = Served.wait 3 ∧
      (serveChunk engineAt10 15 sp).1.chunks = [(10, 0), (11, 1), (12, 2), (15, 3)] ∧
      (serveChunk engineAt10 15 sp).1.cmd = some { pid := 0, index := 10 } ∧
      (serveChunk engineAt10 16 Spawn.ok).1.chunks = [(16, 3)] ∧
      (serveChunk engineAt10 16 Spawn.ok).1.cmd = some { pid := 1, index := 16 } ∧
      (serveChunk engineAt10 16 Spawn.ok).1.trace =
        [Effect.start 0 10, Effect.resume 0, Effect.remove "/tmp/10.ts",
          Effect.remove "/tmp/11.ts", Effect.remove "/tmp/12.ts", Effect.kill 0,
          Effect.start 1 16]) := by
  refine ⟨?_, ?_, ?_, ?_⟩
  · intro c hc
    simp only [serveChunk, checkGoal_chunks, hc]
  · intro hnone hnear
    have hn : nearMiss (checkGoal s index) index = true := by
      rw [nearMiss_checkGoal]; exact (nearMiss_iff s index).2 hnear
    simp only [serveChunk, checkGoal_chunks, hnone, hn, if_true, waitForChunk, checkGoal_heap]
  · intro hnone hfar
    have hn : nearMiss (checkGoal s index) index = false := by
      rw [nearMiss_checkGoal]
      cases h : nearMiss s index
      · rfl
      · exact absurd ((nearMiss_iff s index).1 h) hfar
    refine ⟨?_, ?_⟩
    · simp only [serveChunk, checkGoal_chunks, hnone, hn]
      rfl
    · simp only [serveChunk, checkGoal_chunks, hnone, hn, restartAtChunk_ok, checkGoal_nextPid]
      rfl
  · cases sp <;> decide

/-- Witness for C1 on the engine holding 10, 11, 12: index 12 is a hit, index 14 a
near-miss, index 16 a far-miss. -/
theorem serveChunk_decision_witness :
    serveChunk engineAt10 12 Spawn.ok = (checkGoal engineAt10 12, Served.wait 2) ∧
    serveChunk engineAt10 14 Spawn.ok =
      ({ checkGoal engineAt10 14 with
          heap := engineAt10.heap ++ [{ id := 14, done := false, path := "" }]
          chunks := mapSet engineAt10.chunks 14 engineAt10.heap.length },
        Served.wait engineAt10.heap.length) ∧
    (serveChunk engineAt10 16 Spawn.ok = restartAtChunk (checkGoal engineAt10 16) 16 Spawn.ok ∧
      (serveChunk engineAt10 16 Spawn.ok).1.cmd = some { pid := engineAt10.nextPid, index := 16 }) :=
  ⟨(serveChunk_decision engineAt10 12 Spawn.ok).1 2 (by decide),
    (serveChunk_decision engineAt10 14 Spawn.ok).2.1 (by decide)
      ⟨12, by decide, by decide, by decide⟩,
    (serveChunk_decision engineAt10 16 Spawn.ok).2.2.1 (by decide)
      (fun h => absurd ((nearMiss_iff engineAt10 16).2 h) (by decide))⟩

/-- C2.  `checkGoal index` adds in Go `int`: it sets `goal` to `index + MaxBuffer` when
`index + MinBuffer > goal` and leaves `goal` as it is otherwise, the two sums being
64-bit sums (`wrap64`), for every index; the stored goal is an `int`.  When the two sums
are in the range of `int` they are the exact sums.  On a fresh engine with
`MaxBuffer = 5` and `MinBuffer = 2`, serving index 0 leaves `goal = 5`, whatever the
launch of the transcoder answers. -/
theorem checkGoal_goal (s : Stream) (index : Int) (sp : Spawn) :
    (wrap64 (index + s.context.contextConfig.MinBuffer) > s.goal →
      (checkGoal s index).goal = wrap64 (index + s.context.contextConfig.MaxBuffer)) ∧
    (¬ wrap64 (index + s.context.contextConfig.MinBuffer) > s.goal →
      (checkGoal s index).goal = s.goal) ∧
    (-2 ^ 63 ≤ index + s.context.contextConfig.MinBuffer →
      index + s.context.contextConfig.MinBuffer < 2 ^ 63 →
      -2 ^ 63 ≤ index + s.context.contextConfig.MaxBuffer →
      index + s.context.contextConfig.MaxBuffer < 2 ^ 63 →
      (index + s.context.contextConfig.MinBuffer > s.goal →
        (checkGoal s index).goal = index + s.context.contextConfig.MaxBuffer) ∧
      (¬ index + s.context.contextConfig.MinBuffer > s.goal →
        (checkGoal s index).goal = s.goal)) ∧
    (engine 5 2).goal = 0 ∧
    (checkGoal (engine 5 2) 0).goal = 5 ∧
    (serveChunk (engine 5 2) 0 sp).1.goal = 5 ∧
    (checkGoal (engine 5 2) 9223372036854775806).goal = 0 := by
  refine ⟨?_, ?_, ?_, rfl, by decide, ?_, by decide⟩
  · intro h
    rw [checkGoal_goal_eq, if_pos h]
  · intro h
    rw [checkGoal_goal_eq, if_neg h]
  · intro h1 h2 h3 h4
    rw [checkGoal_goal_eq, wrap64_of_range _ h1 h2, wrap64_of_range _ h3 h4]
    exact ⟨fun h => if_pos h, fun h => if_neg h⟩
  · cases sp <;> decide

/-- Witness for C2: on the engine holding 10, 11, 12 with `goal = 15`, index 14 raises
the goal to 19 and index 13 leaves it at 15. -/
theorem checkGoal_goal_witness :
    (checkGoal engineAt10 14).goal = 14 + engineAt10.context.contextConfig.MaxBuffer ∧
    (checkGoal engineAt10 13).goal = engineAt10.goal :=
  ⟨((checkGoal_goal engineAt10 14 Spawn.ok).2.2.1 (by decide) (by decide) (by decide)
      (by decide)).1 (by decide),
    ((checkGoal_goal engineAt10 13 Spawn.ok).2.2.1 (by decide) (by decide) (by decide)
      (by decide)).2 (by decide)⟩

/-- C3, as stated, fails.  After index 0 was requested, segments 0 to 4 were reported
and index 4 was requested, the goal is 9 while ids 0 to 3 are still resident, below
`goal - MaxBuffer = 4`.  After a process suspended at segment 5 was resumed by a
further request for index 0 and reported segment 6, id 6 is resident above `goal = 5`. -/
theorem resident_window_counterexample :
    (∃ s, run (engine 5 2) traceServe4 = Except.ok s ∧
      resident s = [0, 1, 2, 3, 4] ∧ s.goal = 9 ∧ s.context.contextConfig.MaxBuffer = 5 ∧
      ¬ (s.goal - s.context.contextConfig.MaxBuffer ≤ 0 ∧ 0 ≤ s.goal)) ∧
    (∃ s, run (engine 5 2)
        (traceSuspended ++ [Step.serve 0 Spawn.ok, Step.ready 6 "/tmp/6.ts"]) = Except.ok s ∧
      resident s = [0, 1, 2, 3, 4, 5, 6] ∧ s.goal = 5 ∧
      ¬ (s.goal - s.context.contextConfig.MaxBuffer ≤ 6 ∧ 6 ≤ s.goal)) :=
  ⟨⟨_, rfl, rfl, rfl, rfl, by decide⟩, ⟨_, rfl, rfl, rfl, by decide⟩⟩

/-- C3, amended.  In every state reached from a fresh engine by a sequence of
`serveChunk` calls and ingestion steps that ends with an ingestion step, every
resident id is at least `goal - MaxBuffer`. -/
theorem resident_lower_bound_after_ingestion (spec : StreamSpec) (context : Context)
    (info : ProbeInfo) (tr : List Step) (id : Int) (segment : String) (s : Stream)
    (h : run (newStream spec context info) (tr ++ [Step.ready id segment]) = Except.ok s) :
    ∀ r ∈ resident s, s.goal - s.context.contextConfig.MaxBuffer ≤ r := by
  rw [run_append] at h
  cases h1 : run (newStream spec context info) tr with
  | error p => rw [h1] at h; cases h
  | ok s1 =>
    rw [h1] at h
    simp only [run, step] at h
    cases h2 : monitorChunkEvent s1 id segment with
    | error p => rw [h2] at h; cases h
    | ok s2 =>
      rw [h2] at h
      cases h
      obtain ⟨u, v, _, _, hev⟩ := monitorChunkEvent_ok s1 s id segment h2
      rw [hev]
      exact evict_lower_bound v

/-- Witness for C3 amended: after the requests and events of `traceServe4`, the
event for segment 5 evicts the ids 0 to 3. -/
theorem resident_lower_bound_after_ingestion_witness :
    ∃ s, run (engine 5 2) (traceServe4 ++ [Step.ready 5 "/tmp/5.ts"]) = Except.ok s ∧
      resident s = [4, 5] ∧
      ∀ r ∈ resident s, s.goal - s.context.contextConfig.MaxBuffer ≤ r :=
  ⟨_, rfl, rfl,
    resident_lower_bound_after_ingestion {} (engineContext 5 2) engineInfo traceServe4 5
      "/tmp/5.ts" _ rfl⟩

/-- C4, as stated, fails.  A pending record is forgotten with its channel still open
(a) by `Close` right after index 0 was requested, (b) by the far-miss restart for
index 10, and (c) by the eviction pass: in `tracePendingEvicted` the reader of index 3
waits on the record at address 1, which the pass for segment 1 drops unfired. -/
theorem forgotten_pending_record_counterexample :
    ((serveChunk (engine 5 2) 0 Spawn.ok).2 = Served.wait 0 ∧
      (Stream.Close (serveChunk (engine 5 2) 0 Spawn.ok).1).chunks = [] ∧
      (Stream.Close (serveChunk (engine 5 2) 0 Spawn.ok).1).record 0 =
        some { id := 0, done := false, path := "" }) ∧
    ((serveChunk (serveChunk (engine 5 2) 0 Spawn.ok).1 10 Spawn.ok).1.chunks = [(10, 1)] ∧
      (serveChunk (serveChunk (engine 5 2) 0 Spawn.ok).1 10 Spawn.ok).1.record 0 =
        some { id := 0, done := false, path := "" }) ∧
    (∃ s, run (engine 5 2) tracePendingEvicted = Except.ok s ∧
      s.chunks = [(6, 2)] ∧ s.record 1 = some { id := 3, done := false, path := "" }) :=
  ⟨⟨rfl, rfl, rfl⟩, ⟨rfl, rfl⟩, ⟨_, rfl, rfl, rfl⟩⟩

/-- C4, amended.  A record forgotten by `stopProcess` (far-miss restart, `Close`) or by
the eviction pass has its file handle dropped and its file removed, and the map no
longer holds it; the readiness channel of every record is left as it was, so a channel
that was open is still open after the record is dropped. -/
theorem forgotten_record_keeps_done (s : Stream) (a : Nat) :
    (stopProcess s).chunks = [] ∧
    ((stopProcess s).record a).map (fun r => r.done) = (s.record a).map (fun r => r.done) ∧
    ((Stream.Close s).record a).map (fun r => r.done) = (s.record a).map (fun r => r.done) ∧
    ((evict s).record a).map (fun r => r.done) = (s.record a).map (fun r => r.done) ∧
    (∀ e ∈ s.chunks, ∀ r, s.record e.2 = some r →
      Effect.remove r.path ∈ (stopProcess s).trace ∧
      (stopProcess s).record e.2 = some { r with f := false }) ∧
    (∀ e ∈ s.chunks, e.1 < s.goal - s.context.contextConfig.MaxBuffer →
      ∀ r, s.record e.2 = some r →
        Effect.remove r.path ∈ (evict s).trace ∧
        (evict s).record e.2 = some { r with f := false } ∧
        mapGet (evict s).chunks e.1 = none) := by
  have hstop : ((stopProcess s).record a).map (fun r => r.done) =
      (s.record a).map (fun r => r.done) := by
    rw [stopProcess_record]
    split_ifs <;> cases s.record a <;> rfl
  refine ⟨stopProcess_chunks s, hstop, hstop, ?_, ?_, ?_⟩
  · rw [evict_record]
    split_ifs <;> cases s.record a <;> rfl
  · intro e he r hr
    obtain ⟨t, ht, _, hrem⟩ := stopProcess_trace s
    refine ⟨?_, ?_⟩
    · rw [ht]
      exact List.mem_append.2 (Or.inl (List.mem_append.2 (Or.inr (hrem e he r hr))))
    · rw [stopProcess_record, if_pos (List.mem_map.2 ⟨e, he, rfl⟩), hr]
      rfl
  · intro e he hlow r hr
    obtain ⟨t, ht, _, hrem⟩ := evict_trace s
    refine ⟨?_, ?_, evict_forgets s e.1 hlow⟩
    · rw [ht]
      exact List.mem_append.2 (Or.inr (hrem e he hlow r hr))
    · rw [evict_record, if_pos, hr]
      · rfl
      · exact List.mem_map.2 ⟨e, List.mem_filter.2 ⟨he, by simpa using hlow⟩, rfl⟩

/-- Witness for C4 amended: the pending record of index 0 under `stopProcess`, and the
fired record of id 10 under an eviction pass with `goal = 20`. -/
theorem forgotten_record_keeps_done_witness :
    (Effect.remove "" ∈ (stopProcess (serveChunk (engine 5 2) 0 Spawn.ok).1).trace ∧
      (stopProcess (serveChunk (engine 5 2) 0 Spawn.ok).1).record 0 =
        some { id := 0, done := false, path := "", f := false }) ∧
    (Effect.remove "/tmp/10.ts" ∈ (evict { engineAt10 with goal := 20 }).trace ∧
      (evict { engineAt10 with goal := 20 }).record 0 =
        some { id := 10, done := true, path := "/tmp/10.ts", f := false } ∧
      mapGet (evict { engineAt10 with goal := 20 }).chunks 10 = none) :=
  ⟨(forgotten_record_keeps_done (serveChunk (engine 5 2) 0 Spawn.ok).1 0).2.2.2.2.1
      (0, 0) (by decide) { id := 0 } rfl,
    (forgotten_record_keeps_done { engineAt10 with goal := 20 } 0).2.2.2.2.2
      (10, 0) (by decide) (by decide) { id := 10, done := true, path := "/tmp/10.ts" } rfl⟩

/-- C5: the code at the failing input.  With index 0 requested and its segment
reported, the record of id 0 has fired; a second event for id 0 reaches
`close(chunk.done)` on the closed channel, which panics. -/
theorem second_event_closes_closed_channel :
    (∃ s, monitorChunk (serveChunk (engine 5 2) 0 Spawn.ok).1 [(0, "/tmp/0.ts")] = Except.ok s ∧
      s.record 0 = some { id := 0, done := true, path := "/tmp/0.ts" }) ∧
    monitorChunk (serveChunk (engine 5 2) 0 Spawn.ok).1 [(0, "/tmp/0.ts"), (0, "/tmp/0.ts")] =
      Except.error Panic.closeOfClosedChannel :=
  ⟨⟨_, rfl, rfl⟩, rfl⟩

/-- C6, as stated, fails.  After `traceSuspended` the process is suspended and
`goal = 5`; the request for index 3 does not raise the goal (3 + 2 is not above 5), yet
it sends a resume and the process is no longer suspended. -/
theorem resume_without_goal_raise_counterexample :
    ∃ s, run (engine 5 2) traceSuspended = Except.ok s ∧
      s.cmd = some { pid := 0, index := 0, suspended := true } ∧
      3 + s.context.contextConfig.MinBuffer ≤ s.goal ∧
      (serveChunk s 3 Spawn.ok).1.goal = s.goal ∧
      (serveChunk s 3 Spawn.ok).1.cmd = some { pid := 0, index := 0, suspended := false } ∧
      (serveChunk s 3 Spawn.ok).1.trace = s.trace ++ [Effect.resume 0] :=
  ⟨_, rfl, rfl, by decide, rfl, rfl, rfl⟩

/-- C6, amended.  `checkGoal`, and so every `serveChunk` call, resumes a live process
whether or not the goal is raised: the resume is the first effect of the call, and
after a hit or near-miss the process is not suspended.  Without a live process
`checkGoal` sends nothing. -/
theorem serveChunk_resumes_live_process (s : Stream) (index : Int) (sp : Spawn) :
    (∀ c, s.cmd = some c →
      (checkGoal s index).cmd = some { c with suspended := false } ∧
      (checkGoal s index).trace = s.trace ++ [Effect.resume c.pid] ∧
      (∃ t, (serveChunk s index sp).1.trace = s.trace ++ [Effect.resume c.pid] ++ t) ∧
      ((mapGet s.chunks index).isSome = true ∨ nearMiss s index = true →
        (serveChunk s index sp).1.cmd = some { c with suspended := false })) ∧
    (s.cmd = none → (checkGoal s index).cmd = none ∧ (checkGoal s index).trace = s.trace) := by
  refine ⟨?_, ?_⟩
  · intro c hc
    have h1 : (checkGoal s index).cmd = some { c with suspended := false } := by
      rw [checkGoal_eq]; simp [hc]
    have h2 : (checkGoal s index).trace = s.trace ++ [Effect.resume c.pid] := by
      rw [checkGoal_eq]; simp [hc]
    exact ⟨h1, h2, (serveChunk_resumes_live_process_aux s index sp c hc).1,
      (serveChunk_resumes_live_process_aux s index sp c hc).2⟩
  · intro hc
    rw [checkGoal_eq]
    simp [hc]

/-- Witness for C6 amended, on the engine holding 10, 11, 12 and index 12
(`12 + 2 ≤ 15`: the goal is not raised). -/
theorem serveChunk_resumes_live_process_witness :
    (checkGoal engineAt10 12).goal = engineAt10.goal ∧
    (checkGoal engineAt10 12).cmd = some { pid := 0, index := 10, suspended := false } ∧
    (checkGoal engineAt10 12).trace = engineAt10.trace ++ [Effect.resume 0] ∧
    (∃ t, (serveChunk engineAt10 12 Spawn.ok).1.trace =
      engineAt10.trace ++ [Effect.resume 0] ++ t) ∧
    (serveChunk engineAt10 12 Spawn.ok).1.cmd = some { pid := 0, index := 10, suspended := false } ∧
    (checkGoal (engine 5 2) 0).cmd = none ∧ (checkGoal (engine 5 2) 0).trace = (engine 5 2).trace :=
  ⟨by decide,
    ((serveChunk_resumes_live_process engineAt10 12 Spawn.ok).1 _ rfl).1,
    ((serveChunk_resumes_live_process engineAt10 12 Spawn.ok).1 _ rfl).2.1,
    ((serveChunk_resumes_live_process engineAt10 12 Spawn.ok).1 _ rfl).2.2.1,
    ((serveChunk_resumes_live_process engineAt10 12 Spawn.ok).1 _ rfl).2.2.2 (Or.inl (by decide)),
    (serveChunk_resumes_live_process (engine 5 2) 0 Spawn.ok).2 rfl⟩

/-- C7.  An ingestion step on an engine with a live process, for an id whose record
(if there is one) has not fired, completes, and it sends a suspend to the process if
and only if `id ≥ goal` for the goal at that moment.  With `MaxBuffer = 5`, after
index 0 was served (`goal = 5`), the events for the ids 0 to 4 send no suspend and the
event for id 5 does. -/
theorem monitorChunkEvent_suspends_iff (s : Stream) (id : Int) (segment : String) (c : Cmd)
    (hc : s.cmd = some c)
    (hrec : ∀ a, mapGet s.chunks id = some a → ∃ r, s.record a = some r ∧ r.done = false) :
    (∃ t, monitorChunkEvent s id segment = Except.ok t ∧
      (Effect.suspend c.pid ∈ newEffects s t ↔ id ≥ s.goal) ∧
      (id ≥ s.goal → t.cmd = some { c with suspended := true }) ∧
      (¬ id ≥ s.goal → t.cmd = some c ∧ ∀ p, Effect.suspend p ∉ newEffects s t)) ∧
    ((serveChunk (engine 5 2) 0 Spawn.ok).1.goal = 5 ∧
      ∃ t, monitorChunk (serveChunk (engine 5 2) 0 Spawn.ok).1 events0to4 = Except.ok t ∧
        t.goal = 5 ∧ t.cmd = some { pid := 0, index := 0, suspended := false } ∧
        t.trace = [Effect.start 0 0] ∧
        ∃ u, monitorChunkEvent t 5 "/tmp/5.ts" = Except.ok u ∧
          u.cmd = some { pid := 0, index := 0, suspended := true } ∧
          u.trace = [Effect.start 0 0, Effect.suspend 0]) := by
  refine ⟨?_, rfl, _, rfl, rfl, rfl, rfl, _, rfl, rfl, rfl⟩
  obtain ⟨s1, h1, hg, hcmd, htr, _⟩ := markReady_ok s id segment hrec
  by_cases hge : id ≥ s.goal
  · have h2 := suspendAtGoal_pos s1 id c (hcmd.trans hc) (by rw [hg]; exact hge)
    obtain ⟨tt, htt, hkind, _⟩ := evict_trace
      { s1 with cmd := some { c with suspended := true }
                trace := s1.trace ++ [Effect.suspend c.pid] }
    refine ⟨_, monitorChunkEvent_eq s s1 _ id segment h1 h2, ?_, ?_, ?_⟩
    · rw [newEffects_append s _ ([Effect.suspend c.pid] ++ tt) (by rw [htt]; simp [htr])]
      simp [hge]
    · intro _
      rw [evict_cmd]
    · intro h
      exact absurd hge h
  · have h2 := suspendAtGoal_neg s1 id (by rw [hg]; exact hge)
    obtain ⟨tt, htt, hkind, _⟩ := evict_trace s1
    have hnew : newEffects s (evict s1) = tt :=
      newEffects_append s _ tt (by rw [htt, htr])
    refine ⟨_, monitorChunkEvent_eq s s1 _ id segment h1 h2, ?_, ?_, ?_⟩
    · rw [hnew]
      constructor
      · intro hmem
        exact absurd rfl (not_suspend_of_file_effect _ c.pid (hkind _ hmem))
      · intro h
        exact absurd h hge
    · intro h
      exact absurd h hge
    · intro _
      refine ⟨by rw [evict_cmd, hcmd, hc], ?_⟩
      intro p hmem
      rw [hnew] at hmem
      exact absurd rfl (not_suspend_of_file_effect _ p (hkind _ hmem))

/-- Witness for C7: on the engine holding 10, 11, 12 with `goal = 15`, the event for
id 15 suspends the process; after index 0 was requested on a fresh engine (`goal = 5`),
the event for the pending id 0 does not. -/
theorem monitorChunkEvent_suspends_iff_witness :
    (∃ t, monitorChunkEvent engineAt10 15 "/tmp/15.ts" = Except.ok t ∧
      (Effect.suspend 0 ∈ newEffects engineAt10 t ↔ 15 ≥ engineAt10.goal) ∧
      (15 ≥ engineAt10.goal → t.cmd = some { pid := 0, index := 10, suspended := true }) ∧
      (¬ 15 ≥ engineAt10.goal → t.cmd = some { pid := 0, index := 10 } ∧
        ∀ p, Effect.suspend p ∉ newEffects engineAt10 t)) ∧
    (∃ t, monitorChunkEvent (serveChunk (engine 5 2) 0 Spawn.ok).1 0 "/tmp/0.ts" = Except.ok t ∧
      (Effect.suspend 0 ∈ newEffects (serveChunk (engine 5 2) 0 Spawn.ok).1 t ↔
        0 ≥ (serveChunk (engine 5 2) 0 Spawn.ok).1.goal) ∧
      (0 ≥ (serveChunk (engine 5 2) 0 Spawn.ok).1.goal →
        t.cmd = some { pid := 0, index := 0, suspended := true }) ∧
      (¬ 0 ≥ (serveChunk (engine 5 2) 0 Spawn.ok).1.goal →
        t.cmd = some { pid := 0, index := 0 } ∧
        ∀ p, Effect.suspend p ∉ newEffects (serveChunk (engine 5 2) 0 Spawn.ok).1 t)) :=
  ⟨(monitorChunkEvent_suspends_iff engineAt10 15 "/tmp/15.ts" { pid := 0, index := 10 } rfl
      (fun a h => by
        have hn : mapGet engineAt10.chunks 15 = none := by decide
        rw [hn] at h; cases h)).1,
    (monitorChunkEvent_suspends_iff (serveChunk (engine 5 2) 0 Spawn.ok).1 0 "/tmp/0.ts"
      { pid := 0, index := 0 } rfl
      (fun a h => by
        have h0 : mapGet (serveChunk (engine 5 2) 0 Spawn.ok).1.chunks 0 = some 0 := by decide
        rw [h0] at h; cases h
        exact ⟨{ id := 0 }, rfl, rfl⟩)).1⟩

/-- C8, as stated, fails.  After the requests 0, 1, 2 were served the goal is 5, and
the request for index 3 leaves it at 5, not 8. -/
theorem request3_goal_counterexample :
    ∃ s, run (engine 5 2) traceServed012 = Except.ok s ∧
      resident s = [0, 1, 2] ∧ s.goal = 5 ∧
      (serveChunk s 3 Spawn.ok).1.goal = 5 ∧ (serveChunk s 3 Spawn.ok).1.goal ≠ 8 :=
  ⟨_, rfl, rfl, rfl, rfl, by decide⟩

/-- C8, amended.  With `MaxBuffer = 5` and `MinBuffer = 2`, in a state with `goal = 5`,
segment 2 resident and a live process, the request for index 3 leaves the goal at 5
(3 + 2 is not above 5) and resumes the process; the request for index 4 that follows
raises the goal to 9. -/
theorem request3_keeps_goal (s : Stream) (sp : Spawn) (c : Cmd)
    (hmax : s.context.contextConfig.MaxBuffer = 5)
    (hmin : s.context.contextConfig.MinBuffer = 2)
    (hgoal : s.goal = 5)
    (h2 : (mapGet s.chunks 2).isSome = true)
    (hc : s.cmd = some c) :
    (serveChunk s 3 sp).1.goal = 5 ∧
    (serveChunk s 3 sp).1.cmd = some { c with suspended := false } ∧
    (∃ t, (serveChunk s 3 sp).1.trace = s.trace ++ [Effect.resume c.pid] ++ t) ∧
    (serveChunk (serveChunk s 3 sp).1 4 sp).1.goal = 9 := by
  have hn3 : (mapGet s.chunks 3).isSome = true ∨ nearMiss s 3 = true :=
    Or.inr ((nearMiss_iff s 3).2 ⟨2, by omega, by omega, h2⟩)
  have hs3 := serveChunk_of_resident_or_near s 3 sp hn3
  have hw := waitForChunk_fields (checkGoal s 3) 3
  have hg3 : (serveChunk s 3 sp).1.goal = 5 := by
    rw [hs3, hw.1, checkGoal_goal_eq, hmin, hmax, hgoal]
    decide
  have hctx : (serveChunk s 3 sp).1.context = s.context := by
    rw [hs3, hw.2.2.2.1, checkGoal_context]
  have hres : (mapGet (serveChunk s 3 sp).1.chunks 3).isSome = true := by
    rw [hs3]; exact hw.2.2.2.2
  have hn4 : (mapGet (serveChunk s 3 sp).1.chunks 4).isSome = true ∨
      nearMiss (serveChunk s 3 sp).1 4 = true :=
    Or.inr ((nearMiss_iff _ 4).2 ⟨3, by omega, by omega, hres⟩)
  refine ⟨hg3, ((serveChunk_resumes_live_process_aux s 3 sp c hc).2 hn3),
    (serveChunk_resumes_live_process_aux s 3 sp c hc).1, ?_⟩
  rw [serveChunk_of_resident_or_near _ 4 sp hn4, (waitForChunk_fields _ 4).1, checkGoal_goal_eq,
    hctx, hmin, hmax, hg3]
  decide

/-- Witness for C8 amended: the state reached after the requests 0, 1, 2 were served. -/
theorem request3_keeps_goal_witness :
    ∃ s, run (engine 5 2) traceServed012 = Except.ok s ∧
      (serveChunk s 3 Spawn.ok).1.goal = 5 ∧
      (serveChunk s 3 Spawn.ok).1.cmd = some { pid := 0, index := 0, suspended := false } ∧
      (∃ t, (serveChunk s 3 Spawn.ok).1.trace = s.trace ++ [Effect.resume 0] ++ t) ∧
      (serveChunk (serveChunk s 3 Spawn.ok).1 4 Spawn.ok).1.goal = 9 :=
  ⟨_, rfl, request3_keeps_goal _ Spawn.ok { pid := 0, index := 0 } rfl rfl rfl rfl rfl⟩

/-! ## The segment plan -/

theorem generateChunksLoop_done (chunkDuration : Int) (fuel : Nat) (duration : Rat) (id : Int)
    (chunks : List tsChunk) (h : duration ≤ 0) :
    generateChunksLoop chunkDuration fuel duration id chunks = some chunks := by
  cases fuel <;> simp [generateChunksLoop, not_lt.2 h]

theorem segmentPlan_one (chunkDuration : Int) (duration : Rat) (id : Int) :
    segmentPlan chunkDuration duration id 1 = [{ id := id, duration := duration }] := by
  have h1 : List.range 1 = [0] := by decide
  unfold segmentPlan
  rw [h1]
  simp

theorem segmentPlan_succ (chunkDuration : Int) (duration : Rat) (id : Int) (k : Nat) :
    segmentPlan chunkDuration duration id (k + 2) =
      { id := id, duration := (chunkDuration : Rat) } ::
        segmentPlan chunkDuration (duration - chunkDuration) (id + 1) (k + 1) := by
  unfold segmentPlan
  rw [List.range_succ_eq_map, List.map_cons, List.map_map]
  refine congrArg₂ _ ?_ ?_
  · simp
  · apply List.map_congr_left
    intro i _
    simp only [Function.comp, Nat.succ_eq_add_one]
    have hid : id + ((i + 1 : Nat) : Int) = id + 1 + (i : Int) := by push_cast; ring
    by_cases h : i + 1 < k + 1
    · have h2 : i + 1 + 1 < k + 2 := by omega
      rw [if_pos h, if_pos h2, hid]
    · have h2 : ¬ i + 1 + 1 < k + 2 := by omega
      have hd : duration - (chunkDuration : Rat) * (((k + 2 : Nat) : Rat) - 1) =
          duration - chunkDuration - (chunkDuration : Rat) * (((k + 1 : Nat) : Rat) - 1) := by
        push_cast; ring
      rw [if_neg h, if_neg h2, hid, hd]

theorem generateChunksLoop_plan (chunkDuration : Int) (hC : 1 ≤ chunkDuration) :
    ∀ (k fuel : Nat) (duration : Rat) (id : Int) (chunks : List tsChunk),
      k + 1 ≤ fuel → (k : Rat) * chunkDuration < duration →
      duration ≤ ((k : Rat) + 1) * chunkDuration →
      generateChunksLoop chunkDuration fuel duration id chunks =
        some (chunks ++ segmentPlan chunkDuration duration id (k + 1)) := by
  have hC1 : (1 : Rat) ≤ chunkDuration := by exact_mod_cast hC
  intro k
  induction k with
  | zero =>
    intro fuel duration id chunks hf hlo hhi
    obtain ⟨f, rfl⟩ : ∃ f, fuel = f + 1 := ⟨fuel - 1, by omega⟩
    have hpos : 0 < duration := by simpa using hlo
    have hle : duration ≤ chunkDuration := by simpa using hhi
    have hsize : (if duration < (chunkDuration : Rat) then duration else (chunkDuration : Rat))
        = duration := by
      split_ifs with h
      · rfl
      · exact le_antisymm (not_lt.1 h) hle
    simp only [generateChunksLoop, hpos, if_true, hsize]
    rw [generateChunksLoop_done _ _ _ _ _ (by simp), segmentPlan_one]
  | succ k ih =>
    intro fuel duration id chunks hf hlo hhi
    obtain ⟨f, rfl⟩ : ∃ f, fuel = f + 1 := ⟨fuel - 1, by omega⟩
    have hk : (0 : Rat) ≤ k := Nat.cast_nonneg k
    push_cast at hlo hhi
    have hgt : (chunkDuration : Rat) < duration := by nlinarith
    have hpos : 0 < duration := by linarith
    have hsize : (if duration < (chunkDuration : Rat) then duration else (chunkDuration : Rat))
        = chunkDuration := if_neg (not_lt.2 hgt.le)
    simp only [generateChunksLoop, hpos, if_true, hsize]
    rw [ih f (duration - chunkDuration) (id + 1) _ (by omega) (by linarith) (by linarith),
      segmentPlan_succ, List.append_assoc]
    rfl

theorem ceil_div_bounds (duration : Rat) (chunkDuration : Int) (hD : 0 < duration)
    (hC : 1 ≤ chunkDuration) :
    ∃ k : Nat, (⌈duration / chunkDuration⌉).toNat = k + 1 ∧
      (k : Rat) * chunkDuration < duration ∧ duration ≤ ((k : Rat) + 1) * chunkDuration ∧
      k + 1 ≤ (⌈duration⌉).toNat := by
  have hC1 : (1 : Rat) ≤ chunkDuration := by exact_mod_cast hC
  have hC0 : (0 : Rat) < chunkDuration := by linarith
  have hq : 0 < duration / chunkDuration := div_pos hD hC0
  have hc1 : 1 ≤ ⌈duration / chunkDuration⌉ := by
    have := Int.ceil_pos.2 hq
    omega
  have hle : ⌈duration / chunkDuration⌉ ≤ ⌈duration⌉ :=
    Int.ceil_le_ceil (div_le_self hD.le hC1)
  refine ⟨(⌈duration / chunkDuration⌉ - 1).toNat, by omega, ?_, ?_, by omega⟩
  · have hcast : (((⌈duration / chunkDuration⌉ - 1).toNat : Nat) : Rat)
        = (⌈duration / chunkDuration⌉ : Rat) - 1 := by
      have : (((⌈duration / chunkDuration⌉ - 1).toNat : Nat) : Int)
          = ⌈duration / chunkDuration⌉ - 1 := Int.toNat_of_nonneg (by omega)
      exact_mod_cast congrArg (fun z : Int => (z : Rat)) this
    rw [hcast]
    have := Int.ceil_lt_add_one (duration / chunkDuration)
    have h2 : (⌈duration / chunkDuration⌉ : Rat) - 1 < duration / chunkDuration := by linarith
    calc ((⌈duration / chunkDuration⌉ : Rat) - 1) * chunkDuration
        < duration / chunkDuration * chunkDuration := by
          exact mul_lt_mul_of_pos_right h2 hC0
      _ = duration := div_mul_cancel₀ _ hC0.ne'
  · have hcast : (((⌈duration / chunkDuration⌉ - 1).toNat : Nat) : Rat)
        = (⌈duration / chunkDuration⌉ : Rat) - 1 := by
      have : (((⌈duration / chunkDuration⌉ - 1).toNat : Nat) : Int)
          = ⌈duration / chunkDuration⌉ - 1 := Int.toNat_of_nonneg (by omega)
      exact_mod_cast congrArg (fun z : Int => (z : Rat)) this
    rw [hcast]
    have := Int.le_ceil (duration / chunkDuration)
    calc duration = duration / chunkDuration * chunkDuration := (div_mul_cancel₀ _ hC0.ne').symm
      _ ≤ (⌈duration / chunkDuration⌉ : Rat) * chunkDuration :=
          mul_le_mul_of_nonneg_right this hC0.le
      _ = ((⌈duration / chunkDuration⌉ : Rat) - 1 + 1) * chunkDuration := by ring

/-! ## The loop of `generateChunks` in `float64` arithmetic

Below 2^53 seconds the subtraction of the chunk duration is exact, and the loop on
`float64` values does what the loop on exact values does. -/

theorem bitLength_zero (fuel : Nat) : bitLength fuel 0 = 0 := by
  cases fuel <;> simp [bitLength]

theorem bitLength_bounds :
    ∀ (fuel n : Nat), n < 2 ^ fuel → n ≠ 0 →
      1 ≤ bitLength fuel n ∧ 2 ^ (bitLength fuel n - 1) ≤ n ∧ n < 2 ^ bitLength fuel n := by
  intro fuel
  induction fuel with
  | zero => intro n h hn; simp at h; exact absurd h hn
  | succ fuel ih =>
    intro n h hn
    have hdef : bitLength (fuel + 1) n = bitLength fuel (n / 2) + 1 := by
      simp [bitLength, hn]
    rw [hdef]
    by_cases h2 : n / 2 = 0
    · have h1 : n = 1 := by omega
      rw [h2, bitLength_zero, h1]
      simp
    · have hlt : n / 2 < 2 ^ fuel := by
        rw [pow_succ] at h
        omega
      obtain ⟨hb1, hlo, hhi⟩ := ih (n / 2) hlt h2
      refine ⟨by omega, ?_, ?_⟩
      · have : 2 ^ (bitLength fuel (n / 2) + 1 - 1) = 2 * 2 ^ (bitLength fuel (n / 2) - 1) := by
          rw [Nat.add_sub_cancel]
          conv_lhs => rw [show bitLength fuel (n / 2) = (bitLength fuel (n / 2) - 1) + 1 by omega]
          rw [pow_succ]; ring
        rw [this]
        omega
      · rw [pow_succ]
        omega

theorem bitLength_self (n : Nat) (hn : n ≠ 0) :
    1 ≤ bitLength n n ∧ 2 ^ (bitLength n n - 1) ≤ n ∧ n < 2 ^ bitLength n n :=
  bitLength_bounds n n (Nat.lt_two_pow n) hn

theorem normalize_toRat :
    ∀ (fuel : Nat) (m e : Int), (Float64.normalize fuel m e).toRat = (m : Rat) * (2 : Rat) ^ e := by
  intro fuel
  induction fuel with
  | zero => intro m e; rfl
  | succ fuel ih =>
    intro m e
    unfold Float64.normalize
    by_cases h0 : m = 0
    · simp [h0, Float64.toRat]
    · rw [if_neg h0]
      by_cases h2 : m % 2 = 0
      · rw [if_pos h2, ih]
        have hm : m = 2 * (m / 2) := by omega
        rw [zpow_add_one₀ (by norm_num : (2 : Rat) ≠ 0)]
        conv_rhs => rw [hm]
        push_cast
        ring
      · rw [if_neg h2]
        rfl

theorem normalize_natAbs_le :
    ∀ (fuel : Nat) (m e : Int), (Float64.normalize fuel m e).m.natAbs ≤ m.natAbs := by
  intro fuel
  induction fuel with
  | zero => intro m e; exact le_refl _
  | succ fuel ih =>
    intro m e
    unfold Float64.normalize
    by_cases h0 : m = 0
    · simp [h0]
    · rw [if_neg h0]
      by_cases h2 : m % 2 = 0
      · rw [if_pos h2]
        refine le_trans (ih _ _) ?_
        omega
      · rw [if_neg h2]

theorem roundHalfEven_even (k : Nat) : roundHalfEven (2 * k) 2 = k := by
  simp [roundHalfEven]

theorem round_small (neg : Bool) (N : Nat) (e : Int) (h0 : N ≠ 0) (h : N < 2 ^ 53) :
    Float64.round neg N 1 e =
      Float64.normalize 64
        (if neg then -((N * 2 ^ (53 - bitLength N N) : Nat) : Int)
          else ((N * 2 ^ (53 - bitLength N N) : Nat) : Int))
        (e - ((53 - bitLength N N : Nat) : Int)) := by
  obtain ⟨hb1, hlo, hhi⟩ := bitLength_self N h0
  have hb53 : bitLength N N ≤ 53 := by
    by_contra hgt
    have : 2 ^ 53 ≤ 2 ^ (bitLength N N - 1) := Nat.pow_le_pow_right (by norm_num) (by omega)
    omega
  have hone : bitLength 1 1 = 1 := by decide
  have ht : (53 : Int) - ((bitLength N N : Int) - (bitLength 1 1 : Int)) =
      ((54 - bitLength N N : Nat) : Int) := by
    rw [hone]; omega
  have hN1 : N * 2 ^ (54 - bitLength N N) = 2 * (N * 2 ^ (53 - bitLength N N)) := by
    rw [show 54 - bitLength N N = (53 - bitLength N N) + 1 by omega, pow_succ]
    ring
  have hbig : ¬ N * 2 ^ (54 - bitLength N N) / 1 < 2 ^ 53 := by
    rw [Nat.div_one, not_lt]
    calc 2 ^ 53 = 2 ^ (bitLength N N - 1) * 2 ^ (54 - bitLength N N) := by
          rw [← pow_add]; congr 1; omega
      _ ≤ N * 2 ^ (54 - bitLength N N) := Nat.mul_le_mul_right _ hlo
  unfold Float64.round
  rw [if_neg (by simp [h0])]
  simp only [ht, Int.natCast_nonneg, if_true, Int.toNat_ofNat, hbig, if_false]
  rw [hN1, show (1 : Nat) * 2 = 2 by rfl, roundHalfEven_even]
  congr 1
  omega

theorem round_zero (neg : Bool) (e : Int) : Float64.round neg 0 1 e = { m := 0, e := 0 } := by
  simp [Float64.round]

theorem round_exact (neg : Bool) (N : Nat) (e : Int) (h : N < 2 ^ 53) :
    (Float64.round neg N 1 e).toRat = (if neg then -(N : Rat) else (N : Rat)) * (2 : Rat) ^ e ∧
    (Float64.round neg N 1 e).m.natAbs < 2 ^ 53 := by
  by_cases h0 : N = 0
  · subst h0
    rw [round_zero]
    simp [Float64.toRat]
  · obtain ⟨hb1, hlo, hhi⟩ := bitLength_self N h0
    have hb53 : bitLength N N ≤ 53 := by
      by_contra hgt
      have : 2 ^ 53 ≤ 2 ^ (bitLength N N - 1) := Nat.pow_le_pow_right (by norm_num) (by omega)
      omega
    rw [round_small neg N e h0 h]
    refine ⟨?_, ?_⟩
    · rw [normalize_toRat]
      have hz : (2 : Rat) ^ (e - ((53 - bitLength N N : Nat) : Int)) =
          (2 : Rat) ^ e / (2 : Rat) ^ (53 - bitLength N N) := by
        rw [zpow_sub₀ (by norm_num : (2 : Rat) ≠ 0), zpow_natCast]
      rw [hz]
      have hp : (2 : Rat) ^ (53 - bitLength N N) ≠ 0 := pow_ne_zero _ (by norm_num)
      cases neg <;> simp <;> field_simp <;> ring
    · refine lt_of_le_of_lt (normalize_natAbs_le _ _ _) ?_
      have hlt : N * 2 ^ (53 - bitLength N N) < 2 ^ 53 := by
        calc N * 2 ^ (53 - bitLength N N) < 2 ^ bitLength N N * 2 ^ (53 - bitLength N N) :=
              Nat.mul_lt_mul_of_pos_right hhi (by positivity)
          _ = 2 ^ 53 := by rw [← pow_add]; congr 1; omega
      cases neg
      · rw [if_neg (by simp), Int.natAbs_ofNat]; exact hlt
      · rw [if_pos rfl, Int.natAbs_neg, Int.natAbs_ofNat]; exact hlt

theorem toRat_scale (m e e0 : Int) (h : e0 ≤ e) :
    (m : Rat) * (2 : Rat) ^ e = ((m * 2 ^ (e - e0).toNat : Int) : Rat) * (2 : Rat) ^ e0 := by
  have he : e = ((e - e0).toNat : Int) + e0 := by
    rw [Int.toNat_of_nonneg (by omega)]; ring
  conv_lhs => rw [he, zpow_add₀ (by norm_num : (2 : Rat) ≠ 0), zpow_natCast]
  push_cast
  ring

theorem toRat_sub (a b : Float64) :
    a.toRat - b.toRat =
      ((a.m * 2 ^ (a.e - min a.e b.e).toNat - b.m * 2 ^ (b.e - min a.e b.e).toNat : Int) : Rat) *
        (2 : Rat) ^ (min a.e b.e) := by
  unfold Float64.toRat
  rw [toRat_scale a.m a.e (min a.e b.e) (min_le_left _ _),
    toRat_scale b.m b.e (min a.e b.e) (min_le_right _ _)]
  push_cast
  ring

theorem lt_iff_toRat (a b : Float64) : Float64.lt a b = true ↔ a.toRat < b.toRat := by
  have hpos : (0 : Rat) < (2 : Rat) ^ (min a.e b.e) := zpow_pos (by norm_num) _
  rw [← sub_neg, toRat_sub, mul_neg_iff]
  unfold Float64.lt
  rw [decide_eq_true_eq]
  constructor
  · intro h
    right
    refine ⟨?_, hpos⟩
    have : a.m * 2 ^ (a.e - min a.e b.e).toNat - b.m * 2 ^ (b.e - min a.e b.e).toNat < 0 := by
      omega
    exact_mod_cast this
  · rintro (⟨_, h2⟩ | ⟨h1, _⟩)
    · exact absurd hpos (not_lt.2 h2.le)
    · have : a.m * 2 ^ (a.e - min a.e b.e).toNat - b.m * 2 ^ (b.e - min a.e b.e).toNat < 0 := by
        exact_mod_cast h1
      omega

theorem sub_exact (a b : Float64)
    (h : (a.m * 2 ^ (a.e - min a.e b.e).toNat - b.m * 2 ^ (b.e - min a.e b.e).toNat).natAbs
      < 2 ^ 53) :
    (Float64.sub a b).toRat = a.toRat - b.toRat ∧ (Float64.sub a b).m.natAbs < 2 ^ 53 := by
  obtain ⟨h1, h2⟩ := round_exact
    (decide (a.m * 2 ^ (a.e - min a.e b.e).toNat - b.m * 2 ^ (b.e - min a.e b.e).toNat < 0))
    _ (min a.e b.e) h
  refine ⟨?_, h2⟩
  unfold Float64.sub
  rw [h1, toRat_sub]
  congr 1
  by_cases hx : a.m * 2 ^ (a.e - min a.e b.e).toNat - b.m * 2 ^ (b.e - min a.e b.e).toNat < 0
  · simp only [hx, decide_True, if_true]
    rw [← Int.cast_natCast, Int.ofNat_natAbs_of_nonpos hx.le]
    push_cast
    ring
  · simp only [hx, decide_False, Bool.false_eq_true, if_false]
    rw [← Int.cast_natCast, Int.natAbs_of_nonneg (not_lt.1 hx)]

theorem normalize_e_ge :
    ∀ (fuel : Nat) (m e : Int), m ≠ 0 → e ≤ (Float64.normalize fuel m e).e := by
  intro fuel
  induction fuel with
  | zero => intro m e _; exact le_refl _
  | succ fuel ih =>
    intro m e h0
    unfold Float64.normalize
    rw [if_neg h0]
    by_cases h2 : m % 2 = 0
    · rw [if_pos h2]
      have := ih (m / 2) (e + 1) (by omega)
      omega
    · rw [if_neg h2]

theorem normalize_e_ge_of_dvd :
    ∀ (j fuel : Nat) (m e : Int), j ≤ fuel → m ≠ 0 → (2 : Int) ^ j ∣ m →
      e + j ≤ (Float64.normalize fuel m e).e := by
  intro j
  induction j with
  | zero =>
    intro fuel m e _ h0 _
    simpa using normalize_e_ge fuel m e h0
  | succ j ih =>
    intro fuel m e hf h0 hd
    obtain ⟨f, rfl⟩ : ∃ f, fuel = f + 1 := ⟨fuel - 1, by omega⟩
    obtain ⟨q, hq⟩ := hd
    have h2 : m % 2 = 0 := by
      rw [hq, pow_succ]
      have : (2 : Int) ^ j * 2 * q = 2 * (2 ^ j * q) := by ring
      rw [this]
      exact Int.mul_emod_right 2 _
    have hhalf : m / 2 = 2 ^ j * q := by
      rw [hq, pow_succ]
      have : (2 : Int) ^ j * 2 * q = 2 * (2 ^ j * q) := by ring
      rw [this]
      exact Int.mul_ediv_cancel_left _ (by norm_num)
    unfold Float64.normalize
    rw [if_neg h0, if_pos h2]
    have := ih f (m / 2) (e + 1) (by omega) (by omega) ⟨q, hhalf⟩
    push_cast
    omega

theorem round_e_ge (neg : Bool) (N : Nat) (e : Int) (h0 : N ≠ 0) (h : N < 2 ^ 53) :
    e ≤ (Float64.round neg N 1 e).e := by
  rw [round_small neg N e h0 h]
  have hk : 53 - bitLength N N ≤ 64 := by omega
  have hne : (if neg then -((N * 2 ^ (53 - bitLength N N) : Nat) : Int)
      else ((N * 2 ^ (53 - bitLength N N) : Nat) : Int)) ≠ 0 := by
    have hpos : 0 < N * 2 ^ (53 - bitLength N N) :=
      Nat.mul_pos (Nat.pos_of_ne_zero h0) (by positivity)
    cases neg
    · rw [if_neg (by simp)]; omega
    · rw [if_pos rfl]; omega
  have hdvd : (2 : Int) ^ (53 - bitLength N N) ∣
      (if neg then -((N * 2 ^ (53 - bitLength N N) : Nat) : Int)
        else ((N * 2 ^ (53 - bitLength N N) : Nat) : Int)) := by
    cases neg
    · rw [if_neg (by simp)]
      exact ⟨N, by push_cast; ring⟩
    · rw [if_pos rfl]
      exact ⟨-N, by push_cast; ring⟩
  have := normalize_e_ge_of_dvd _ 64 _ (e - ((53 - bitLength N N : Nat) : Int)) hk hne hdvd
  omega

theorem ofInt_small (C : Int) (h1 : 1 ≤ C) (h : C < 2 ^ 53) :
    (Float64.ofInt C).toRat = C ∧ 0 ≤ (Float64.ofInt C).e ∧ 0 < (Float64.ofInt C).m ∧
    (Float64.ofInt C).m.natAbs < 2 ^ 53 := by
  have hN : C.natAbs < 2 ^ 53 := by omega
  have hN0 : C.natAbs ≠ 0 := by omega
  have hneg : decide (C < 0) = false := by simp; omega
  obtain ⟨hv, hm⟩ := round_exact (decide (C < 0)) C.natAbs 0 hN
  have hval : (Float64.ofInt C).toRat = C := by
    unfold Float64.ofInt
    rw [hv, hneg]
    simp only [Bool.false_eq_true, if_false, zpow_zero, mul_one]
    rw [← Int.cast_natCast, Int.natAbs_of_nonneg (by omega)]
  refine ⟨hval, round_e_ge _ _ 0 hN0 hN, ?_, hm⟩
  have hpos : (0 : Rat) < (Float64.ofInt C).toRat := by rw [hval]; exact_mod_cast h1
  unfold Float64.toRat at hpos
  have h2 : (0 : Rat) < (2 : Rat) ^ (Float64.ofInt C).e := zpow_pos (by norm_num) _
  have := (mul_pos_iff_of_pos_right h2).1 hpos
  exact_mod_cast this

theorem roundHalfEven_ge (num den : Nat) : num / den ≤ roundHalfEven num den := by
  unfold roundHalfEven
  simp only
  split_ifs <;> omega

theorem round_large (N : Nat) (hN : 2 ^ 53 ≤ N) :
    (2 : Rat) ^ 53 ≤ (Float64.round false N 1 0).toRat := by
  have hN0 : N ≠ 0 := by omega
  obtain ⟨hb1, hlo, hhi⟩ := bitLength_self N hN0
  have hb54 : 54 ≤ bitLength N N := by
    by_contra hlt
    have : 2 ^ bitLength N N ≤ 2 ^ 53 := Nat.pow_le_pow_right (by norm_num) (by omega)
    omega
  have hone : bitLength 1 1 = 1 := by decide
  unfold Float64.round
  rw [if_neg (by simp [hN0]), normalize_toRat, hone]
  simp only [Bool.false_eq_true, if_false]
  by_cases hb : bitLength N N = 54
  · have ht : (53 : Int) - ((bitLength N N : Int) - ((1 : Nat) : Int)) = 0 := by rw [hb]; norm_num
    simp only [ht, le_refl, if_true, Int.toNat_zero, pow_zero, mul_one, Nat.div_one,
      not_lt.2 hN, if_false]
    have hm : 2 ^ 52 ≤ roundHalfEven N (1 * 2) :=
      le_trans (by omega) (roundHalfEven_ge N (1 * 2))
    have hm' : (2 : Rat) ^ 52 ≤ (roundHalfEven N (1 * 2) : Rat) := by exact_mod_cast hm
    norm_num
    linarith
  · have hk : ∃ k : Nat, bitLength N N = 55 + k := ⟨bitLength N N - 55, by omega⟩
    obtain ⟨k, hk⟩ := hk
    have ht : (53 : Int) - ((bitLength N N : Int) - ((1 : Nat) : Int)) = -((k : Int) + 1) := by
      rw [hk]; push_cast; ring
    have htn : ¬ (0 : Int) ≤ -((k : Int) + 1) := by omega
    have hton : (-(-((k : Int) + 1))).toNat = k + 1 := by
      rw [neg_neg]; exact Int.toNat_ofNat (k + 1)
    have hlo' : 2 ^ 53 * 2 ^ (k + 1) ≤ N := by
      calc 2 ^ 53 * 2 ^ (k + 1) = 2 ^ (bitLength N N - 1) := by
            rw [← pow_add]; congr 1; omega
        _ ≤ N := hlo
    have hq : ¬ N / (1 * 2 ^ (k + 1)) < 2 ^ 53 := by
      rw [not_lt, one_mul, Nat.le_div_iff_mul_le (by positivity)]
      exact hlo'
    simp only [ht, htn, if_false, hton, hq]
    have hm : 2 ^ 52 ≤ roundHalfEven N (1 * 2 ^ (k + 1) * 2) := by
      refine le_trans ?_ (roundHalfEven_ge N _)
      rw [Nat.le_div_iff_mul_le (by positivity)]
      calc 2 ^ 52 * (1 * 2 ^ (k + 1) * 2) = 2 ^ 53 * 2 ^ (k + 1) := by ring
        _ ≤ N := hlo'
    have hm' : (2 : Rat) ^ 52 ≤ (roundHalfEven N (1 * 2 ^ (k + 1) * 2) : Rat) := by
      exact_mod_cast hm
    have he : (0 : Int) - (-((k : Int) + 1) - 1) = ((k + 2 : Nat) : Int) := by push_cast; ring
    rw [he, zpow_natCast]
    have h2 : (1 : Rat) ≤ (2 : Rat) ^ (k + 1) := one_le_pow₀ (by norm_num)
    have hm0 : (0 : Rat) ≤ (roundHalfEven N (1 * 2 ^ (k + 1) * 2) : Rat) := Nat.cast_nonneg _
    calc (2 : Rat) ^ 53 = 2 ^ 52 * 2 := by norm_num
      _ ≤ (roundHalfEven N (1 * 2 ^ (k + 1) * 2) : Rat) * 2 := by linarith
      _ ≤ (roundHalfEven N (1 * 2 ^ (k + 1) * 2) : Rat) * (2 * 2 ^ (k + 1)) := by nlinarith
      _ = ((roundHalfEven N (1 * 2 ^ (k + 1) * 2) : Nat) : Int) * 2 ^ (k + 2) := by
          push_cast; ring

theorem ofInt_large (C : Int) (h : 2 ^ 53 ≤ C) : (2 : Rat) ^ 53 ≤ (Float64.ofInt C).toRat := by
  have hneg : decide (C < 0) = false := by simp; omega
  unfold Float64.ofInt
  rw [hneg]
  exact round_large C.natAbs (by omega)

theorem m_pos_iff (d : Float64) : 0 < d.m ↔ 0 < d.toRat := by
  unfold Float64.toRat
  have h2 : (0 : Rat) < (2 : Rat) ^ d.e := zpow_pos (by norm_num) _
  rw [mul_pos_iff_of_pos_right h2]
  exact Int.cast_pos.symm

theorem sub_bound (d s : Float64) (hdm : d.m.natAbs < 2 ^ 53) (hd : d.toRat < 2 ^ 53)
    (hs0 : 0 ≤ s.e) (hsm : 0 < s.m) (hle : s.toRat ≤ d.toRat) :
    (d.m * 2 ^ (d.e - min d.e s.e).toNat - s.m * 2 ^ (s.e - min d.e s.e).toNat).natAbs
      < 2 ^ 53 := by
  have hx := toRat_sub d s
  have hpos : (0 : Rat) < (2 : Rat) ^ (min d.e s.e) := zpow_pos (by norm_num) _
  generalize hxdef :
    d.m * 2 ^ (d.e - min d.e s.e).toNat - s.m * 2 ^ (s.e - min d.e s.e).toNat = x at hx
  have hx0 : 0 ≤ x := by
    have h1 : (0 : Rat) ≤ (x : Rat) * (2 : Rat) ^ (min d.e s.e) := by rw [← hx]; linarith
    have h2 : (0 : Rat) ≤ (x : Rat) := by
      by_contra hneg
      have := mul_neg_of_neg_of_pos (not_le.1 hneg) hpos
      linarith
    exact_mod_cast h2
  have hxlt : x < 2 ^ 53 := by
    rcases le_total d.e s.e with hcase | hcase
    · rw [min_eq_left hcase] at hxdef
      have h1 : (0 : Int) < s.m * 2 ^ (s.e - d.e).toNat := mul_pos hsm (by positivity)
      simp only [sub_self, Int.toNat_zero, pow_zero, mul_one] at hxdef
      omega
    · rw [min_eq_right hcase] at hx
      have h1 : (1 : Rat) ≤ (2 : Rat) ^ s.e := one_le_zpow₀ (by norm_num) hs0
      have h2 : (x : Rat) ≤ (x : Rat) * (2 : Rat) ^ s.e := by
        have hx0' : (0 : Rat) ≤ (x : Rat) := by exact_mod_cast hx0
        nlinarith
      have hsp : (0 : Rat) < s.toRat := (m_pos_iff s).1 hsm
      have h3 : (x : Rat) < 2 ^ 53 := by linarith
      exact_mod_cast h3
  omega

theorem generateChunksLoop64_eq (chunkDuration : Int) (hC : 1 ≤ chunkDuration) :
    ∀ (fuel : Nat) (d : Float64) (id : Int) (chunks : List tsChunk),
      d.m.natAbs < 2 ^ 53 → d.toRat < 2 ^ 53 →
      generateChunksLoop64 chunkDuration fuel d id chunks =
        generateChunksLoop chunkDuration fuel d.toRat id chunks := by
  intro fuel
  induction fuel with
  | zero =>
    intro d id chunks _ _
    unfold generateChunksLoop64 generateChunksLoop
    by_cases hp : 0 < d.m
    · rw [if_pos hp, if_pos ((m_pos_iff d).1 hp)]
    · rw [if_neg hp, if_neg (fun h => hp ((m_pos_iff d).2 h))]
  | succ fuel ih =>
    intro d id chunks hdm hd
    unfold generateChunksLoop64 generateChunksLoop
    by_cases hp : 0 < d.m
    · have hpr : 0 < d.toRat := (m_pos_iff d).1 hp
      rw [if_pos hp, if_pos hpr]
      simp only
      by_cases hlt : d.toRat < (chunkDuration : Rat)
      · have hl : Float64.lt d (Float64.ofInt chunkDuration) = true := by
          rw [lt_iff_toRat]
          by_cases hsmall : chunkDuration < 2 ^ 53
          · rw [(ofInt_small chunkDuration hC hsmall).1]; exact hlt
          · exact lt_of_lt_of_le hd (ofInt_large chunkDuration (not_lt.1 hsmall))
        rw [if_pos hl, if_pos hlt]
        have hzero : (d.m * 2 ^ (d.e - min d.e d.e).toNat -
            d.m * 2 ^ (d.e - min d.e d.e).toNat).natAbs < 2 ^ 53 := by simp
        obtain ⟨hv, hm⟩ := sub_exact d d hzero
        rw [ih (Float64.sub d d) _ _ hm (by rw [hv]; linarith), hv]
      · have hsmall : chunkDuration < 2 ^ 53 := by
          have h1 : (chunkDuration : Rat) < 2 ^ 53 := lt_of_le_of_lt (not_lt.1 hlt) hd
          exact_mod_cast h1
        obtain ⟨hsv, hse, hsm, _⟩ := ofInt_small chunkDuration hC hsmall
        have hl : ¬ Float64.lt d (Float64.ofInt chunkDuration) = true := by
          rw [lt_iff_toRat, hsv]; exact hlt
        rw [if_neg hl, if_neg hlt]
        have hb := sub_bound d (Float64.ofInt chunkDuration) hdm hd hse hsm
          (by rw [hsv]; exact not_lt.1 hlt)
        obtain ⟨hv, hm⟩ := sub_exact d (Float64.ofInt chunkDuration) hb
        have hcpos : (0 : Rat) < (chunkDuration : Rat) := by exact_mod_cast hC
        rw [ih (Float64.sub d (Float64.ofInt chunkDuration)) _ _ hm
          (by rw [hv, hsv]; linarith), hv, hsv]
    · rw [if_neg hp, if_neg (fun h => hp ((m_pos_iff d).2 h))]

theorem generateChunks64_step (chunkDuration : Int) (hC : 1 ≤ chunkDuration) (d : Float64)
    (hdm : d.m.natAbs < 2 ^ 53) (hd : d.toRat < 2 ^ 53) (hp : 0 < d.toRat) :
    (if Float64.lt d (Float64.ofInt chunkDuration) then d
      else Float64.ofInt chunkDuration).toRat = min d.toRat (chunkDuration : Rat) ∧
    (Float64.sub d (if Float64.lt d (Float64.ofInt chunkDuration) then d
      else Float64.ofInt chunkDuration)).toRat = d.toRat - min d.toRat (chunkDuration : Rat) ∧
    0 < min d.toRat (chunkDuration : Rat) := by
  have hcpos : (0 : Rat) < (chunkDuration : Rat) := by exact_mod_cast hC
  by_cases hlt : d.toRat < (chunkDuration : Rat)
  · have hl : Float64.lt d (Float64.ofInt chunkDuration) = true := by
      rw [lt_iff_toRat]
      by_cases hsmall : chunkDuration < 2 ^ 53
      · rw [(ofInt_small chunkDuration hC hsmall).1]; exact hlt
      · exact lt_of_lt_of_le hd (ofInt_large chunkDuration (not_lt.1 hsmall))
    have hzero : (d.m * 2 ^ (d.e - min d.e d.e).toNat -
        d.m * 2 ^ (d.e - min d.e d.e).toNat).natAbs < 2 ^ 53 := by simp
    rw [if_pos hl, min_eq_left hlt.le]
    exact ⟨rfl, (sub_exact d d hzero).1, hp⟩
  · have hsmall : chunkDuration < 2 ^ 53 := by
      have h1 : (chunkDuration : Rat) < 2 ^ 53 := lt_of_le_of_lt (not_lt.1 hlt) hd
      exact_mod_cast h1
    obtain ⟨hsv, hse, hsm, _⟩ := ofInt_small chunkDuration hC hsmall
    have hl : ¬ Float64.lt d (Float64.ofInt chunkDuration) = true := by
      rw [lt_iff_toRat, hsv]; exact hlt
    have hb := sub_bound d (Float64.ofInt chunkDuration) hdm hd hse hsm
      (by rw [hsv]; exact not_lt.1 hlt)
    rw [if_neg hl, min_eq_right (not_lt.1 hlt), (sub_exact _ _ hb).1, hsv]
    exact ⟨rfl, rfl, hcpos⟩

theorem generateChunksLoop64_absorbed_60 :
    ∀ (fuel : Nat) (id : Int) (chunks : List tsChunk),
      generateChunksLoop64 6 fuel { m := 1, e := 60 } id chunks = none := by
  have hl : Float64.lt { m := 1, e := 60 } (Float64.ofInt 6) = false := by decide
  have hs : Float64.sub { m := 1, e := 60 } (Float64.ofInt 6) = { m := 1, e := 60 } := by decide
  intro fuel
  induction fuel with
  | zero => intro id chunks; rfl
  | succ fuel ih =>
    intro id chunks
    unfold generateChunksLoop64
    rw [if_pos (by decide)]
    simp only [hl, Bool.false_eq_true, if_false, hs]
    exact ih _ _

theorem generateChunksLoop64_plan_aux (chunkDuration : Int) (hC : 1 ≤ chunkDuration)
    (d : Float64) (hm : d.m.natAbs < 2 ^ 53) (hd : d.toRat < 2 ^ 53) (hp : 0 < d.toRat) :
    ∃ k : Nat, (⌈d.toRat / chunkDuration⌉).toNat = k + 1 ∧
      ∀ fuel, (⌈d.toRat⌉).toNat + 1 ≤ fuel →
        generateChunksLoop64 chunkDuration fuel d 0 [] =
          some (segmentPlan chunkDuration d.toRat 0 (k + 1)) := by
  obtain ⟨k, hk, hlo, hhi, hfuel⟩ := ceil_div_bounds d.toRat chunkDuration hp hC
  refine ⟨k, hk, ?_⟩
  intro fuel hf
  rw [generateChunksLoop64_eq chunkDuration hC fuel d 0 [] hm hd,
    generateChunksLoop_plan _ hC k _ _ 0 [] (by omega) hlo hhi, List.nil_append]

theorem float25 : (Float64.ofInt 25).m.natAbs < 2 ^ 53 ∧ (Float64.ofInt 25).toRat = 25 := by
  have h : Float64.ofInt 25 = { m := 25, e := 0 } := by decide
  rw [h]
  constructor
  · norm_num
  · norm_num [Float64.toRat]

/-- C29, as stated, fails.  For the duration 2^60 and the chunk duration 6, the
`float64` difference `duration - size` is `duration` again: the iteration does not
reduce the remaining duration, and the loop does not end within any number of
iterations. -/
theorem generateChunks_absorbed_counterexample :
    (1 : Int) ≤ 6 ∧
    Float64.sub { m := 1, e := 60 } (Float64.ofInt 6) = { m := 1, e := 60 } ∧
    ¬ ∃ fuel, (generateChunksLoop64 6 fuel { m := 1, e := 60 } 0 []).isSome = true := by
  refine ⟨by decide, by decide, ?_⟩
  rintro ⟨fuel, h⟩
  rw [generateChunksLoop64_absorbed_60] at h
  cases h

/-- C29, amended.  For a chunk duration `C ≥ 1` and a `float64` duration `D` below 2^53
(a significand of at most 53 binary digits), the loop of `generateChunks` ends: it
returns the same list for every bound of at least `⌈D⌉ + 1` iterations, with one record
per iteration, `⌈D / C⌉` of them for `D > 0` and none for `D ≤ 0`.  In this range an
iteration with `D > 0` takes `size = min(D, C) > 0` and leaves exactly `D - size`. -/
theorem generateChunksLoop64_terminates (chunkDuration : Int) (hC : 1 ≤ chunkDuration)
    (d : Float64) (hm : d.m.natAbs < 2 ^ 53) (hd : d.toRat < 2 ^ 53) :
    (∃ l, (∀ fuel, (⌈d.toRat⌉).toNat + 1 ≤ fuel →
        generateChunksLoop64 chunkDuration fuel d 0 [] = some l) ∧
      l.length = (if 0 < d.toRat then (⌈d.toRat / chunkDuration⌉).toNat else 0)) ∧
    (0 < d.toRat →
      (if Float64.lt d (Float64.ofInt chunkDuration) then d
        else Float64.ofInt chunkDuration).toRat = min d.toRat (chunkDuration : Rat) ∧
      (Float64.sub d (if Float64.lt d (Float64.ofInt chunkDuration) then d
        else Float64.ofInt chunkDuration)).toRat = d.toRat - min d.toRat (chunkDuration : Rat) ∧
      0 < min d.toRat (chunkDuration : Rat)) := by
  refine ⟨?_, generateChunks64_step chunkDuration hC d hm hd⟩
  by_cases hp : 0 < d.toRat
  · obtain ⟨k, hk, hplan⟩ := generateChunksLoop64_plan_aux chunkDuration hC d hm hd hp
    refine ⟨_, hplan, ?_⟩
    rw [if_pos hp, hk]
    simp [segmentPlan]
  · refine ⟨[], ?_, by rw [if_neg hp]; rfl⟩
    intro fuel _
    rw [generateChunksLoop64_eq chunkDuration hC fuel d 0 [] hm hd,
      generateChunksLoop_done _ _ _ _ _ (not_lt.1 hp)]

/-- Witness for C29 amended: the duration 25 cut in chunks of 10. -/
theorem generateChunksLoop64_terminates_witness :
    ∃ l, (∀ fuel, (⌈(Float64.ofInt 25).toRat⌉).toNat + 1 ≤ fuel →
        generateChunksLoop64 10 fuel (Float64.ofInt 25) 0 [] = some l) ∧
      l.length =
        (if 0 < (Float64.ofInt 25).toRat then (⌈(Float64.ofInt 25).toRat / (10 : Int)⌉).toNat
          else 0) :=
  (generateChunksLoop64_terminates 10 (by decide) (Float64.ofInt 25) float25.1
    (by rw [float25.2]; norm_num)).1

theorem generateChunksLoop64_absorbed_54 :
    ∀ (fuel : Nat) (id : Int) (chunks : List tsChunk),
      generateChunksLoop64 1 fuel { m := 1, e := 54 } id chunks = none := by
  have hl : Float64.lt { m := 1, e := 54 } (Float64.ofInt 1) = false := by decide
  have hs : Float64.sub { m := 1, e := 54 } (Float64.ofInt 1) = { m := 1, e := 54 } := by decide
  intro fuel
  induction fuel with
  | zero => intro id chunks; rfl
  | succ fuel ih =>
    intro id chunks
    unfold generateChunksLoop64
    rw [if_pos (by decide)]
    simp only [hl, Bool.false_eq_true, if_false, hs]
    exact ih _ _

theorem generateChunksLoop64_25 (fuel : Nat) (hf : 26 ≤ fuel) :
    generateChunksLoop64 10 fuel (Float64.ofInt 25) 0 [] =
      some [{ id := 0, duration := 10 }, { id := 1, duration := 10 }, { id := 2, duration := 5 }] := by
  obtain ⟨f, rfl⟩ : ∃ f, fuel = f + 4 := ⟨fuel - 4, by omega⟩
  rw [generateChunksLoop64_eq 10 (by decide) _ _ 0 [] float25.1 (by rw [float25.2]; norm_num),
    float25.2]
  norm_num [generateChunksLoop]

theorem float25_literal : Float64.ofInt 25 = { m := 25, e := 0 } := by decide

theorem generateChunks_done (s : Stream) (hD : s.probe.Duration.toRat ≤ 0) :
    generateChunks s = some [] := by
  unfold generateChunks generateChunksLoop64
  rw [if_neg (fun h => absurd ((m_pos_iff _).1 h) (not_lt.2 hD))]

theorem generateChunks_eq_plan (s : Stream) (hD : 0 < s.probe.Duration.toRat)
    (hC : 1 ≤ s.context.contextConfig.ChunkDuration)
    (hm : s.probe.Duration.m.natAbs < 2 ^ 53) (hd : s.probe.Duration.toRat < 2 ^ 53) :
    ∃ k : Nat,
      (⌈s.probe.Duration.toRat / s.context.contextConfig.ChunkDuration⌉).toNat = k + 1 ∧
      generateChunks s =
        some (segmentPlan s.context.contextConfig.ChunkDuration s.probe.Duration.toRat 0
          (k + 1)) := by
  obtain ⟨k, hk, hplan⟩ :=
    generateChunksLoop64_plan_aux s.context.contextConfig.ChunkDuration hC s.probe.Duration
      hm hd hD
  exact ⟨k, hk, hplan _ le_rfl⟩

theorem engine_plan (maxBuffer minBuffer : Int) :
    generateChunks (engine maxBuffer minBuffer) =
      some [{ id := 0, duration := 10 }, { id := 1, duration := 10 }, { id := 2, duration := 5 }] := by
  have h := generateChunksLoop64_25 ((Int.toNat ⌈(Float64.ofInt 25).toRat⌉) + 1)
    (by rw [float25.2, show ⌈(25 : ℚ)⌉ = 25 by norm_num]; decide)
  rw [float25_literal] at h
  exact h

/-- C11, as stated, fails.  For the duration `D = 2^54 > 0` and the chunk duration
`C = 1`, the `float64` difference `D - 1` is `D` again, and `generateChunks` returns no
list, whatever the number of iterations it is given. -/
theorem generateChunks_plan_absorbed_counterexample :
    (0 : Rat) < Float64.toRat { m := 1, e := 54 } ∧
    Float64.sub { m := 1, e := 54 } (Float64.ofInt 1) = { m := 1, e := 54 } ∧
    ¬ ∃ fuel l, generateChunksLoop64 1 fuel { m := 1, e := 54 } 0 [] = some l := by
  refine ⟨by norm_num [Float64.toRat], by decide, ?_⟩
  rintro ⟨fuel, l, h⟩
  rw [generateChunksLoop64_absorbed_54] at h
  cases h

/-- C11, amended.  For a `float64` duration `D` with `0 < D < 2^53` (a significand of at
most 53 binary digits) and a chunk duration `C ≥ 1`, `generateChunks` returns (for every
bound of at least `⌈D⌉ + 1` iterations) `n = ⌈D / C⌉` records; the record at position
`i` has id `i` and duration `C`, except the last one, whose duration is
`D - C * (n - 1)`; every duration is positive (no zero-length final segment).  For
`D = 25` and `C = 10` the plan is `[(0, 10), (1, 10), (2, 5)]` and `ChunkLength` is 3. -/
theorem generateChunksLoop64_plan (chunkDuration : Int) (hC : 1 ≤ chunkDuration)
    (d : Float64) (hm : d.m.natAbs < 2 ^ 53) (hd : d.toRat < 2 ^ 53) (hp : 0 < d.toRat) :
    (∃ l, (∀ fuel, (⌈d.toRat⌉).toNat + 1 ≤ fuel →
        generateChunksLoop64 chunkDuration fuel d 0 [] = some l) ∧
      l.length = (⌈d.toRat / chunkDuration⌉).toNat ∧
      (∀ i : Nat, i < (⌈d.toRat / chunkDuration⌉).toNat →
        l[i]? = some
          { id := (i : Int)
            duration :=
              if i + 1 < (⌈d.toRat / chunkDuration⌉).toNat then (chunkDuration : Rat)
              else d.toRat - (chunkDuration : Rat) *
                (((⌈d.toRat / chunkDuration⌉).toNat : Rat) - 1) }) ∧
      (∀ c ∈ l, 0 < c.duration)) ∧
    ((∀ fuel, 26 ≤ fuel → generateChunksLoop64 10 fuel (Float64.ofInt 25) 0 [] =
        some [{ id := 0, duration := 10 }, { id := 1, duration := 10 },
          { id := 2, duration := 5 }]) ∧
      ChunkLength (engine 5 2) = some 3) := by
  refine ⟨?_, generateChunksLoop64_25, by rw [ChunkLength, engine_plan]; rfl⟩
  obtain ⟨k, hk, hplan⟩ := generateChunksLoop64_plan_aux chunkDuration hC d hm hd hp
  obtain ⟨k', hk', hlo, _, _⟩ := ceil_div_bounds d.toRat chunkDuration hp hC
  have hkk : k' = k := by omega
  subst hkk
  have hC1 : (1 : Rat) ≤ chunkDuration := by exact_mod_cast hC
  rw [hk]
  refine ⟨_, hplan, ?_, ?_, ?_⟩
  · simp [segmentPlan]
  · intro i hi
    unfold segmentPlan
    rw [List.getElem?_map, List.getElem?_range hi]
    simp
  · intro c hc
    unfold segmentPlan at hc
    obtain ⟨i, _, rfl⟩ := List.mem_map.1 hc
    simp only
    split_ifs
    · linarith
    · push_cast
      linarith

/-- Witness for C11 amended: the duration 25 cut in chunks of 10. -/
theorem generateChunksLoop64_plan_witness :
    ∃ l, (∀ fuel, (⌈(Float64.ofInt 25).toRat⌉).toNat + 1 ≤ fuel →
        generateChunksLoop64 10 fuel (Float64.ofInt 25) 0 [] = some l) ∧
      l.length = (⌈(Float64.ofInt 25).toRat / (10 : Int)⌉).toNat ∧
      (∀ i : Nat, i < (⌈(Float64.ofInt 25).toRat / (10 : Int)⌉).toNat →
        l[i]? = some
          { id := (i : Int)
            duration :=
              if i + 1 < (⌈(Float64.ofInt 25).toRat / (10 : Int)⌉).toNat then ((10 : Int) : Rat)
              else (Float64.ofInt 25).toRat - ((10 : Int) : Rat) *
                (((⌈(Float64.ofInt 25).toRat / (10 : Int)⌉).toNat : Rat) - 1) }) ∧
      (∀ c ∈ l, 0 < c.duration) :=
  (generateChunksLoop64_plan 10 (by decide) (Float64.ofInt 25) float25.1
    (by rw [float25.2]; norm_num) (by rw [float25.2]; norm_num)).1

/-- C9, as stated, fails.  The plan of a source of 25 seconds with chunks of 10 has 3
segments; `Chunk(3)` on a fresh engine returns no error: it starts a transcoder at
index 3 and waits on a pending record for index 3.  So does `Chunk(1000)`. -/
theorem chunk_past_plan_counterexample :
    ChunkLength (engine 5 2) = some 3 ∧
    (Stream.Chunk (engine 5 2) 100 3 Spawn.ok).2 = Served.wait 0 ∧
    (Stream.Chunk (engine 5 2) 100 3 Spawn.ok).1.cmd = some { pid := 0, index := 3 } ∧
    (Stream.Chunk (engine 5 2) 100 3 Spawn.ok).1.trace = [Effect.start 0 3] ∧
    (Stream.Chunk (engine 5 2) 100 3 Spawn.ok).1.chunks = [(3, 0)] ∧
    (Stream.Chunk (engine 5 2) 100 1000 Spawn.ok).2 = Served.wait 0 ∧
    (Stream.Chunk (engine 5 2) 100 1000 Spawn.ok).1.trace = [Effect.start 0 1000] := by
  refine ⟨?_, rfl, rfl, rfl, rfl, rfl, rfl⟩
  rw [ChunkLength, engine_plan]
  rfl

/-- C9, amended.  On an HLS stream `Chunk(i)` stamps the access time and runs
`serveChunk(i)` for every index, with no comparison against the segment plan; it
returns an error only when launching the transcoder fails. -/
theorem chunk_hls_is_serveChunk (s : Stream) (now index : Int) (sp : Spawn)
    (h : s.format = FormatHLS) :
    Stream.Chunk s now index sp = serveChunk (access s now) index sp ∧
    (sp = Spawn.ok → ∃ c, (Stream.Chunk s now index sp).2 = Served.wait c) := by
  have hne : FormatHLS ≠ FormatMP4 := by decide
  have heq : Stream.Chunk s now index sp = serveChunk (access s now) index sp := by
    simp [Stream.Chunk, access, h, hne]
  refine ⟨heq, ?_⟩
  intro hsp
  subst hsp
  rw [heq]
  by_cases hn : (mapGet (access s now).chunks index).isSome = true ∨
      nearMiss (access s now) index = true
  · rw [serveChunk_of_resident_or_near _ index _ hn]
    unfold waitForChunk
    split
    · exact ⟨_, rfl⟩
    · exact ⟨_, rfl⟩
  · have hm : mapGet (checkGoal (access s now) index).chunks index = none := by
      rw [checkGoal_chunks]
      cases hg : mapGet (access s now).chunks index with
      | none => rfl
      | some a => exact absurd (Or.inl (by simp [hg])) hn
    have hnm : nearMiss (checkGoal (access s now) index) index = false := by
      rw [nearMiss_checkGoal]
      cases hg : nearMiss (access s now) index with
      | false => rfl
      | true => exact absurd (Or.inr hg) hn
    simp only [serveChunk, hm, hnm, restartAtChunk_ok]
    exact ⟨_, rfl⟩

/-- Witness for C9 amended: index 3 on the fresh engine whose plan has 3 segments. -/
theorem chunk_hls_is_serveChunk_witness :
    Stream.Chunk (engine 5 2) 100 3 Spawn.ok = serveChunk (access (engine 5 2) 100) 3 Spawn.ok ∧
    (Spawn.ok = Spawn.ok → ∃ c, (Stream.Chunk (engine 5 2) 100 3 Spawn.ok).2 = Served.wait c) :=
  chunk_hls_is_serveChunk (engine 5 2) 100 3 Spawn.ok rfl

/-- C10.  When `serveChunk` takes the far-miss branch and the transcoder starts, the
state before the wait has `goal = index + MaxBuffer` (the sum of Go `int`, `wrap64`,
which is the exact sum whenever that is in the range of `int`), a process started at
`index`, and a map with exactly one entry: the pending record for `index` (channel
open, empty path), on which the call waits.  The trace ends with the start of the new
process;
before it, the old process (if any) was killed and the file of every record that was
resident was removed; those records are out of the map and hold no file handle. -/
theorem farMiss_restart_state (s : Stream) (index : Int)
    (hmiss : mapGet s.chunks index = none)
    (hfar : ¬ ∃ i, index - 3 ≤ i ∧ i < index ∧ (mapGet s.chunks i).isSome = true) :
    (serveChunk s index Spawn.ok).2 = Served.wait s.heap.length ∧
    (serveChunk s index Spawn.ok).1.goal = wrap64 (index + s.context.contextConfig.MaxBuffer) ∧
    (-2 ^ 63 ≤ index + s.context.contextConfig.MaxBuffer →
      index + s.context.contextConfig.MaxBuffer < 2 ^ 63 →
      (serveChunk s index Spawn.ok).1.goal = index + s.context.contextConfig.MaxBuffer) ∧
    (serveChunk s index Spawn.ok).1.cmd =
      some { pid := s.nextPid, index := index, suspended := false } ∧
    (serveChunk s index Spawn.ok).1.chunks = [(index, s.heap.length)] ∧
    (serveChunk s index Spawn.ok).1.record s.heap.length =
      some { id := index, done := false, path := "", f := false } ∧
    (∃ pre, (serveChunk s index Spawn.ok).1.trace = pre ++ [Effect.start s.nextPid index] ∧
      (∀ c, s.cmd = some c → Effect.kill c.pid ∈ pre) ∧
      (∀ p j, Effect.start p j ∈ pre → Effect.start p j ∈ s.trace) ∧
      ∀ e ∈ s.chunks, ∀ r, s.record e.2 = some r →
        Effect.remove r.path ∈ pre ∧
        mapGet (serveChunk s index Spawn.ok).1.chunks e.1 = none ∧
        (serveChunk s index Spawn.ok).1.record e.2 = some { r with f := false }) := by
  have hm : mapGet (checkGoal s index).chunks index = none := by
    rw [checkGoal_chunks]; exact hmiss
  have hnm : nearMiss (checkGoal s index) index = false := by
    rw [nearMiss_checkGoal]
    cases hg : nearMiss s index with
    | false => rfl
    | true => exact absurd ((nearMiss_iff s index).1 hg) hfar
  have hs : serveChunk s index Spawn.ok =
      restartAtChunk (checkGoal s index) index Spawn.ok := by
    simp only [serveChunk, hm, hnm]
    rfl
  rw [hs, restartAtChunk_ok]
  simp only [checkGoal_heap, checkGoal_context, checkGoal_nextPid]
  have hlen : (stopProcess (checkGoal s index)).heap.length = s.heap.length := by
    rw [stopProcess_heap_length, checkGoal_heap]
  refine ⟨trivial, trivial, fun h1 h2 => wrap64_of_range _ h1 h2, trivial, trivial, ?_, ?_⟩
  · unfold Stream.record
    simp only
    rw [← hlen]
    simp
  · obtain ⟨t, ht, hkind, hrem⟩ := stopProcess_trace (checkGoal s index)
    refine ⟨(stopProcess (checkGoal s index)).trace, rfl, ?_, ?_, ?_⟩
    · intro c hc
      rw [ht, checkGoal_eq]
      simp [hc]
    · intro p j hp
      rw [ht, checkGoal_eq] at hp
      simp only [List.mem_append] at hp
      rcases hp with ((hp | hp) | hp) | hp
      · exact hp
      · cases hcmd : s.cmd with
        | none => rw [hcmd] at hp; simp at hp
        | some c => rw [hcmd] at hp; simp at hp
      · rcases hkind _ hp with ⟨a, ha⟩ | ⟨q, hq⟩
        · cases ha
        · cases hq
      · cases hcmd : s.cmd with
        | none => rw [hcmd] at hp; simp at hp
        | some c => rw [hcmd] at hp; simp at hp
    · intro e he r hr
      have hr1 : (checkGoal s index).record e.2 = some r := by
        unfold Stream.record; rw [checkGoal_heap]; exact hr
      have he1 : e ∈ (checkGoal s index).chunks := by rw [checkGoal_chunks]; exact he
      refine ⟨?_, ?_, ?_⟩
      · rw [ht]
        exact List.mem_append.2 (Or.inl (List.mem_append.2 (Or.inr (hrem e he1 r hr1))))
      · have hne : ¬ index = e.1 := by
          intro hie
          have hsome : (mapGet s.chunks index).isSome = true :=
            (mapGet_isSome_iff s.chunks index).2 (List.mem_map.2 ⟨e, he, hie.symm⟩)
          rw [hmiss] at hsome
          cases hsome
        rw [mapGet_cons, if_neg hne, mapGet_nil]
      · have hlt : e.2 < (stopProcess (checkGoal s index)).heap.length := by
          rw [hlen]
          unfold Stream.record at hr
          rcases Nat.lt_or_ge e.2 s.heap.length with hlt | hge
          · exact hlt
          · rw [List.getElem?_eq_none hge] at hr; cases hr
        have hrec := stopProcess_record (checkGoal s index) e.2
        rw [if_pos (List.mem_map.2 ⟨e, he1, rfl⟩), hr1] at hrec
        unfold Stream.record at hrec ⊢
        simp only
        rw [List.getElem?_append_left hlt, hrec]
        rfl

/-- Witness for C10: the engine holding 10, 11, 12 and the request for index 20; the
records of 10, 11 and 12 are destroyed before the process for index 20 is started. -/
theorem farMiss_restart_state_witness :
    (serveChunk engineAt10 20 Spawn.ok).2 = Served.wait 3 ∧
    (serveChunk engineAt10 20 Spawn.ok).1.goal = 25 ∧
    (serveChunk engineAt10 20 Spawn.ok).1.cmd = some { pid := 1, index := 20, suspended := false } ∧
    (serveChunk engineAt10 20 Spawn.ok).1.chunks = [(20, 3)] ∧
    (serveChunk engineAt10 20 Spawn.ok).1.record 3 =
      some { id := 20, done := false, path := "", f := false } ∧
    (serveChunk engineAt10 20 Spawn.ok).1.trace =
      [Effect.start 0 10, Effect.resume 0, Effect.remove "/tmp/10.ts",
        Effect.remove "/tmp/11.ts", Effect.remove "/tmp/12.ts", Effect.kill 0,
        Effect.start 1 20] ∧
    (∃ pre, (serveChunk engineAt10 20 Spawn.ok).1.trace = pre ++ [Effect.start 1 20] ∧
      (∀ c, engineAt10.cmd = some c → Effect.kill c.pid ∈ pre) ∧
      (∀ p j, Effect.start p j ∈ pre → Effect.start p j ∈ engineAt10.trace) ∧
      ∀ e ∈ engineAt10.chunks, ∀ r, engineAt10.record e.2 = some r →
        Effect.remove r.path ∈ pre ∧
        mapGet (serveChunk engineAt10 20 Spawn.ok).1.chunks e.1 = none ∧
        (serveChunk engineAt10 20 Spawn.ok).1.record e.2 = some { r with f := false }) :=
  ⟨rfl, rfl, rfl, rfl, rfl, rfl,
    (farMiss_restart_state engineAt10 20 (by decide)
      (fun h => absurd ((nearMiss_iff engineAt10 20).2 h) (by decide))).2.2.2.2.2.2⟩

/-! ## The media playlist -/

theorem contentHLSLoop_eq (s : Stream) (gen : Int → Stream → Context → String) :
    ∀ (chunks : List tsChunk) (i : Nat) (buf : String),
      contentHLSLoop s gen i chunks buf = buf ++ concatAll (playlistEntries s gen i chunks) := by
  intro chunks
  induction chunks with
  | nil =>
    intro i buf
    simp [contentHLSLoop, playlistEntries, concatAll]
  | cons c rest ih =>
    intro i buf
    rw [contentHLSLoop, ih, playlistEntries]
    simp only [concatAll, List.foldr_cons, String.append_assoc]

theorem playlistEntries_length (s : Stream) (gen : Int → Stream → Context → String) :
    ∀ (chunks : List tsChunk) (i : Nat), (playlistEntries s gen i chunks).length = chunks.length := by
  intro chunks
  induction chunks with
  | nil => intro i; rfl
  | cons c rest ih => intro i; simp [playlistEntries, ih]

theorem movieStream_plan :
    generateChunks movieStream =
      some [{ id := 0, duration := 10 }, { id := 1, duration := 10 }, { id := 2, duration := 5 }] := by
  have h := generateChunksLoop64_25 ((Int.toNat ⌈(Float64.ofInt 25).toRat⌉) + 1)
    (by rw [float25.2, show ⌈(25 : ℚ)⌉ = 25 by norm_num]; decide)
  rw [float25_literal] at h
  exact h

theorem contentHLS_of_plan (s : Stream) (gen : Int → Stream → Context → String)
    (chunks : List tsChunk) (h : generateChunks s = some chunks) :
    contentHLS s gen =
      some ("#EXTM3U\n" ++ ("#EXT-X-VERSION:4\n" ++ ("#EXT-X-MEDIA-SEQUENCE:0\n" ++
        ("#EXT-X-PLAYLIST-TYPE:VOD\n" ++
        ("#EXT-X-TARGETDURATION:" ++ (toString s.context.contextConfig.ChunkDuration ++ ("\n" ++
        (concatAll (playlistEntries s gen 0 chunks) ++ "#EXT-X-ENDLIST\n")))))))) := by
  unfold contentHLS
  rw [h]
  simp only [Option.map_some', contentHLSLoop_eq, String.append_assoc]

set_option maxRecDepth 100000 in
theorem movieStream_playlist : contentHLS movieStream DefaultTSGenerator = some moviePlaylist := by
  rw [contentHLS_of_plan _ _ _ movieStream_plan]
  decide

set_option maxRecDepth 100000 in
theorem moviePlaylist_lines :
    linesWith "#EXTINF:" moviePlaylist =
      ["#EXTINF:10.000,", "#EXTINF:10.000,", "#EXTINF:5.000,"] := by
  decide

/-- C12.  Whenever the segment plan is produced, `contentHLS` returns the five header
lines, then for each segment of the plan, in order, the line
`#EXTINF:<duration with 3 decimals>,` followed by the text of the generator for its
position, then `#EXT-X-ENDLIST`; there are as many entries as `ChunkLength`.  The plan,
and with it the playlist, is produced for a duration `D ≤ 0`, and for a chunk duration
`C ≥ 1` with a `float64` duration below 2^53 (a significand of at most 53 binary
digits).  For a duration of 25 and chunks of 10 the playlist has the three `#EXTINF`
lines `10.000`, `10.000`, `5.000`.  Outside that range the loop of `generateChunks` may
not end, and then no text is produced: so it is for the duration 2^54 with chunks of
1. -/
theorem contentHLS_text (s : Stream) (gen : Int → Stream → Context → String) :
    (∀ chunks, generateChunks s = some chunks →
      contentHLS s gen =
        some ("#EXTM3U\n" ++ ("#EXT-X-VERSION:4\n" ++ ("#EXT-X-MEDIA-SEQUENCE:0\n" ++
          ("#EXT-X-PLAYLIST-TYPE:VOD\n" ++
          ("#EXT-X-TARGETDURATION:" ++ (toString s.context.contextConfig.ChunkDuration ++ ("\n" ++
          (concatAll (playlistEntries s gen 0 chunks) ++ "#EXT-X-ENDLIST\n")))))))) ∧
      (playlistEntries s gen 0 chunks).length = chunks.length ∧
      ChunkLength s = some (playlistEntries s gen 0 chunks).length) ∧
    (s.probe.Duration.toRat ≤ 0 ∨
        (1 ≤ s.context.contextConfig.ChunkDuration ∧ s.probe.Duration.m.natAbs < 2 ^ 53 ∧
          s.probe.Duration.toRat < 2 ^ 53) →
      ∃ chunks text, generateChunks s = some chunks ∧ contentHLS s gen = some text) ∧
    (contentHLS movieStream DefaultTSGenerator = some moviePlaylist ∧
      ChunkLength movieStream = some 3 ∧
      linesWith "#EXTINF:" moviePlaylist =
        ["#EXTINF:10.000,", "#EXTINF:10.000,", "#EXTINF:5.000,"]) ∧
    contentHLS
      (newStream {} { contextConfig := { Format := FormatHLS, ChunkDuration := 1 } }
        { Duration := { m := 1, e := 54 } }) gen = none := by
  refine ⟨?_, ?_, ⟨?_, ?_, ?_⟩, ?_⟩
  · intro chunks h
    refine ⟨contentHLS_of_plan s gen chunks h, playlistEntries_length s gen chunks 0, ?_⟩
    rw [ChunkLength, h, playlistEntries_length]
    rfl
  · intro h
    have hplan : ∃ chunks, generateChunks s = some chunks := by
      by_cases hD : s.probe.Duration.toRat ≤ 0
      · exact ⟨[], generateChunks_done s hD⟩
      · rcases h with h | ⟨hC, hm, hd⟩
        · exact absurd h hD
        · obtain ⟨k, _, hk⟩ := generateChunks_eq_plan s (not_le.1 hD) hC hm hd
          exact ⟨_, hk⟩
    obtain ⟨chunks, hc⟩ := hplan
    exact ⟨chunks, _, hc, contentHLS_of_plan s gen chunks hc⟩
  · exact movieStream_playlist
  · rw [ChunkLength, movieStream_plan]
    rfl
  · exact moviePlaylist_lines
  · have h : generateChunks
        (newStream {} { contextConfig := { Format := FormatHLS, ChunkDuration := 1 } }
          { Duration := { m := 1, e := 54 } }) = none :=
      generateChunksLoop64_absorbed_54 _ 0 []
    unfold contentHLS
    rw [h]
    rfl

/-- Witness for C12: the playlist of `movieStream`, whose duration 25 is below 2^53. -/
theorem contentHLS_text_witness :
    (contentHLS movieStream DefaultTSGenerator =
        some ("#EXTM3U\n" ++ ("#EXT-X-VERSION:4\n" ++ ("#EXT-X-MEDIA-SEQUENCE:0\n" ++
          ("#EXT-X-PLAYLIST-TYPE:VOD\n" ++
          ("#EXT-X-TARGETDURATION:" ++
          (toString movieStream.context.contextConfig.ChunkDuration ++ ("\n" ++
          (concatAll (playlistEntries movieStream DefaultTSGenerator 0
            [{ id := 0, duration := 10 }, { id := 1, duration := 10 }, { id := 2, duration := 5 }]) ++
            "#EXT-X-ENDLIST\n")))))))) ∧
      (playlistEntries movieStream DefaultTSGenerator 0
        [{ id := 0, duration := 10 }, { id := 1, duration := 10 },
          { id := 2, duration := 5 }]).length = 3 ∧
      ChunkLength movieStream = some (playlistEntries movieStream DefaultTSGenerator 0
        [{ id := 0, duration := 10 }, { id := 1, duration := 10 },
          { id := 2, duration := 5 }]).length) ∧
    ∃ chunks text, generateChunks movieStream = some chunks ∧
      contentHLS movieStream DefaultTSGenerator = some text :=
  ⟨(contentHLS_text movieStream DefaultTSGenerator).1 _ movieStream_plan,
    (contentHLS_text movieStream DefaultTSGenerator).2.1
      (Or.inr ⟨by decide, by decide, by
        show Float64.toRat { m := 25, e := 0 } < 2 ^ 53
        norm_num [Float64.toRat]⟩)⟩

/-! ## Facts about the stderr parser -/

theorem marker_isPrefixOf_append (R : List Char) :
    segmentMarker.isPrefixOf (segmentMarker ++ R) = true := by
  simp [segmentMarker, List.isPrefixOf]

theorem marker_isPrefixOf_glued (Q R : List Char) (hQ : Q ≠ [])
    (h : segmentMarker.isPrefixOf (Q ++ (segmentMarker ++ R)) = true) :
    segmentMarker.isPrefixOf Q = true := by
  rcases Q with _ | ⟨c1, _ | ⟨c2, _ | ⟨c3, _ | ⟨c4, _ | ⟨c5, _ | ⟨c6, _ | ⟨c7, _ | ⟨c8, Q⟩⟩⟩⟩⟩⟩⟩⟩
  · exact absurd rfl hQ
  all_goals simp [segmentMarker, List.isPrefixOf] at h ⊢
  exact h

theorem isPrefixOf_eq_append (sep : List Char) :
    ∀ l : List Char, sep.isPrefixOf l = true → ∃ r, l = sep ++ r := by
  induction sep with
  | nil => intro l _; exact ⟨l, rfl⟩
  | cons a sep ih =>
    intro l h
    cases l with
    | nil => simp [List.isPrefixOf] at h
    | cons b l =>
      simp only [List.isPrefixOf, Bool.and_eq_true, beq_iff_eq] at h
      obtain ⟨r, hr⟩ := ih l h.2
      exact ⟨r, by rw [h.1, hr]; rfl⟩

theorem bytesIndexNat_none_of_absent (sep : List Char) (hsep : sep ≠ []) :
    ∀ l : List Char, ¬ sep <:+: l → bytesIndexNat sep l = none := by
  intro l
  induction l with
  | nil =>
    intro _
    cases sep with
    | nil => exact absurd rfl hsep
    | cons a sep => rfl
  | cons c l ih =>
    intro h
    have h1 : sep.isPrefixOf (c :: l) = false := by
      cases hp : sep.isPrefixOf (c :: l) with
      | false => rfl
      | true =>
        obtain ⟨r, hr⟩ := isPrefixOf_eq_append sep _ hp
        exact absurd ⟨[], r, by rw [hr]; rfl⟩ h
    have h2 : ¬ sep <:+: l := by
      rintro ⟨a, b, hab⟩
      exact h ⟨c :: a, b, by rw [← hab]; rfl⟩
    simp [bytesIndexNat, h1, ih h2]

theorem bytesIndexNat_marker (R : List Char) :
    ∀ P : List Char, bytesIndexNat segmentMarker P = none →
      bytesIndexNat segmentMarker (P ++ (segmentMarker ++ R)) = some P.length := by
  intro P
  induction P with
  | nil =>
    intro _
    have h := marker_isPrefixOf_append R
    cases hm : segmentMarker ++ R with
    | nil => simp [segmentMarker] at hm
    | cons c l =>
      rw [hm] at h
      simp [bytesIndexNat, h]
  | cons c P ih =>
    intro h
    have h1 : segmentMarker.isPrefixOf (c :: P) = false := by
      cases hp : segmentMarker.isPrefixOf (c :: P) with
      | false => rfl
      | true => simp [bytesIndexNat, hp] at h
    have h2 : bytesIndexNat segmentMarker P = none := by
      simpa [bytesIndexNat, h1] using h
    have h3 : segmentMarker.isPrefixOf (c :: P ++ (segmentMarker ++ R)) = false := by
      cases hp : segmentMarker.isPrefixOf (c :: P ++ (segmentMarker ++ R)) with
      | false => rfl
      | true =>
        rw [marker_isPrefixOf_glued (c :: P) R (by simp) hp] at h1
        cases h1
    rw [List.cons_append] at h3 ⊢
    simp [bytesIndexNat, h3, ih h2]

theorem bytesIndexNat_quote (S : List Char) :
    ∀ path : List Char, quoteChar ∉ path →
      bytesIndexNat [quoteChar] (path ++ quoteChar :: S) = some path.length := by
  intro path
  induction path with
  | nil => intro _; simp [bytesIndexNat, List.isPrefixOf]
  | cons c path ih =>
    intro h
    have hc : ¬ quoteChar = c := fun e => h (by rw [e]; exact List.mem_cons_self _ _)
    have hp : quoteChar ∉ path := fun e => h (List.mem_cons_of_mem _ e)
    simp [bytesIndexNat, List.isPrefixOf, hc, ih hp]

theorem stringsSplit_stem (ext : List Char) (hext : stringsSplit '.' ext = [ext]) :
    ∀ stem : List Char, '.' ∉ stem → stringsSplit '.' (stem ++ '.' :: ext) = [stem, ext] := by
  intro stem
  induction stem with
  | nil => intro _; simp [stringsSplit, hext]
  | cons c stem ih =>
    intro h
    have hc : ¬ c = '.' := fun e => h (by rw [e]; exact List.mem_cons_self _ _)
    have hp : '.' ∉ stem := fun e => h (List.mem_cons_of_mem _ e)
    simp [stringsSplit, hc, ih hp]

theorem strconvAtoi_digits (ds : List Char) (hne : ds ≠ [])
    (hdig : ∀ d ∈ ds, d.isDigit = true) (hfit : (decimalValue ds : Int) ≤ 2 ^ 63 - 1) :
    strconvAtoi ds = some (decimalValue ds : Int) := by
  cases ds with
  | nil => exact absurd rfl hne
  | cons d ds =>
    have hd : d.isDigit = true := hdig d (List.mem_cons_self _ _)
    have h1 : ¬ d = '-' := by intro e; rw [e] at hd; revert hd; decide
    have h2 : ¬ d = '+' := by intro e; rw [e] at hd; revert hd; decide
    have hall : (d :: ds).all Char.isDigit = true := List.all_eq_true.2 hdig
    have hlow : -(2 : Int) ^ 63 ≤ (decimalValue (d :: ds) : Int) := by
      have : (0 : Int) ≤ (decimalValue (d :: ds) : Int) := Int.natCast_nonneg _
      omega
    simp only [strconvAtoi, List.head?_cons, Option.some.injEq, h1, h2, or_self, if_false,
      hall, reduceCtorEq, hlow, hfit, and_self, if_true]

theorem decimalValue_foldl (ds : List Char) :
    ∀ a : Nat, ds.foldl (fun a d => 10 * a + digitValue d) a =
      a * 10 ^ ds.length + decimalValue ds := by
  induction ds with
  | nil => intro a; simp [decimalValue]
  | cons d ds ih =>
    intro a
    unfold decimalValue
    rw [List.foldl_cons, List.foldl_cons, ih, ih (10 * 0 + digitValue d), List.length_cons,
      pow_succ]
    ring

theorem decimalValue_cons (d : Char) (ds : List Char) :
    decimalValue (d :: ds) = digitValue d * 10 ^ ds.length + decimalValue ds := by
  unfold decimalValue
  rw [List.foldl_cons, decimalValue_foldl]
  simp [decimalValue]

theorem digitValue_digitChar (k : Nat) (h : k < 10) :
    digitValue (Nat.digitChar k) = k ∧ (Nat.digitChar k).isDigit = true := by
  interval_cases k <;> decide

theorem decimalValue_toDigitsCore :
    ∀ (fuel n : Nat) (ds : List Char), n < fuel →
      decimalValue (Nat.toDigitsCore 10 fuel n ds) = n * 10 ^ ds.length + decimalValue ds := by
  intro fuel
  induction fuel with
  | zero => intro n ds h; omega
  | succ fuel ih =>
    intro n ds h
    unfold Nat.toDigitsCore
    simp only
    have hd := (digitValue_digitChar (n % 10) (Nat.mod_lt _ (by norm_num))).1
    by_cases h0 : n / 10 = 0
    · rw [if_pos h0, decimalValue_cons, hd]
      have : n % 10 = n := by omega
      rw [this]
    · rw [if_neg h0, ih (n / 10) _ (by omega), decimalValue_cons, hd, List.length_cons, pow_succ]
      have hn : n = 10 * (n / 10) + n % 10 := (Nat.div_add_mod n 10).symm
      conv_rhs => rw [hn]
      ring

theorem isDigit_toDigitsCore :
    ∀ (fuel n : Nat) (ds : List Char), (∀ d ∈ ds, d.isDigit = true) →
      (∀ d ∈ Nat.toDigitsCore 10 fuel n ds, d.isDigit = true) ∧
      (ds ≠ [] ∨ 0 < fuel → Nat.toDigitsCore 10 fuel n ds ≠ []) := by
  intro fuel
  induction fuel with
  | zero =>
    intro n ds h
    refine ⟨h, ?_⟩
    rintro (h1 | h1)
    · exact h1
    · omega
  | succ fuel ih =>
    intro n ds h
    unfold Nat.toDigitsCore
    simp only
    have hd := (digitValue_digitChar (n % 10) (Nat.mod_lt _ (by norm_num))).2
    have hall : ∀ d ∈ Nat.digitChar (n % 10) :: ds, d.isDigit = true := by
      intro d hmem
      rcases List.mem_cons.1 hmem with rfl | hmem
      · exact hd
      · exact h d hmem
    by_cases h0 : n / 10 = 0
    · rw [if_pos h0]
      exact ⟨hall, fun _ => by simp⟩
    · rw [if_neg h0]
      exact ⟨(ih (n / 10) _ hall).1, fun _ => (ih (n / 10) _ hall).2 (Or.inl (by simp))⟩

theorem decimalValue_repr (n : Nat) :
    decimalValue (Nat.repr n).toList = n ∧ (∀ d ∈ (Nat.repr n).toList, d.isDigit = true) ∧
    (Nat.repr n).toList ≠ [] := by
  have hr : (Nat.repr n).toList = Nat.toDigitsCore 10 (n + 1) n [] := rfl
  rw [hr]
  refine ⟨?_, (isDigit_toDigitsCore (n + 1) n [] (by simp)).1,
    (isDigit_toDigitsCore (n + 1) n [] (by simp)).2 (Or.inr (by omega))⟩
  rw [decimalValue_toDigitsCore (n + 1) n [] (by omega)]
  simp [decimalValue]

theorem decimalValue_zeros (k : Nat) (ds : List Char) :
    decimalValue (List.replicate k '0' ++ ds) = decimalValue ds := by
  induction k with
  | zero => rfl
  | succ k ih =>
    rw [List.replicate_succ, List.cons_append, decimalValue_cons, ih]
    have : digitValue '0' = 0 := by decide
    rw [this]
    simp

theorem resolveChunkID_marker_line_aux (P path S digits : List Char)
    (hP : ¬ segmentMarker <:+: P) (hq : quoteChar ∉ path)
    (hbase : filepathBase path = digits ++ ".ts".toList)
    (hne : digits ≠ []) (hdig : ∀ d ∈ digits, d.isDigit = true)
    (hfit : (decimalValue digits : Int) ≤ 2 ^ 63 - 1) :
    resolveChunkID (P ++ (segmentMarker ++ quoteChar :: (path ++ quoteChar :: S))) =
        Except.ok ((decimalValue digits : Int), String.mk path, none) := by
  have hidx := bytesIndexNat_marker (quoteChar :: (path ++ quoteChar :: S)) P
    (bytesIndexNat_none_of_absent segmentMarker (by decide) P hP)
  have hdrop : (P ++ (segmentMarker ++ quoteChar :: (path ++ quoteChar :: S))).drop
      (P.length + (segmentMarker.length + 1)) = path ++ quoteChar :: S := by
    rw [List.drop_append]
    rfl
  have hlen : ¬ (P ++ (segmentMarker ++ quoteChar :: (path ++ quoteChar :: S))).length <
      P.length + (segmentMarker.length + 1) := by
    simp only [List.length_append, List.length_cons]
    omega
  have hstop := bytesIndexNat_quote S path hq
  have hdot : '.' ∉ digits := by
    intro h
    have := hdig _ h
    revert this
    decide
  have hsplit : stringsSplit '.' (digits ++ ".ts".toList) = [digits, "ts".toList] :=
    stringsSplit_stem "ts".toList (by decide) digits hdot
  have hatoi := strconvAtoi_digits digits hne hdig hfit
  unfold resolveChunkID
  simp only [bytesIndex, hidx, Int.toNat_ofNat, hdrop, hstop]
  rw [if_neg (by omega), if_neg hlen, if_neg (by omega)]
  simp only [List.take_left', hbase, hsplit]
  simp [hatoi]

/-- C13.  For a line `P ++ "segment:" ++ quote ++ path ++ quote ++ S` in which `P` does
not contain `segment:`, `path` contains no single quote, and the basename of `path` is
the decimal numeral of a natural number `n` that fits an `int` (the digits of `n`,
possibly after leading zeros) followed by `.ts`, `resolveChunkID` returns `n`, the
path, and no error.  The line of the source comment, with `/tmp/0.ts`, yields
`(0, "/tmp/0.ts")`, and a line with `/tmp/seg/12.ts` yields `(12, "/tmp/seg/12.ts")`. -/
theorem resolveChunkID_marker_line (P path S : List Char) (zeros n : Nat)
    (hP : ¬ segmentMarker <:+: P) (hq : quoteChar ∉ path)
    (hbase : filepathBase path =
      List.replicate zeros '0' ++ (Nat.repr n).toList ++ ".ts".toList)
    (hfit : (n : Int) ≤ 2 ^ 63 - 1) :
    resolveChunkID (P ++ (segmentMarker ++ quoteChar :: (path ++ quoteChar :: S))) =
        Except.ok ((n : Int), String.mk path, none) ∧
    resolveChunkID lineSegment0.toList = Except.ok (0, "/tmp/0.ts", none) ∧
    resolveChunkID ("frame=1 segment:\x27/tmp/seg/12.ts\x27 count:12 ended\n").toList =
      Except.ok (12, "/tmp/seg/12.ts", none) := by
  refine ⟨?_, rfl, rfl⟩
  obtain ⟨hval, hdig, hne⟩ := decimalValue_repr n
  have hv : decimalValue (List.replicate zeros '0' ++ (Nat.repr n).toList) = n := by
    rw [decimalValue_zeros, hval]
  have h := resolveChunkID_marker_line_aux P path S
    (List.replicate zeros '0' ++ (Nat.repr n).toList) hP hq hbase
    (by intro h0; exact hne (List.append_eq_nil.1 h0).2)
    (by
      intro d hd
      rcases List.mem_append.1 hd with hd | hd
      · rw [(List.mem_replicate.1 hd).2]; decide
      · exact hdig d hd)
    (by rw [hv]; exact hfit)
  rw [hv] at h
  exact h

/-- Witness for C13: the line `frame=1 segment:'/tmp/seg/012.ts' count:12 ended`, with a
leading zero, yields the id 12. -/
theorem resolveChunkID_marker_line_witness :
    resolveChunkID ("frame=1 ".toList ++ (segmentMarker ++ quoteChar ::
        ("/tmp/seg/012.ts".toList ++ quoteChar :: " count:12 ended\n".toList))) =
      Except.ok (12, String.mk "/tmp/seg/012.ts".toList, none) :=
  (resolveChunkID_marker_line "frame=1 ".toList "/tmp/seg/012.ts".toList
    " count:12 ended\n".toList 1 12
    (by decide) (by decide) (by decide) (by decide)).1

theorem strconvAtoi_range (s : List Char) (v : Int) (h : strconvAtoi s = some v) :
    -(2 : Int) ^ 63 ≤ v ∧ v ≤ (2 : Int) ^ 63 - 1 := by
  unfold strconvAtoi at h
  simp only at h
  split_ifs at h <;> cases h <;> assumption

/-- C14, as stated, fails.  The marker line for the file `-1.ts` resolves to the id `-1`
with the path and no error, and the ingestion of that line creates a record (here at
address 1) with the id `-1`. -/
theorem resolveChunkID_negative_id_counterexample :
    resolveChunkID lineSegmentMinus1.toList = Except.ok (-1, ("/tmp/" ++ "-1.ts"), none) ∧
    ∃ t, monitorChunkLine (serveChunk (engine 5 2) 0 Spawn.ok).1 lineSegmentMinus1.toList =
        Except.ok t ∧
      t.record 1 = some { id := -1, done := true, path := ("/tmp/" ++ "-1.ts") } :=
  ⟨rfl, _, rfl, rfl⟩

/-- C14, amended.  A result of `resolveChunkID` is either the error `ErrNoChunkID` with
id `-1` and empty path, or a path and the integer that `strconv.Atoi` reads from the
stem of the path's basename (the basename splits at exactly one dot): an optionally
signed decimal integer in the range of `int`, not necessarily non-negative. -/
theorem resolveChunkID_result (line : List Char) (id : Int) (segment : String) (e : Option Err)
    (h : resolveChunkID line = Except.ok (id, segment, e)) :
    (e = some Err.ErrNoChunkID ∧ id = -1 ∧ segment = "") ∨
    (e = none ∧ ∃ stem ext, stringsSplit '.' (filepathBase segment.toList) = [stem, ext] ∧
      strconvAtoi stem = some id ∧ -(2 : Int) ^ 63 ≤ id ∧ id ≤ (2 : Int) ^ 63 - 1) := by
  unfold resolveChunkID at h
  simp only at h
  split_ifs at h with h1 h2 h3 h4
  · cases h; exact Or.inl ⟨rfl, rfl, rfl⟩
  · cases h; exact Or.inl ⟨rfl, rfl, rfl⟩
  · cases h; exact Or.inl ⟨rfl, rfl, rfl⟩
  · split at h
    · rename_i i hi
      cases h
      right
      refine ⟨rfl, ?_⟩
      have hlen := not_not.1 h4
      generalize hparts : stringsSplit '.'
        (filepathBase (List.take (bytesIndex (List.drop ((bytesIndex line segmentMarker).toNat +
          (segmentMarker.length + 1)) line) [quoteChar]).toNat
          (List.drop ((bytesIndex line segmentMarker).toNat + (segmentMarker.length + 1)) line)))
        = parts at hi hlen
      rcases parts with _ | ⟨stem, _ | ⟨ext, _ | ⟨x, rest⟩⟩⟩
      · simp at hlen
      · simp at hlen
      · exact ⟨stem, ext, hparts, hi, strconvAtoi_range _ _ hi⟩
      · simp at hlen
    · cases h; exact Or.inl ⟨rfl, rfl, rfl⟩

/-- Witness for C14 amended: the marker line for the file `-1.ts`. -/
theorem resolveChunkID_result_witness :
    ((none : Option Err) = some Err.ErrNoChunkID ∧ (-1 : Int) = -1 ∧ ("/tmp/" ++ "-1.ts") = "") ∨
    ((none : Option Err) = none ∧
      ∃ stem ext, stringsSplit '.' (filepathBase ("/tmp/" ++ "-1.ts").toList) = [stem, ext] ∧
        strconvAtoi stem = some (-1) ∧ -(2 : Int) ^ 63 ≤ -1 ∧ (-1 : Int) ≤ (2 : Int) ^ 63 - 1) :=
  resolveChunkID_result lineSegmentMinus1.toList (-1) ("/tmp/" ++ "-1.ts") none rfl

/-! ## Facts about `adjustSpec` -/

theorem adjustSpec_resize (spec : StreamSpec) (info : ProbeInfo)
    (h1 : ¬ (spec.Force = true ∧ spec.Bitrate > 0))
    (h2 : ¬ (spec.Width = 0 ∧ spec.Height = 0 ∧ spec.Scale.m = 0))
    (h3 : ¬ wrap64 (info.Width * info.Height) = 0) :
    adjustSpec spec info =
      Except.ok
        { evenDims (adjustDims spec info) with
          Bitrate :=
            wrap64 (wrap64 (Int.tdiv
              (wrap64 ((evenDims (adjustDims spec info)).Width *
                (evenDims (adjustDims spec info)).Height))
              (wrap64 (info.Width * info.Height))) * originBitrate info) } := by
  unfold adjustSpec
  rw [if_neg h1, if_neg h2, if_neg h3]

theorem adjustSpec_fixed (s1 : StreamSpec) (info : ProbeInfo)
    (h3 : ¬ wrap64 (info.Width * info.Height) = 0)
    (hs : s1.Scale.m ≠ 0)
    (hW : evenUp (Float64.mul (Float64.ofInt info.Width) s1.Scale).toInt64 = s1.Width)
    (hH : evenUp (Float64.mul (Float64.ofInt info.Height) s1.Scale).toInt64 = s1.Height)
    (hB : wrap64 (wrap64 (Int.tdiv (wrap64 (s1.Width * s1.Height))
        (wrap64 (info.Width * info.Height))) * originBitrate info) = s1.Bitrate) :
    adjustSpec s1 info = Except.ok s1 := by
  by_cases h1 : s1.Force = true ∧ s1.Bitrate > 0
  · unfold adjustSpec
    rw [if_pos h1]
  · have h2 : ¬ (s1.Width = 0 ∧ s1.Height = 0 ∧ s1.Scale.m = 0) := fun h => hs h.2.2
    rw [adjustSpec_resize s1 info h1 h2 h3]
    simp only [adjustDims, evenDims, hs, ne_eq, not_false_eq_true, if_true, hW, hH, hB]

theorem pixels_ne_zero (info : ProbeInfo) (hw : 0 < info.Width) (hh : 0 < info.Height)
    (hp : info.Width * info.Height < 2 ^ 63) :
    ¬ wrap64 (info.Width * info.Height) = 0 := by
  have := Int.mul_pos hw hh
  rw [wrap64_of_range _ (by omega) hp]
  omega

set_option maxRecDepth 100000 in
theorem adjustSpec_wrapped_pixels :
    adjustSpec { Width := 960 } { info1080 with Width := 4294967296, Height := 4294967296 } =
      Except.error Panic.divideByZero := by
  rfl

theorem evenUp_of_range (x : Int) (h1 : -2 ^ 63 ≤ x) (h2 : x < 2 ^ 63 - 1) :
    evenUp x = if Int.tmod x 2 ≠ 0 then x + 1 else x := by
  unfold evenUp
  rw [wrap64_of_range (x + 1) (by omega) (by omega)]

theorem toInt64_of_range (a : Float64) (h1 : -2 ^ 63 ≤ a.toInt) (h2 : a.toInt < 2 ^ 63) :
    a.toInt64 = a.toInt := by
  unfold Float64.toInt64
  rw [if_pos ⟨h1, h2⟩]

set_option maxRecDepth 100000 in
theorem adjustSpec_965 :
    adjustSpec { Width := 965 } info1080 =
        Except.ok { Width := 966, Height := 542, Bitrate := 0,
                    Scale := { m := 4527055875429717, e := -53 } } ∧
    adjustSpec { Width := 966, Height := 542, Bitrate := 0,
                 Scale := { m := 4527055875429717, e := -53 } } info1080 =
        Except.ok { Width := 964, Height := 542, Bitrate := 0,
                    Scale := { m := 4527055875429717, e := -53 } } :=
  ⟨rfl, rfl⟩

/-- C15, as stated, fails.  For the 1920x1080 source the spec `{Width: 965}` is adjusted
to the width 966 with the scale `float64(965) / float64(1920)`; adjusting the result
again computes `int(1920 * scale) = 964` in float64, so the width becomes 964. -/
theorem adjustSpec_idempotent_counterexample :
    ∃ s1 s2, adjustSpec { Width := 965 } info1080 = Except.ok s1 ∧
      adjustSpec s1 info1080 = Except.ok s2 ∧
      s1.Width = 966 ∧ s2.Width = 964 ∧ s2 ≠ s1 :=
  ⟨_, _, adjustSpec_965.1, adjustSpec_965.2, rfl, rfl, by decide⟩

/-- C15, amended.  For a source of positive width and height whose pixel count
`Width * Height` fits an `int` (it is below 2^63), `adjustSpec` returns a spec, and
adjusting that spec again returns it unchanged in each of these cases: the spec has
`Force` and `Bitrate > 0`; it has `Width = Height = 0` and `Scale = 0`; it has
`Scale ≠ 0`; it is given by its width and the float64 round trip
`int(float64(srcWidth) * (float64(Width) / float64(srcWidth)))` has the same even
rounding as `Width` (the quotient being non-zero); or it is given by its height alone
with the same round trip on the height.  Without the bound on the pixel count no spec
need be returned: for a source of 2^32 x 2^32 the pixel count wraps around to 0 and the
division of the bitrate panics. -/
theorem adjustSpec_idempotent_cases (spec : StreamSpec) (info : ProbeInfo)
    (hw : 0 < info.Width) (hh : 0 < info.Height) (hp : info.Width * info.Height < 2 ^ 63)
    (hcase : (spec.Force = true ∧ spec.Bitrate > 0) ∨
      (spec.Width = 0 ∧ spec.Height = 0 ∧ spec.Scale.m = 0) ∨
      spec.Scale.m ≠ 0 ∨
      (spec.Width ≠ 0 ∧
        (Float64.div (Float64.ofInt spec.Width) (Float64.ofInt info.Width)).m ≠ 0 ∧
        evenUp (Float64.mul (Float64.ofInt info.Width)
          (Float64.div (Float64.ofInt spec.Width) (Float64.ofInt info.Width))).toInt64 =
          evenUp spec.Width) ∨
      (spec.Width = 0 ∧ spec.Height ≠ 0 ∧
        (Float64.div (Float64.ofInt spec.Height) (Float64.ofInt info.Height)).m ≠ 0 ∧
        evenUp (Float64.mul (Float64.ofInt info.Height)
          (Float64.div (Float64.ofInt spec.Height) (Float64.ofInt info.Height))).toInt64 =
          evenUp spec.Height)) :
    (∃ s1, adjustSpec spec info = Except.ok s1 ∧ adjustSpec s1 info = Except.ok s1) ∧
    adjustSpec { Width := 960 } { info1080 with Width := 4294967296, Height := 4294967296 } =
      Except.error Panic.divideByZero := by
  refine ⟨?_, adjustSpec_wrapped_pixels⟩
  have h3 := pixels_ne_zero info hw hh hp
  by_cases h1 : spec.Force = true ∧ spec.Bitrate > 0
  · exact ⟨spec, by unfold adjustSpec; rw [if_pos h1], by unfold adjustSpec; rw [if_pos h1]⟩
  by_cases h2 : spec.Width = 0 ∧ spec.Height = 0 ∧ spec.Scale.m = 0
  · exact ⟨spec, by unfold adjustSpec; rw [if_neg h1, if_pos h2],
      by unfold adjustSpec; rw [if_neg h1, if_pos h2]⟩
  refine ⟨_, adjustSpec_resize spec info h1 h2 h3, ?_⟩
  by_cases hs : spec.Scale.m ≠ 0
  · apply adjustSpec_fixed _ info h3 <;> simp [adjustDims, evenDims, hs]
  · have hs0 : spec.Scale.m = 0 := not_not.1 hs
    rcases hcase with hc | hc | hc | ⟨hW, hq, hrt⟩ | ⟨hW0, hH, hq, hrt⟩
    · exact absurd hc h1
    · exact absurd hc h2
    · exact absurd hc hs
    · apply adjustSpec_fixed _ info h3 <;> simp [adjustDims, evenDims, hs0, hW, hq, hrt]
    · apply adjustSpec_fixed _ info h3 <;> simp [adjustDims, evenDims, hs0, hW0, hH, hq, hrt]

theorem evenUp_even (x : Int) : Int.tmod (evenUp x) 2 = 0 := by
  unfold evenUp
  split_ifs with h
  · have h1 : ¬ (2 : Int) ∣ x := fun hd => h (Int.dvd_iff_tmod_eq_zero.1 hd)
    apply Int.dvd_iff_tmod_eq_zero.1
    unfold wrap64
    norm_num
    omega
  · exact not_not.1 h

set_option maxRecDepth 100000 in
theorem adjustSpec_examples :
    adjustSpec { Width := 960 } info1080 =
        Except.ok { Width := 960, Height := 540, Scale := { m := 1, e := -1 }, Bitrate := 0 } ∧
    adjustSpec { Height := 540 } info1080 =
        Except.ok { Width := 960, Height := 540, Scale := { m := 1, e := -1 }, Bitrate := 0 } ∧
    adjustSpec { Width := 961, Height := 541 } info1080 =
        Except.ok { Width := 962, Height := 540, Scale := { m := 1127072719245585, e := -51 },
                    Bitrate := 0 } ∧
    adjustSpec { Width := 112 } info720 =
        Except.ok { Width := 112, Height := 62, Scale := { m := 3152519739159347, e := -55 },
                    Bitrate := 0 } ∧
    adjustSpec { Height := 92 } { info720 with Width := 720, Height := 576 } =
        Except.ok { Width := 114, Height := 92, Scale := { m := 1438649880965575, e := -53 },
                    Bitrate := 0 } ∧
    adjustSpec { Width := 3840 } { info1080 with VideoCodec := "hevc" } =
        Except.ok { Width := 3840, Height := 2160, Scale := { m := 1, e := 1 },
                    Bitrate := 32000000 } :=
  ⟨rfl, rfl, rfl, rfl, rfl, rfl⟩

set_option maxRecDepth 100000 in
theorem roundTrip_960 :
    (960 : Int) ≠ 0 ∧
    (Float64.div (Float64.ofInt 960) (Float64.ofInt info1080.Width)).m ≠ 0 ∧
    evenUp (Float64.mul (Float64.ofInt info1080.Width)
      (Float64.div (Float64.ofInt 960) (Float64.ofInt info1080.Width))).toInt64 = evenUp 960 := by
  decide

/-- Witness for C15 amended: the spec `{Width: 960}` on the 1920x1080 source (the
round trip gives 960 again). -/
theorem adjustSpec_idempotent_cases_witness :
    ∃ s1, adjustSpec { Width := 960 } info1080 = Except.ok s1 ∧
      adjustSpec s1 info1080 = Except.ok s1 :=
  (adjustSpec_idempotent_cases { Width := 960 } info1080 (by decide) (by decide) (by decide)
    (Or.inr (Or.inr (Or.inr (Or.inl roundTrip_960))))).1

/-- C16, as stated, fails.  For the 1280x720 source the spec `{Width: 112}` gets the
height 62, while `evenUp(floor(720 * 112 / 1280)) = evenUp(63) = 64`: the float64 product
`720 * (112 / 1280)` is just below 63.  For a 720x576 source the spec `{Height: 92}` gets
the width 114, while `evenUp(floor(720 * 92 / 576)) = evenUp(115) = 116`. -/
theorem adjustSpec_floor_counterexample :
    (∃ r, adjustSpec { Width := 112 } info720 = Except.ok r ∧ r.Height = 62 ∧
      evenUp (info720.Height * 112 / info720.Width) = 64) ∧
    (∃ r, adjustSpec { Height := 92 } { info720 with Width := 720, Height := 576 } = Except.ok r ∧
      r.Width = 114 ∧ evenUp (720 * 92 / 576) = 116) :=
  ⟨⟨_, adjustSpec_examples.2.2.2.1, rfl, by decide⟩,
    ⟨_, adjustSpec_examples.2.2.2.2.1, rfl, by decide⟩⟩

/-- C16, amended.  For a spec with `Scale = 0` that `adjustSpec` resizes (not `Force`
with `Bitrate > 0`) and a source of positive width and height whose pixel count
`Width * Height` fits an `int` (it is below 2^63): when `Width ≠ 0` the result has
`Width' = evenUp(Width)`, `Scale' = float64(Width) / float64(srcWidth)` and
`Height' = evenUp(int(float64(srcHeight) * Scale'))`, the requested height being ignored;
when `Width = 0` and `Height ≠ 0` it has `Height' = evenUp(Height)`,
`Scale' = float64(Height) / float64(srcHeight)` and
`Width' = evenUp(int(float64(srcWidth) * Scale'))`; the quotient and the product are
rounded float64 operations.  Here `int(x)` is the truncation of `x` when that is within
the range of `int`, and `evenUp(x)` is `x + 1` for an odd `x` and `x` for an even one,
for every `x` of the range of `int` except the odd `2^63 - 1` (where `x + 1` wraps
around).  Both result dimensions are even.  For the 1920x1080 source `{Width: 960}`
gives 960x540 with scale 0.5, `{Height: 540}` gives 960x540 and
`{Width: 961, Height: 541}` gives 962x540.  For a source of 2^32 x 2^32 the pixel count
wraps around to 0 and the division of the bitrate panics. -/
theorem adjustSpec_dimensions (spec : StreamSpec) (info : ProbeInfo)
    (hw : 0 < info.Width) (hh : 0 < info.Height) (hp : info.Width * info.Height < 2 ^ 63)
    (hs : spec.Scale.m = 0) (hgate : ¬ (spec.Force = true ∧ spec.Bitrate > 0)) :
    (spec.Width ≠ 0 → ∃ r, adjustSpec spec info = Except.ok r ∧
      r.Width = evenUp spec.Width ∧
      r.Scale = Float64.div (Float64.ofInt spec.Width) (Float64.ofInt info.Width) ∧
      r.Height = evenUp (Float64.mul (Float64.ofInt info.Height) r.Scale).toInt64 ∧
      Int.tmod r.Width 2 = 0 ∧ Int.tmod r.Height 2 = 0) ∧
    (spec.Width = 0 → spec.Height ≠ 0 → ∃ r, adjustSpec spec info = Except.ok r ∧
      r.Height = evenUp spec.Height ∧
      r.Scale = Float64.div (Float64.ofInt spec.Height) (Float64.ofInt info.Height) ∧
      r.Width = evenUp (Float64.mul (Float64.ofInt info.Width) r.Scale).toInt64 ∧
      Int.tmod r.Width 2 = 0 ∧ Int.tmod r.Height 2 = 0) ∧
    ((∀ x : Int, -2 ^ 63 ≤ x → x < 2 ^ 63 - 1 →
        evenUp x = if Int.tmod x 2 ≠ 0 then x + 1 else x) ∧
      (∀ a : Float64, -2 ^ 63 ≤ a.toInt → a.toInt < 2 ^ 63 → a.toInt64 = a.toInt)) ∧
    (adjustSpec { Width := 960 } info1080 =
        Except.ok { Width := 960, Height := 540, Scale := { m := 1, e := -1 }, Bitrate := 0 } ∧
      adjustSpec { Height := 540 } info1080 =
        Except.ok { Width := 960, Height := 540, Scale := { m := 1, e := -1 }, Bitrate := 0 } ∧
      ∃ r, adjustSpec { Width := 961, Height := 541 } info1080 = Except.ok r ∧
        r.Width = 962 ∧ r.Height = 540) ∧
    adjustSpec { Width := 960 } { info1080 with Width := 4294967296, Height := 4294967296 } =
      Except.error Panic.divideByZero := by
  have h3 := pixels_ne_zero info hw hh hp
  refine ⟨?_, ?_, ⟨evenUp_of_range, toInt64_of_range⟩,
    ⟨adjustSpec_examples.1, adjustSpec_examples.2.1, ⟨_, adjustSpec_examples.2.2.1, rfl, rfl⟩⟩,
    adjustSpec_wrapped_pixels⟩
  · intro hW
    have h2 : ¬ (spec.Width = 0 ∧ spec.Height = 0 ∧ spec.Scale.m = 0) := fun h => hW h.1
    refine ⟨_, adjustSpec_resize spec info hgate h2 h3, ?_, ?_, ?_, ?_, ?_⟩
    · simp [adjustDims, evenDims, hs, hW]
    · simp [adjustDims, evenDims, hs, hW]
    · simp [adjustDims, evenDims, hs, hW]
    · exact evenUp_even _
    · exact evenUp_even _
  · intro hW hH
    have h2 : ¬ (spec.Width = 0 ∧ spec.Height = 0 ∧ spec.Scale.m = 0) := fun h => hH h.2.1
    refine ⟨_, adjustSpec_resize spec info hgate h2 h3, ?_, ?_, ?_, ?_, ?_⟩
    · simp [adjustDims, evenDims, hs, hW, hH]
    · simp [adjustDims, evenDims, hs, hW, hH]
    · simp [adjustDims, evenDims, hs, hW, hH]
    · exact evenUp_even _
    · exact evenUp_even _

/-- Witness for C16 amended: the specs `{Width: 961, Height: 541}` and `{Height: 540}`
on the 1920x1080 source. -/
theorem adjustSpec_dimensions_witness :
    (∃ r, adjustSpec { Width := 961, Height := 541 } info1080 = Except.ok r ∧
      r.Width = evenUp 961 ∧
      r.Scale = Float64.div (Float64.ofInt 961) (Float64.ofInt info1080.Width) ∧
      r.Height = evenUp (Float64.mul (Float64.ofInt info1080.Height) r.Scale).toInt64 ∧
      Int.tmod r.Width 2 = 0 ∧ Int.tmod r.Height 2 = 0) ∧
    (∃ r, adjustSpec { Height := 540 } info1080 = Except.ok r ∧
      r.Height = evenUp 540 ∧
      r.Scale = Float64.div (Float64.ofInt 540) (Float64.ofInt info1080.Height) ∧
      r.Width = evenUp (Float64.mul (Float64.ofInt info1080.Width) r.Scale).toInt64 ∧
      Int.tmod r.Width 2 = 0 ∧ Int.tmod r.Height 2 = 0) :=
  ⟨(adjustSpec_dimensions { Width := 961, Height := 541 } info1080 (by decide) (by decide)
      (by decide) rfl (by decide)).1 (by decide),
    (adjustSpec_dimensions { Height := 540 } info1080 (by decide) (by decide) (by decide) rfl
      (by decide)).2.1 rfl (by decide)⟩

/-- C17: the code at the failing input.  For the h264 source of 1920x1080 at 4,000,000
b/s the spec `{Width: 960}` is adjusted to 960x540 with `Bitrate = 0`: the integer
quotient `(960 * 540) / (1920 * 1080)` is 0 before it is multiplied by the bitrate.  An
upscale to 3840x2160 of a non-h264 source gets `4 * 2 * 4,000,000`. -/
theorem adjustSpec_bitrate_truncated :
    (∃ r, adjustSpec { Width := 960 } info1080 = Except.ok r ∧
      r.Width = 960 ∧ r.Height = 540 ∧ r.Bitrate = 0) ∧
    (∃ r, adjustSpec { Width := 3840 } { info1080 with VideoCodec := "hevc" } = Except.ok r ∧
      r.Width = 3840 ∧ r.Height = 2160 ∧ r.Bitrate = 32000000) :=
  ⟨⟨_, adjustSpec_examples.1, rfl, rfl, rfl⟩,
    ⟨_, adjustSpec_examples.2.2.2.2.2, rfl, rfl, rfl⟩⟩

/-! ## `needTranscode` -/

theorem codecIn_iff (codec : String) (l : List String) : codecIn codec l = true ↔ codec ∈ l := by
  induction l with
  | nil => simp [codecIn]
  | cons c rest ih =>
    unfold codecIn
    by_cases h : c = codec
    · simp [h]
    · have h2 : ¬ codec = c := fun e => h e.symm
      simp [h, h2, ih]

theorem needTranscode_iff (s : Stream) :
    needTranscode s = true ↔
      (s.spec.Force = true ∨ s.spec.Scale.m > 0 ∨
        (s.spec.Width > 0 ∧ s.spec.Width ≠ s.probe.Width) ∨
        (s.spec.Height > 0 ∧ s.spec.Height ≠ s.probe.Height) ∨
        (s.spec.Bitrate > 0 ∧ s.spec.Bitrate ≠ s.bitrate) ∨
        s.probe.VideoCodec ∉ s.context.contextConfig.SupportVideoCodec ∨
        s.probe.AudioCodec ∉ s.context.contextConfig.SupportAudioCodec) := by
  have hv := codecIn_iff s.probe.VideoCodec s.context.contextConfig.SupportVideoCodec
  have ha := codecIn_iff s.probe.AudioCodec s.context.contextConfig.SupportAudioCodec
  unfold needTranscode supportVideoCodec supportAudioCodec
  by_cases h1 : s.spec.Force = true
  · simp [h1]
  by_cases h2 : s.probe.VideoCodec ∈ s.context.contextConfig.SupportVideoCodec
  · by_cases h3 : s.probe.AudioCodec ∈ s.context.contextConfig.SupportAudioCodec
    · simp only [h1, hv.2 h2, ha.2 h3, h2, h3]
      by_cases h4 : s.spec.Width > 0 ∧ s.spec.Width ≠ s.probe.Width
      · simp [h4]
      by_cases h5 : s.spec.Height > 0 ∧ s.spec.Height ≠ s.probe.Height
      · simp [h5]
      by_cases h6 : s.spec.Bitrate > 0 ∧ s.spec.Bitrate ≠ s.bitrate
      · simp [h6]
      by_cases h7 : s.spec.Scale.m > 0
      · simp [h7]
      · simp [h4, h5, h6, h7]
    · have : codecIn s.probe.AudioCodec s.context.contextConfig.SupportAudioCodec = false := by
        cases hc : codecIn s.probe.AudioCodec s.context.contextConfig.SupportAudioCodec with
        | false => rfl
        | true => exact absurd (ha.1 hc) h3
      simp [h1, this, h3]
  · have : codecIn s.probe.VideoCodec s.context.contextConfig.SupportVideoCodec = false := by
      cases hc : codecIn s.probe.VideoCodec s.context.contextConfig.SupportVideoCodec with
      | false => rfl
      | true => exact absurd (hv.1 hc) h2
    simp [h1, this, h2]

/-- C18: the code at the failing input.  The stream built for the spec
`{Bitrate: 4000000}` on an h264/aac source whose video bitrate is 4,000,000, with both
codecs supported, needs no transcoding by the condition of the specification, yet
`needTranscode` returns true: it compares the bitrate of the spec with the field
`bitrate` of the stream, which `newStream` leaves at 0 (for every stream),
instead of the probed bitrate. -/
theorem needTranscode_bitrate_field :
    adjustSpec { Name := "4M", Bitrate := 4000000 } info1080 =
      Except.ok { Name := "4M", Bitrate := 4000000 } ∧
    stream4M.spec.Bitrate = stream4M.probe.VideoBitrate ∧
    ¬ needTranscodeSpec stream4M ∧
    needTranscode stream4M = true ∧
    (∀ spec context info, (newStream spec context info).bitrate = 0) ∧
    (∀ s : Stream, needTranscode s = true ↔
      (s.spec.Force = true ∨ s.spec.Scale.m > 0 ∨
        (s.spec.Width > 0 ∧ s.spec.Width ≠ s.probe.Width) ∨
        (s.spec.Height > 0 ∧ s.spec.Height ≠ s.probe.Height) ∨
        (s.spec.Bitrate > 0 ∧ s.spec.Bitrate ≠ s.bitrate) ∨
        s.probe.VideoCodec ∉ s.context.contextConfig.SupportVideoCodec ∨
        s.probe.AudioCodec ∉ s.context.contextConfig.SupportAudioCodec)) := by
  refine ⟨rfl, rfl, ?_, by decide, fun _ _ _ => rfl, needTranscode_iff⟩
  unfold needTranscodeSpec
  decide

/-! ## The arguments of the transcoder -/

theorem adjacent_of_window (a b : String) (l : List String) (k : Nat)
    (h : (l.drop k).take 2 = [a, b]) : adjacent a b l :=
  ⟨l.take k, (l.drop k).drop 2, by
    rw [← h, List.append_assoc, List.take_append_drop, List.take_append_drop]⟩

theorem adjacent_append (a b : String) (pre l post : List String) (h : adjacent a b l) :
    adjacent a b (pre ++ l ++ post) := by
  obtain ⟨x, y, hxy⟩ := h
  exact ⟨pre ++ x, y ++ post, by rw [← hxy]; simp only [List.append_assoc]⟩

theorem formatTime_parts (seconds : Int) :
    Int.tdiv seconds 3600 * 3600 + Int.tdiv (Int.tmod seconds 3600) 60 * 60 +
      Int.tmod seconds 60 = seconds := by
  have key : ∀ x : Int, 0 ≤ x →
      Int.tdiv x 3600 * 3600 + Int.tdiv (Int.tmod x 3600) 60 * 60 + Int.tmod x 60 = x := by
    intro x hx
    have h0 : (0 : Int) ≤ 3600 := by decide
    have h1 : (0 : Int) ≤ 60 := by decide
    have hm : 0 ≤ x % 3600 := Int.emod_nonneg x (by decide)
    rw [Int.tdiv_eq_ediv hx h0, Int.tmod_eq_emod hx h0, Int.tdiv_eq_ediv hm h1,
      Int.tmod_eq_emod hx h1]
    omega
  have hneg : ∀ a b : Int, (-a).tmod b = -(a.tmod b) := by
    intro a b
    rw [Int.tmod_def, Int.tmod_def, Int.neg_tdiv]
    ring
  rcases le_total 0 seconds with h | h
  · exact key seconds h
  · have hk := key (-seconds) (by omega)
    rw [Int.neg_tdiv, hneg, Int.neg_tdiv, hneg] at hk
    omega

theorem buildFFMpegArgs_hls_eq (s : Stream) (index : Int) (transcode : Bool) :
    buildFFMpegArgs s index transcode FormatHLS false =
      ["-loglevel", "debug", "-noaccurate_seek", "-noautorotate"] ++ (seekArgs s index ++
        ((if (hwAccelOf s).decoderArgs.length ≠ 0 ∧ transcode = true
          then ["-hwaccel"] ++ (hwAccelOf s).decoderArgs else []) ++
        (["-i", s.context.path] ++ (["-y", "-copyts", "-fflags", "+genpts"] ++
        (["-f", "mpegts"] ++ (codecArgs s transcode ++ buildHLSArgs s index transcode)))))) := by
  have hne : ¬ FormatHLS = FormatMP4 := by decide
  unfold buildFFMpegArgs
  simp only [if_true, if_neg hne, Bool.false_eq_true, if_false, List.append_nil,
    List.append_assoc]

theorem buildFFMpegArgs_hls_tail (s : Stream) (index : Int) (transcode : Bool) :
    ∃ pre, buildFFMpegArgs s index transcode FormatHLS false =
      pre ++ buildHLSArgs s index transcode ++ [] := by
  refine ⟨["-loglevel", "debug", "-noaccurate_seek", "-noautorotate"] ++ (seekArgs s index ++
        ((if (hwAccelOf s).decoderArgs.length ≠ 0 ∧ transcode = true
          then ["-hwaccel"] ++ (hwAccelOf s).decoderArgs else []) ++
        (["-i", s.context.path] ++ (["-y", "-copyts", "-fflags", "+genpts"] ++
        (["-f", "mpegts"] ++ codecArgs s transcode))))), ?_⟩
  rw [buildFFMpegArgs_hls_eq]
  simp only [List.append_nil, List.append_assoc]

theorem buildFFMpegArgs_adjacent (s : Stream) (index : Int) (transcode : Bool) (a b : String)
    (k : Nat) (h : ((buildHLSArgs s index transcode).drop k).take 2 = [a, b]) :
    adjacent a b (buildFFMpegArgs s index transcode FormatHLS false) := by
  obtain ⟨pre, hpre⟩ := buildFFMpegArgs_hls_tail s index transcode
  rw [hpre]
  exact adjacent_append a b pre _ [] (adjacent_of_window a b _ k h)

/-- C19, as stated, fails at the index 0: the argv built for the start index 0 has no
`-ss` argument (the seek is appended under `start > 0` only). -/
theorem buildFFMpegArgs_no_seek_counterexample :
    "-ss" ∉ buildFFMpegArgs streamOrigin 0 false FormatHLS false ∧
    "-ss" ∉ buildFFMpegArgs streamOrigin 0 true FormatHLS false := by
  decide

/-- C19, amended.  For an HLS stream and either value of `transcode`, the argv of
`buildFFMpegArgs(index, transcode, "hls", false)` starts with the four logging flags;
for `index > 0` they are followed by `-ss` and `index * ChunkDuration` (the float64
product, printed with 6 decimals), and `-i <source path>` comes later; for `index ≤ 0`
no seek is passed: only the hardware decoder arguments, if any, stand before `-i`.  For
every index the argv contains the adjacent pairs `-f segment`, `-segment_format mpegts`,
`-segment_list <Join(TmpPath, index.m3u8)>`, `-segment_time <formatTime(ChunkDuration)>`,
`-segment_start_number <index>`, `-break_non_keyframes 1`, `-individual_header_trailer 0`,
`-write_header_trailer 0`, the last of them followed by the pattern
`<Join(TmpPath, %d.ts)>`; `formatTime` prints `HH:MM:SS.000` with
`HH * 3600 + MM * 60 + SS = ChunkDuration`. -/
theorem buildFFMpegArgs_hls (s : Stream) (index : Int) (transcode : Bool)
    (hf : s.format = FormatHLS) :
    (0 < index → ∃ mid post, buildFFMpegArgs s index transcode FormatHLS false =
      ["-loglevel", "debug", "-noaccurate_seek", "-noautorotate"] ++
        ["-ss", formatFloat64 6 (Float64.mul (Float64.ofInt index)
          (Float64.ofInt s.context.contextConfig.ChunkDuration))] ++
        mid ++ ["-i", s.context.path] ++ post) ∧
    (index ≤ 0 → ∃ mid post, buildFFMpegArgs s index transcode FormatHLS false =
      ["-loglevel", "debug", "-noaccurate_seek", "-noautorotate"] ++ mid ++
        ["-i", s.context.path] ++ post ∧
      (mid = [] ∨ mid = ["-hwaccel"] ++ (hwAccelOf s).decoderArgs)) ∧
    adjacent "-f" "segment" (buildFFMpegArgs s index transcode FormatHLS false) ∧
    adjacent "-segment_format" "mpegts" (buildFFMpegArgs s index transcode FormatHLS false) ∧
    adjacent "-segment_list" (filepathJoin [s.context.contextConfig.TmpPath, "index.m3u8"])
      (buildFFMpegArgs s index transcode FormatHLS false) ∧
    adjacent "-segment_time" (formatTime s.context.contextConfig.ChunkDuration)
      (buildFFMpegArgs s index transcode FormatHLS false) ∧
    adjacent "-segment_start_number" (toString index)
      (buildFFMpegArgs s index transcode FormatHLS false) ∧
    adjacent "-break_non_keyframes" "1" (buildFFMpegArgs s index transcode FormatHLS false) ∧
    adjacent "-individual_header_trailer" "0"
      (buildFFMpegArgs s index transcode FormatHLS false) ∧
    adjacent "-write_header_trailer" "0" (buildFFMpegArgs s index transcode FormatHLS false) ∧
    adjacent "0" (filepathJoin [s.context.contextConfig.TmpPath, "%d.ts"])
      (buildFFMpegArgs s index transcode FormatHLS false) ∧
    (formatTime s.context.contextConfig.ChunkDuration =
        pad2 (Int.tdiv s.context.contextConfig.ChunkDuration 3600) ++ ":" ++
        pad2 (Int.tdiv (Int.tmod s.context.contextConfig.ChunkDuration 3600) 60) ++ ":" ++
        pad2 (Int.tmod s.context.contextConfig.ChunkDuration 60) ++ ".000" ∧
      Int.tdiv s.context.contextConfig.ChunkDuration 3600 * 3600 +
        Int.tdiv (Int.tmod s.context.contextConfig.ChunkDuration 3600) 60 * 60 +
        Int.tmod s.context.contextConfig.ChunkDuration 60 = s.context.contextConfig.ChunkDuration) := by
  refine ⟨?_, ?_, ?_, ?_, ?_, ?_, ?_, ?_, ?_, ?_, ?_, rfl, formatTime_parts _⟩
  · intro h
    rw [buildFFMpegArgs_hls_eq]
    unfold seekArgs
    rw [if_pos h, if_pos hf]
    exact ⟨if (hwAccelOf s).decoderArgs.length ≠ 0 ∧ transcode = true
        then ["-hwaccel"] ++ (hwAccelOf s).decoderArgs else [],
      ["-y", "-copyts", "-fflags", "+genpts"] ++
        (["-f", "mpegts"] ++ (codecArgs s transcode ++ buildHLSArgs s index transcode)),
      by simp only [List.append_assoc]⟩
  · intro h
    rw [buildFFMpegArgs_hls_eq]
    unfold seekArgs
    rw [if_neg (by omega)]
    refine ⟨if (hwAccelOf s).decoderArgs.length ≠ 0 ∧ transcode = true
        then ["-hwaccel"] ++ (hwAccelOf s).decoderArgs else [],
      ["-y", "-copyts", "-fflags", "+genpts"] ++
        (["-f", "mpegts"] ++ (codecArgs s transcode ++ buildHLSArgs s index transcode)),
      by simp only [List.nil_append, List.append_assoc], ?_⟩
    by_cases hd : (hwAccelOf s).decoderArgs.length ≠ 0 ∧ transcode = true
    · exact Or.inr (if_pos hd)
    · exact Or.inl (if_neg hd)
  · exact buildFFMpegArgs_adjacent s index transcode _ _ 4 rfl
  · exact buildFFMpegArgs_adjacent s index transcode _ _ 6 rfl
  · exact buildFFMpegArgs_adjacent s index transcode _ _ 8 rfl
  · exact buildFFMpegArgs_adjacent s index transcode _ _ 12 rfl
  · exact buildFFMpegArgs_adjacent s index transcode _ _ 14 rfl
  · exact buildFFMpegArgs_adjacent s index transcode _ _ 16 rfl
  · exact buildFFMpegArgs_adjacent s index transcode _ _ 18 rfl
  · exact buildFFMpegArgs_adjacent s index transcode _ _ 20 rfl
  · exact buildFFMpegArgs_adjacent s index transcode _ _ 21 rfl

set_option maxRecDepth 100000 in
theorem streamOrigin_args :
    buildFFMpegArgs streamOrigin 3 false FormatHLS false =
      ["-loglevel", "debug", "-noaccurate_seek", "-noautorotate", "-ss", "30.000000",
        "-i", "/media/movie.mkv", "-y", "-copyts", "-fflags", "+genpts", "-f", "mpegts",
        "-c", "copy", "-max_delay", "5000000", "-avoid_negative_ts", "disabled",
        "-f", "segment", "-segment_format", "mpegts",
        "-segment_list", "/tmp/vod/movie/index.m3u8", "-segment_list_type", "m3u8",
        "-segment_time", "00:00:10.000", "-segment_start_number", "3",
        "-break_non_keyframes", "1", "-individual_header_trailer", "0",
        "-write_header_trailer", "0", "/tmp/vod/movie/%d.ts"] := by
  decide

/-- Witness for C19 amended: the argv of `streamOrigin` for the start index 3,
`-ss 30.000000` standing before `-i /media/movie.mkv`. -/
theorem buildFFMpegArgs_hls_witness :
    (∃ mid post, buildFFMpegArgs streamOrigin 3 false FormatHLS false =
      ["-loglevel", "debug", "-noaccurate_seek", "-noautorotate"] ++
        ["-ss", formatFloat64 6 (Float64.mul (Float64.ofInt 3)
          (Float64.ofInt streamOrigin.context.contextConfig.ChunkDuration))] ++
        mid ++ ["-i", streamOrigin.context.path] ++ post) ∧
    (∃ mid post, buildFFMpegArgs streamOrigin 0 true FormatHLS false =
      ["-loglevel", "debug", "-noaccurate_seek", "-noautorotate"] ++ mid ++
        ["-i", streamOrigin.context.path] ++ post ∧
      (mid = [] ∨ mid = ["-hwaccel"] ++ (hwAccelOf streamOrigin).decoderArgs)) ∧
    buildFFMpegArgs streamOrigin 3 false FormatHLS false =
      ["-loglevel", "debug", "-noaccurate_seek", "-noautorotate", "-ss", "30.000000",
        "-i", "/media/movie.mkv", "-y", "-copyts", "-fflags", "+genpts", "-f", "mpegts",
        "-c", "copy", "-max_delay", "5000000", "-avoid_negative_ts", "disabled",
        "-f", "segment", "-segment_format", "mpegts",
        "-segment_list", "/tmp/vod/movie/index.m3u8", "-segment_list_type", "m3u8",
        "-segment_time", "00:00:10.000", "-segment_start_number", "3",
        "-break_non_keyframes", "1", "-individual_header_trailer", "0",
        "-write_header_trailer", "0", "/tmp/vod/movie/%d.ts"] :=
  ⟨(buildFFMpegArgs_hls streamOrigin 3 false rfl).1 (by decide),
    (buildFFMpegArgs_hls streamOrigin 0 true rfl).2.1 (by decide),
    streamOrigin_args⟩

/-! ## Validation of the configuration -/

theorem valid_hls_iff (c : ContextConfig) (h : c.Format = FormatHLS) :
    ContextConfig.valid (some c) = none ↔
      (c.FFMpegPath ≠ "" ∧ c.FFProbePath ≠ "" ∧ c.ListGenerator = true ∧ c.TSGenerator = true ∧
        c.ChunkDuration ≠ 0 ∧ c.MaxBuffer ≠ 0 ∧ c.MinBuffer ≠ 0 ∧ c.TmpPath ≠ "" ∧
        c.StreamSpec ≠ []) := by
  have hne : ¬ FormatHLS = "" := by decide
  unfold ContextConfig.valid
  simp only [h, hne, true_and, if_false]
  constructor
  · intro hv
    split_ifs at hv with h1 h2 h3 h4 h5 h6 h7 h8
    refine ⟨fun e => h1 (Or.inl e), fun e => h1 (Or.inr e), by simpa using h2, by simpa using h3,
      h4, h5, h6, h7, ?_⟩
    intro e
    exact h8 (by rw [e]; rfl)
  · rintro ⟨h1, h2, h3, h4, h5, h6, h7, h8, h9⟩
    have h9' : ¬ c.StreamSpec.length = 0 := fun e => h9 (List.length_eq_zero.1 e)
    simp [h1, h2, h3, h4, h5, h6, h7, h8, h9']

/-- C20, as stated, fails.  `valid` accepts an HLS configuration with `MinBuffer = -1`
and `MaxBuffer = -5`, and one with `MinBuffer = 5 > MaxBuffer = 2`; so do the checks of
`CreateContext` on a service with the default buffers 10 and 3. -/
theorem valid_buffers_counterexample :
    ContextConfig.valid
      (some { contextH264.contextConfig with MinBuffer := -1, MaxBuffer := -5 }) = none ∧
    ContextConfig.valid
      (some { contextH264.contextConfig with MinBuffer := 5, MaxBuffer := 2 }) = none ∧
    createContextCheck { contextH264.contextConfig with MinBuffer := 3, MaxBuffer := 10 }
      (some { MinBuffer := -1, MaxBuffer := -5 }) = none ∧
    (mergeConfig { contextH264.contextConfig with MinBuffer := 3, MaxBuffer := 10 }
      (some { MinBuffer := -1, MaxBuffer := -5 })).MinBuffer = -1 := by
  decide

/-- C20, amended.  An HLS configuration is accepted by `valid` exactly when both
executable paths are set, both generators are set, `ChunkDuration`, `MaxBuffer` and
`MinBuffer` are different from 0, `TmpPath` is set and `StreamSpec` is not empty; in
particular an accepted configuration has `MinBuffer ≠ 0` and `MaxBuffer ≠ 0`.  With the
earlier fields in order, `MaxBuffer = 0` is rejected with `ErrMaxBuffer` and
`MinBuffer = 0` with `ErrMinBuffer`.  The sign of the buffers and their order are not
checked. -/
theorem valid_hls_buffers (c : ContextConfig) (h : c.Format = FormatHLS) :
    (ContextConfig.valid (some c) = none ↔
      (c.FFMpegPath ≠ "" ∧ c.FFProbePath ≠ "" ∧ c.ListGenerator = true ∧ c.TSGenerator = true ∧
        c.ChunkDuration ≠ 0 ∧ c.MaxBuffer ≠ 0 ∧ c.MinBuffer ≠ 0 ∧ c.TmpPath ≠ "" ∧
        c.StreamSpec ≠ [])) ∧
    (ContextConfig.valid (some c) = none → c.MinBuffer ≠ 0 ∧ c.MaxBuffer ≠ 0) ∧
    (c.FFMpegPath ≠ "" → c.FFProbePath ≠ "" → c.ListGenerator = true → c.TSGenerator = true →
      c.ChunkDuration ≠ 0 →
      (c.MaxBuffer = 0 → ContextConfig.valid (some c) = some Err.ErrMaxBuffer) ∧
      (c.MaxBuffer ≠ 0 → c.MinBuffer = 0 →
        ContextConfig.valid (some c) = some Err.ErrMinBuffer)) := by
  have hne : ¬ FormatHLS = "" := by decide
  refine ⟨valid_hls_iff c h, ?_, ?_⟩
  · intro hv
    have := (valid_hls_iff c h).1 hv
    exact ⟨this.2.2.2.2.2.2.1, this.2.2.2.2.2.1⟩
  · intro h1 h2 h3 h4 h5
    refine ⟨?_, ?_⟩
    · intro h6
      simp [ContextConfig.valid, h, hne, h1, h2, h3, h4, h5, h6]
    · intro h6 h7
      simp [ContextConfig.valid, h, hne, h1, h2, h3, h4, h5, h6, h7]

/-- Witness for C20 amended: the configuration of `contextH264`, and the same with
`MinBuffer = 0`. -/
theorem valid_hls_buffers_witness :
    (ContextConfig.valid (some contextH264.contextConfig) = none →
      contextH264.contextConfig.MinBuffer ≠ 0 ∧ contextH264.contextConfig.MaxBuffer ≠ 0) ∧
    ContextConfig.valid (some contextH264.contextConfig) = none ∧
    ContextConfig.valid (some { contextH264.contextConfig with MinBuffer := 0 }) =
      some Err.ErrMinBuffer :=
  ⟨(valid_hls_buffers contextH264.contextConfig rfl).2.1,
    (valid_hls_buffers contextH264.contextConfig rfl).1.2 (by decide),
    ((valid_hls_buffers { contextH264.contextConfig with MinBuffer := 0 } rfl).2.2
      (by decide) (by decide) rfl rfl (by decide)).2 (by decide) rfl⟩

/-- An empty `StreamSpec` slice that is not nil is kept by `mergeConfig`, and the merged
configuration is refused with `ErrStreamSpec`; a nil slice is replaced by the one of the
service. -/
theorem mergeConfig_empty_streamSpec :
    (mergeConfig serviceHLS
      (some { serviceHLS with StreamSpec := [], StreamSpecAllocated := true })).StreamSpec = [] ∧
    createContextCheck serviceHLS
      (some { serviceHLS with StreamSpec := [], StreamSpecAllocated := true }) =
        some Err.ErrStreamSpec ∧
    (mergeConfig serviceHLS (some { serviceHLS with StreamSpec := [] })).StreamSpec = [Origin] ∧
    createContextCheck serviceHLS (some { serviceHLS with StreamSpec := [] }) = none := by
  decide

/-! ## A failed start, and the eviction pass -/

theorem mapGet_filter_low (m : List (Int × Nat)) (low k : Int) :
    mapGet (m.filter (fun e => !decide (e.1 < low))) k =
      if k < low then none else mapGet m k := by
  induction m with
  | nil => simp [mapGet_nil]
  | cons e m ih =>
    by_cases he : e.1 < low
    · rw [List.filter_cons_of_neg (by simp [he]), ih, mapGet_cons]
      by_cases hk : k < low
      · simp [hk]
      · have : ¬ e.1 = k := by omega
        simp [hk, this]
    · rw [List.filter_cons_of_pos (by simp [he]), mapGet_cons, ih, mapGet_cons]
      by_cases hk : k < low
      · have : ¬ e.1 = k := by omega
        simp [hk, this]
      · simp [hk]

theorem restartAtChunk_startFails (s : Stream) (index : Int) :
    restartAtChunk s index Spawn.startFails =
      ({ stopProcess s with
          goal := wrap64 (index + s.context.contextConfig.MaxBuffer)
          heap := (stopProcess s).heap ++ [{ id := index, done := false, path := "" }]
          chunks := [(index, s.heap.length)] },
        Served.fail Err.start) := by
  simp only [restartAtChunk, stopProcess_chunks, stopProcess_context, stopProcess_heap_length]
  simp [mapSet, mapDelete]

/-- C30.  When the start of the transcoder fails in `restartAtChunk`, the call returns
the start error; no process is recorded and none was started; the map holds one entry,
for `index`, whose record is pending (channel open, no path).  The next `serveChunk`
for `index` finds that record, whatever the operating system would now answer to a
launch: it waits on it and leaves the state as it is (no restart).  On a fresh engine:
the request for index 0 fails with the start error, and the next request for index 0
waits on the record at address 0 with no process. -/
theorem restartAtChunk_failed_start_leaves_pending (s : Stream) (index : Int) (sp : Spawn) :
    (restartAtChunk s index Spawn.startFails).2 = Served.fail Err.start ∧
    (restartAtChunk s index Spawn.startFails).1.cmd = none ∧
    (∀ pid i, Effect.start pid i ∉ newEffects s (restartAtChunk s index Spawn.startFails).1) ∧
    (restartAtChunk s index Spawn.startFails).1.chunks = [(index, s.heap.length)] ∧
    (restartAtChunk s index Spawn.startFails).1.record s.heap.length =
      some { id := index, done := false, path := "" } ∧
    serveChunk (restartAtChunk s index Spawn.startFails).1 index sp =
      ((restartAtChunk s index Spawn.startFails).1, Served.wait s.heap.length) ∧
    (serveChunk (engine 5 2) 0 Spawn.startFails).2 = Served.fail Err.start ∧
    (serveChunk (serveChunk (engine 5 2) 0 Spawn.startFails).1 0 Spawn.ok).2 = Served.wait 0 ∧
    (serveChunk (serveChunk (engine 5 2) 0 Spawn.startFails).1 0 Spawn.ok).1.cmd = none := by
  rw [restartAtChunk_startFails]
  refine ⟨rfl, stopProcess_cmd s, ?_, rfl, ?_, ?_, rfl, rfl, rfl⟩
  · intro pid i hmem
    obtain ⟨t, ht, hfile, _⟩ := stopProcess_trace s
    have hnew : newEffects s
        { stopProcess s with
          goal := wrap64 (index + s.context.contextConfig.MaxBuffer)
          heap := (stopProcess s).heap ++ [{ id := index, done := false, path := "" }]
          chunks := [(index, s.heap.length)] } =
        t ++ (s.cmd.map (fun c => Effect.kill c.pid)).toList :=
      newEffects_append _ _ _ (by simp [ht])
    rw [hnew] at hmem
    rcases List.mem_append.1 hmem with h | h
    · rcases hfile _ h with ⟨a, ha⟩ | ⟨q, hq⟩
      · cases ha
      · cases hq
    · cases hc : s.cmd with
      | none => rw [hc] at h; simp at h
      | some c => rw [hc] at h; simp at h
  · unfold Stream.record
    simp only
    rw [← stopProcess_heap_length s]
    simp
  · have hcmd := stopProcess_cmd s
    simp only [serveChunk, checkGoal, hcmd, stopProcess_context]
    simp [mapGet_cons]

theorem markReady_entry (s s1 : Stream) (id : Int) (segment : String)
    (h : markReady s id segment = Except.ok s1) :
    s1.goal = s.goal ∧ s1.context = s.context ∧ s1.cmd = s.cmd ∧ s1.trace = s.trace ∧
    (∀ k, k ≠ id → mapGet s1.chunks k = mapGet s.chunks k) ∧
    ∃ a r, mapGet s1.chunks id = some a ∧ s1.record a = some r ∧ r.path = segment ∧
      r.done = true := by
  unfold markReady at h
  cases hm : mapGet s.chunks id with
  | none =>
    rw [hm] at h
    cases h
    refine ⟨rfl, rfl, rfl, rfl, ?_, s.heap.length, { id := id, path := segment, done := true },
      ?_, ?_, rfl, rfl⟩
    · intro k hk
      simp only [mapGet_mapSet, if_neg hk]
    · simp only [mapGet_mapSet, if_true]
    · simp [Stream.record]
  | some c =>
    rw [hm] at h
    simp only at h
    cases hr : s.heap[c]? with
    | none => rw [hr] at h; cases h
    | some r =>
      rw [hr] at h
      simp only at h
      split_ifs at h
      cases h
      refine ⟨rfl, rfl, rfl, rfl, fun _ _ => rfl, c, { r with path := segment, done := true },
        hm, ?_, rfl, rfl⟩
      have hc : c < s.heap.length := by
        by_contra hlt
        rw [List.getElem?_eq_none (by omega)] at hr
        cases hr
      simp [Stream.record, hc]

theorem suspendAtGoal_fields (s s2 : Stream) (id : Int) (h : suspendAtGoal s id = Except.ok s2) :
    s2.goal = s.goal ∧ s2.context = s.context ∧ s2.chunks = s.chunks ∧ s2.heap = s.heap ∧
    ∃ l, s2.trace = s.trace ++ l := by
  unfold suspendAtGoal at h
  split_ifs at h
  · cases hc : s.cmd with
    | none => rw [hc] at h; cases h
    | some c =>
      rw [hc] at h
      cases h
      exact ⟨rfl, rfl, rfl, rfl, _, rfl⟩
  · cases h
    exact ⟨rfl, rfl, rfl, rfl, [], by simp⟩

/-- C27.  After an ingestion step for the event `(id, segment)` (marking, suspension
test and eviction pass), with `goal` and `MaxBuffer` as before the step: every id left
in the map is at least `goal - MaxBuffer`; every id below that bound is gone from the
map; the entry of every other id at or above the bound is the one the map had before;
the record of `id` is in the map, fired and with the path `segment`, when `id` is at or
above the bound; and when `id` is below the bound the record just ingested is itself
evicted: its file is removed and the map does not hold it. -/
theorem monitorChunkEvent_eviction_pass (s t : Stream) (id : Int) (segment : String)
    (h : monitorChunkEvent s id segment = Except.ok t) :
    t.goal = s.goal ∧ t.context = s.context ∧
    (∀ r ∈ resident t, r ≥ t.goal - t.context.contextConfig.MaxBuffer) ∧
    (∀ k, k < s.goal - s.context.contextConfig.MaxBuffer → mapGet t.chunks k = none) ∧
    (∀ k, k ≥ s.goal - s.context.contextConfig.MaxBuffer → k ≠ id →
      mapGet t.chunks k = mapGet s.chunks k) ∧
    (id ≥ s.goal - s.context.contextConfig.MaxBuffer →
      ∃ a r, mapGet t.chunks id = some a ∧ t.record a = some r ∧ r.path = segment ∧
        r.done = true) ∧
    (id < s.goal - s.context.contextConfig.MaxBuffer →
      mapGet t.chunks id = none ∧ Effect.remove segment ∈ newEffects s t) := by
  obtain ⟨s1, s2, h1, h2, rfl⟩ := monitorChunkEvent_ok s t id segment h
  obtain ⟨g1, c1, _, t1, hother, a, r, ha, hr, hpath, hdone⟩ := markReady_entry s s1 id segment h1
  obtain ⟨g2, c2, ch2, hp2, l, t2⟩ := suspendAtGoal_fields s1 s2 id h2
  have hg : s2.goal = s.goal := by rw [g2, g1]
  have hc : s2.context = s.context := by rw [c2, c1]
  have hget : ∀ k, mapGet (evict s2).chunks k =
      if k < s.goal - s.context.contextConfig.MaxBuffer then none else mapGet s1.chunks k := by
    intro k
    rw [evict_chunks, mapGet_filter_low, hg, hc, ch2]
  refine ⟨by rw [evict_goal, hg], by rw [evict_context, hc], ?_, ?_, ?_, ?_, ?_⟩
  · intro k hk
    exact evict_lower_bound s2 k hk
  · intro k hk
    rw [hget, if_pos hk]
  · intro k hk hne
    rw [hget, if_neg (by omega), hother k hne]
  · intro hk
    refine ⟨a, if a ∈ (s2.chunks.filter
        (fun e => decide (e.1 < s2.goal - s2.context.contextConfig.MaxBuffer))).map (fun e => e.2)
      then r.Close else r, ?_, ?_, ?_, ?_⟩
    · rw [hget, if_neg (by omega), ha]
    · have hr2 : s2.record a = some r := by
        unfold Stream.record at hr ⊢
        rw [hp2]; exact hr
      rw [evict_record, hr2]
      split_ifs <;> rfl
    · split_ifs <;> simpa [tsChunk.Close] using hpath
    · split_ifs <;> simpa [tsChunk.Close] using hdone
  · intro hk
    refine ⟨by rw [hget, if_pos hk], ?_⟩
    obtain ⟨te, hte, _, hrem⟩ := evict_trace s2
    have hmem : (id, a) ∈ s2.chunks := by rw [ch2]; exact mapGet_mem _ _ _ ha
    have hr2 : s2.record a = some r := by
      unfold Stream.record at hr ⊢
      rw [hp2]; exact hr
    have hin := hrem (id, a) hmem (by rw [hg, hc]; exact hk) r hr2
    rw [hpath] at hin
    rw [newEffects_append s (evict s2) (l ++ te) (by rw [hte, t2, t1, List.append_assoc])]
    exact List.mem_append.2 (Or.inr hin)

/-- Witness for C27: an engine with the fired records 10, 11 and 12 and the goal 20
(bound 15) ingests segment 13, and all four records are evicted; with the goal 15
(bound 10) the four records stay. -/
theorem monitorChunkEvent_eviction_pass_witness :
    ∃ t, monitorChunkEvent { engineAt10 with goal := 20 } 13 "/tmp/13.ts" = Except.ok t ∧
      t.chunks = [] ∧ Effect.remove "/tmp/13.ts" ∈ newEffects { engineAt10 with goal := 20 } t ∧
      (∀ r ∈ resident t, r ≥ t.goal - t.context.contextConfig.MaxBuffer) ∧
      ∃ u, monitorChunkEvent engineAt10 13 "/tmp/13.ts" = Except.ok u ∧
        resident u = [10, 11, 12, 13] :=
  ⟨_, rfl, rfl,
    ((monitorChunkEvent_eviction_pass { engineAt10 with goal := 20 } _ 13 "/tmp/13.ts" rfl).2.2.2.2.2.2
      (by decide)).2,
    (monitorChunkEvent_eviction_pass { engineAt10 with goal := 20 } _ 13 "/tmp/13.ts" rfl).2.2.1,
    _, rfl, rfl⟩

/-! ## The parser on lines that end with a newline -/

theorem bytesIndexNat_some_split (sep : List Char) :
    ∀ (l : List Char) (i : Nat), bytesIndexNat sep l = some i →
      ∃ P R, l = P ++ (sep ++ R) ∧ P.length = i := by
  intro l
  induction l with
  | nil =>
    intro i h
    unfold bytesIndexNat at h
    split_ifs at h with hs
    cases h
    have : sep = [] := by simpa using hs
    exact ⟨[], [], by simp [this], rfl⟩
  | cons c l ih =>
    intro i h
    unfold bytesIndexNat at h
    split_ifs at h with hp
    · cases h
      obtain ⟨r, hr⟩ := isPrefixOf_eq_append sep _ hp
      exact ⟨[], r, by simpa using hr, rfl⟩
    · cases hrec : bytesIndexNat sep l with
      | none => rw [hrec] at h; cases h
      | some j =>
        rw [hrec] at h
        cases h
        obtain ⟨P, R, hl, hlen⟩ := ih j hrec
        exact ⟨c :: P, R, by rw [hl]; rfl, by simp [hlen]⟩

theorem marker_before_newline (line : List Char) (i : Nat)
    (hnl : line.getLast? = some (Char.ofNat 10))
    (h : bytesIndexNat segmentMarker line = some i) :
    i + (segmentMarker.length + 1) ≤ line.length := by
  obtain ⟨P, R, hl, hlen⟩ := bytesIndexNat_some_split segmentMarker line i h
  have hR : R ≠ [] := by
    rintro rfl
    rw [hl, List.append_nil, List.getLast?_append_of_ne_nil _ (by decide)] at hnl
    revert hnl
    decide
  have : 1 ≤ R.length := List.length_pos.2 hR
  rw [hl]
  simp only [List.length_append]
  omega

theorem readLines_newline (stderr : List Char) :
    ∀ acc line, line ∈ readLines acc stderr → line.getLast? = some (Char.ofNat 10) := by
  induction stderr with
  | nil => intro acc line h; simp [readLines] at h
  | cons c cs ih =>
    intro acc line h
    unfold readLines at h
    split_ifs at h with hc
    · rcases List.mem_cons.1 h with h | h
      · rw [h, hc]; simp
      · exact ih _ _ h
    · exact ih _ _ h

theorem resolveChunkID_newline_aux (line : List Char)
    (h : line.getLast? = some (Char.ofNat 10)) :
    (∃ id path, resolveChunkID line = Except.ok (id, path, none) ∧ path ≠ "") ∨
    resolveChunkID line = Except.ok (-1, "", some Err.ErrNoChunkID) := by
  unfold resolveChunkID
  simp only
  cases hidx : bytesIndexNat segmentMarker line with
  | none => right; simp [bytesIndex, hidx]
  | some i =>
    have hlen := marker_before_newline line i h hidx
    have hb : bytesIndex line segmentMarker = (i : Int) := by simp [bytesIndex, hidx]
    rw [hb, if_neg (by omega), Int.toNat_ofNat, if_neg (by omega)]
    split_ifs with h2 h3
    · right; rfl
    · right; rfl
    · generalize hseg : List.take (bytesIndex (List.drop (i + (segmentMarker.length + 1)) line)
        [quoteChar]).toNat (List.drop (i + (segmentMarker.length + 1)) line) = segment
      cases hat : strconvAtoi (stringsSplit '.' (filepathBase segment)).head! with
      | none => right; rfl
      | some v =>
        left
        refine ⟨v, String.mk segment, rfl, ?_⟩
        intro hempty
        have hs : segment = [] := by
          have := congrArg String.data hempty
          simpa using this
        have hnone : strconvAtoi (stringsSplit '.' (filepathBase [])).head! = none := by decide
        rw [hs, hnone] at hat
        cases hat

/-- C28.  For a line that ends with the newline, `resolveChunkID` returns (no slice or
index out of range): either an id and a non-empty path with no error, or
`(-1, "", ErrNoChunkID)`.  Every line that the loop of `monitorChunk` reads from the
transcoder's stderr ends with the newline, so this holds for each of them. -/
theorem resolveChunkID_newline_total (line : List Char)
    (h : line.getLast? = some (Char.ofNat 10)) :
    ((∃ id path, resolveChunkID line = Except.ok (id, path, none) ∧ path ≠ "") ∨
      resolveChunkID line = Except.ok (-1, "", some Err.ErrNoChunkID)) ∧
    ∀ stderr : List Char, ∀ l ∈ readLines [] stderr,
      l.getLast? = some (Char.ofNat 10) ∧
      ((∃ id path, resolveChunkID l = Except.ok (id, path, none) ∧ path ≠ "") ∨
        resolveChunkID l = Except.ok (-1, "", some Err.ErrNoChunkID)) :=
  ⟨resolveChunkID_newline_aux line h, fun stderr l hl =>
    ⟨readLines_newline stderr [] l hl,
      resolveChunkID_newline_aux l (readLines_newline stderr [] l hl)⟩⟩

/-- Witness for C28: the line `segment:` followed by the newline (the marker stands at
the very end) yields `ErrNoChunkID`; the line of the source comment yields a path. -/
theorem resolveChunkID_newline_total_witness :
    ("segment:\n".toList.getLast? = some (Char.ofNat 10) ∧
      resolveChunkID "segment:\n".toList = Except.ok (-1, "", some Err.ErrNoChunkID)) ∧
    ((∃ id path, resolveChunkID lineSegment0.toList = Except.ok (id, path, none) ∧ path ≠ "") ∨
      resolveChunkID lineSegment0.toList = Except.ok (-1, "", some Err.ErrNoChunkID)) :=
  ⟨⟨by decide, rfl⟩, (resolveChunkID_newline_total lineSegment0.toList (by decide)).1⟩

/-! ## The context: creation, content and close -/

set_option maxRecDepth 100000 in
theorem createContext_movie :
    CreateContext serviceHLS "movie" "/media/movie.mkv" (some serviceHLS) (Except.ok info1080)
      0 true true = Except.ok (Except.ok movieContext) := by
  rfl

set_option maxRecDepth 100000 in
theorem movieContext_args :
    buildFFMpegArgs (newStream Origin
        { id := "movie", path := "/media/movie.mkv", lastAccess := 0
          contextConfig := { serviceHLS with TmpPath := "/tmp/vod/movie" } } info1080)
      0 false FormatHLS false =
    ["-loglevel", "debug", "-noaccurate_seek", "-noautorotate", "-i", "/media/movie.mkv",
      "-y", "-copyts", "-fflags", "+genpts", "-f", "mpegts", "-c", "copy",
      "-max_delay", "5000000", "-avoid_negative_ts", "disabled", "-f", "segment",
      "-segment_format", "mpegts", "-segment_list", "/tmp/vod/movie/index.m3u8",
      "-segment_list_type", "m3u8", "-segment_time", "00:00:06.000",
      "-segment_start_number", "0", "-break_non_keyframes", "1",
      "-individual_header_trailer", "0", "-write_header_trailer", "0",
      "/tmp/vod/movie/%d.ts"] := by
  decide

set_option maxRecDepth 100000 in
theorem movieContext_close :
    movieContext.Close =
      Except.ok
        ({ movieContext with
            streams := movieContext.streams.map Stream.Close
            closed := true
            trace := movieContext.trace ++ [ContextEffect.removeAll "/tmp/vod/movie/movie"] },
          none) := by
  rfl

/-- C21: the code at the failing input.  In a service for `mp4` with the spec
`Resolution1080P`, the configuration passes `valid`, and for a source of 1280x720 the
spec does not fit: `CreateContext` returns a context that owns no stream, and `Content`
on it evaluates `c.streams[0]` out of range. -/
theorem createContext_without_stream :
    ContextConfig.valid (some (mergeConfig serviceMP4 none)) = none ∧
    fit Resolution1080P info720 = false ∧
    ∃ c, CreateContext serviceMP4 "clip" "/media/clip.mp4" none (Except.ok info720) 0 true true =
        Except.ok (Except.ok c) ∧
      c.streams = [] ∧
      c.Content 1 DefaultTSGenerator Spawn.ok true = Except.error Panic.indexOutOfRange :=
  ⟨by decide, by decide, _, rfl, rfl, rfl⟩

/-- C22: the code at the failing input.  For the service tmp path `/tmp/vod` and the
context id `movie`, the argv of the context's stream directs the segment files to
`/tmp/vod/movie/%d.ts` and the list to `/tmp/vod/movie/index.m3u8`, while `Close`
removes the directory `/tmp/vod/movie/movie`. -/
theorem close_removes_nested_directory :
    CreateContext serviceHLS "movie" "/media/movie.mkv" (some serviceHLS) (Except.ok info1080)
      0 true true = Except.ok (Except.ok movieContext) ∧
    (∃ s, movieContext.streams = [s] ∧ needTranscode s = false ∧
      adjacent "-segment_list" "/tmp/vod/movie/index.m3u8"
        (buildFFMpegArgs s 0 false FormatHLS false) ∧
      (buildFFMpegArgs s 0 false FormatHLS false).getLast? = some "/tmp/vod/movie/%d.ts") ∧
    ∃ c1, movieContext.Close = Except.ok (c1, none) ∧
      c1.trace.drop movieContext.trace.length = [ContextEffect.removeAll "/tmp/vod/movie/movie"] := by
  refine ⟨createContext_movie, ⟨_, rfl, by decide, ?_, ?_⟩, _, movieContext_close, rfl⟩
  · rw [movieContext_args]
    exact adjacent_of_window _ _ _ 22 rfl
  · rw [movieContext_args]
    rfl

set_option maxRecDepth 100000 in
theorem movieContext_tick :
    checkAliveTick movieContext 3 =
      Except.ok
        { movieContext with
          streams := movieContext.streams.map Stream.Close
          closed := true
          err := some Err.ErrIdleTimeout
          trace := movieContext.trace ++ [ContextEffect.removeAll "/tmp/vod/movie/movie"] } := by
  rfl

/-- C23: the code at the failing input.  The context built by `CreateContext` has its
callback set (`s.stopContext`); `Close` by the user, and `Close` by the idle reaper at
time 3 (idle timeout 2), end with no call of the callback.  With no callback set,
`Close` calls the nil function and panics. -/
theorem close_skips_callback :
    movieContext.onClose = true ∧
    (∃ c1, movieContext.Close = Except.ok (c1, none) ∧ c1.closed = true ∧
      ∀ id reason, ContextEffect.onClose id reason ∉ c1.trace) ∧
    (∃ c2, checkAliveTick movieContext 3 = Except.ok c2 ∧ c2.closed = true ∧
      ∀ id reason, ContextEffect.onClose id reason ∉ c2.trace) ∧
    ContextState.Close { movieContext with onClose := false } =
      Except.error Panic.nilDereference := by
  refine ⟨rfl, ⟨_, movieContext_close, rfl, ?_⟩, ⟨_, movieContext_tick, rfl, ?_⟩, rfl⟩
  · intro id reason h
    simp [movieContext] at h
  · intro id reason h
    simp [movieContext] at h

/-- C26: the code at the failing input.  `supportedFormat` accepts exactly `hls`, `mp4`
and `ts`, and `CreateContext` builds a context for the format `ts`; `Content` of its
stream, and of the context, fails with `ErrInvalidFormat`. -/
theorem content_ts_invalid_format :
    (∀ format, supportedFormat format = true ↔
      (format = "hls" ∨ format = "mp4" ∨ format = "ts")) ∧
    ∃ c s, CreateContext serviceTS "movie" "/media/movie.mkv" none (Except.ok info1080)
        0 true true = Except.ok (Except.ok c) ∧
      c.streams = [s] ∧ s.format = FormatTS ∧
      (∀ sp opened, Stream.Content s DefaultTSGenerator sp opened =
        some (Except.error Err.ErrInvalidFormat)) ∧
      ∀ sp opened, (c.Content 1 DefaultTSGenerator sp opened).map (fun r => r.2) =
        Except.ok (some (Except.error Err.ErrInvalidFormat)) := by
  refine ⟨?_, _, _, rfl, rfl, rfl, ?_, ?_⟩
  · intro format
    simp only [supportedFormat, FormatMP4, FormatHLS, FormatTS, Bool.or_eq_true,
      decide_eq_true_eq]
    tauto
  · intro sp opened
    rfl
  · intro sp opened
    rfl

theorem close_of_closed (c : ContextState) (h : c.closed = true) :
    c.Close = Except.ok (c, c.err) := by
  simp [ContextState.Close, h]

theorem close_of_open (c : ContextState) (h : c.closed = false) (hcb : c.onClose = true) :
    c.Close =
      Except.ok
        ({ c with
            streams := c.streams.map Stream.Close
            closed := true
            trace := c.trace ++
              [ContextEffect.removeAll (filepathJoin [c.contextConfig.TmpPath, c.id])] },
          none) := by
  simp [ContextState.Close, h, hcb]

theorem close_stops_streams (l : List Stream) :
    ∀ s ∈ l.map Stream.Close, s.cmd = none ∧ s.chunks = [] := by
  intro s hs
  obtain ⟨s0, _, rfl⟩ := List.mem_map.1 hs
  exact ⟨stopProcess_cmd s0, stopProcess_chunks s0⟩

theorem newContext_fields (id path : String) (config : ContextConfig) (info : ProbeInfo)
    (onClose : Bool) (now : Int) (mkdir : Bool) (c : ContextState)
    (h : newContext id path config info onClose now mkdir = Except.ok (Except.ok c)) :
    c.id = id ∧ c.contextConfig = config ∧ c.onClose = onClose ∧ c.closed = false ∧
    c.err = none ∧ c.lastAccess = now ∧
    newContextStreams { id := id, contextConfig := config, path := path, lastAccess := now }
      info config.StreamSpec = Except.ok c.streams ∧
    (ContextEffect.goCheckAlive ∈ c.trace ↔
      (config.Format = FormatHLS ∧ config.IdleTimeout > 0)) := by
  unfold newContext at h
  simp only at h
  by_cases h1 : config.Format = FormatHLS ∧ mkdir = false
  · rw [if_pos h1] at h; cases h
  · rw [if_neg h1] at h
    split at h
    · cases h
    · rename_i streams hs
      simp only [Except.ok.injEq] at h
      subst h
      refine ⟨rfl, rfl, rfl, rfl, rfl, rfl, hs, ?_⟩
      by_cases hf : config.Format = FormatHLS <;> by_cases ht : config.IdleTimeout > 0 <;>
        simp [hf, ht]

theorem createContext_fields (sc : ContextConfig) (id path : String)
    (config : Option ContextConfig) (probe : Except Err ProbeInfo) (now : Int)
    (mkdir1 mkdir2 : Bool) (c : ContextState)
    (h : CreateContext sc id path config probe now mkdir1 mkdir2 = Except.ok (Except.ok c)) :
    c.onClose = true ∧ c.closed = false ∧ c.err = none ∧
    (ContextEffect.goCheckAlive ∈ c.trace ↔
      (c.contextConfig.Format = FormatHLS ∧ c.contextConfig.IdleTimeout > 0)) := by
  unfold CreateContext at h
  simp only at h
  split at h
  · cases h
  · by_cases hf : supportedFormat (mergeConfig sc config).Format = false
    · rw [if_pos hf] at h; cases h
    · rw [if_neg hf] at h
      split at h
      · cases h
      · by_cases hm : mkdir1 = false
        · rw [if_pos hm] at h; cases h
        · rw [if_neg hm] at h
          split at h
          · rename_i c0 hc0
            simp only [Except.ok.injEq] at h
            subst h
            obtain ⟨_, hcfg, hcb, hcl, herr, _, _, hgo⟩ := newContext_fields _ _ _ _ _ _ _ _ hc0
            refine ⟨hcb, hcl, herr, ?_⟩
            simp only [List.mem_append, List.mem_cons, reduceCtorEq, List.mem_singleton,
              List.not_mem_nil, or_self, false_or, hcfg]
            exact hgo
          · rename_i r hr
            exact absurd h (hr c)

/-- C24, as stated, fails.  In the state in which the idle reaper has recorded its error
(and is about to close), the first `Close` returns nil and the second one, on the state
that the first one left, returns `ErrIdleTimeout`. -/
theorem close_twice_counterexample :
    ∃ c1 e1 e2,
      ContextState.Close { movieContext with err := some Err.ErrIdleTimeout } =
        Except.ok (c1, e1) ∧
      c1.Close = Except.ok (c1, e2) ∧ e1 = none ∧ e2 = some Err.ErrIdleTimeout ∧ e1 ≠ e2 :=
  ⟨_, _, _, close_of_open _ rfl rfl, close_of_closed _ rfl, rfl, rfl, by decide⟩

/-- C24, amended.  On a context that is closed already, or whose callback is set, `Close`
returns and leaves the context closed; a second `Close` changes nothing and returns the
recorded error `c.err`, which the first one did not change.  The first `Close` of an
open context stops every stream (no process, empty map) and returns nil.  So the two
calls leave the same state, and they return the same error value exactly when the
context was closed already or no error is recorded. -/
theorem close_twice_same_state (c : ContextState) (h : c.closed = true ∨ c.onClose = true) :
    ∃ c1 e1, c.Close = Except.ok (c1, e1) ∧
      c1.Close = Except.ok (c1, c1.err) ∧
      c1.closed = true ∧ c1.err = c.err ∧
      e1 = (if c.closed then c.err else none) ∧
      (c.closed = false → ∀ s ∈ c1.streams, s.cmd = none ∧ s.chunks = []) ∧
      (e1 = c1.err ↔ (c.closed = true ∨ c.err = none)) := by
  cases hcl : c.closed with
  | true =>
    refine ⟨c, c.err, close_of_closed c hcl, close_of_closed c hcl, hcl, rfl, by simp, ?_, ?_⟩
    · intro hf; cases hf
    · simp
  | false =>
    have hcb : c.onClose = true := by
      rcases h with h | h
      · rw [hcl] at h; cases h
      · exact h
    refine ⟨_, none, close_of_open c hcl hcb, close_of_closed _ rfl, rfl, rfl, by simp, ?_, ?_⟩
    · intro _
      exact close_stops_streams c.streams
    · simp only [Bool.false_eq_true, false_or]
      exact ⟨fun e => e.symm, fun e => e.symm⟩

/-- Witness for C24 amended: the context `movie`, closed by its user and closed again. -/
theorem close_twice_same_state_witness :
    ∃ c1 e1, movieContext.Close = Except.ok (c1, e1) ∧
      c1.Close = Except.ok (c1, c1.err) ∧
      c1.closed = true ∧ c1.err = movieContext.err ∧
      e1 = (if movieContext.closed then movieContext.err else none) ∧
      (movieContext.closed = false → ∀ s ∈ c1.streams, s.cmd = none ∧ s.chunks = []) ∧
      (e1 = c1.err ↔ (movieContext.closed = true ∨ movieContext.err = none)) :=
  close_twice_same_state movieContext (Or.inr rfl)

/-- C25.  On an open context whose callback is set (every context that `CreateContext`
builds is open, with the callback `s.stopContext`, and has the reaper running exactly
when its format is HLS and `IdleTimeout > 0`), a tick of the reaper at time `now`
returns; the context is closed after the tick exactly when
`now - lastAccess > IdleTimeout`, and is unchanged otherwise.  Once the reaper has
closed it, the recorded error is `ErrIdleTimeout`, every stream is stopped, and `Close`
returns `ErrIdleTimeout` and leaves the state as it is, so every later `Close` does. -/
theorem checkAliveTick_closes_idle (c : ContextState) (now : Int) (hopen : c.closed = false)
    (hcb : c.onClose = true) :
    (∃ c1, checkAliveTick c now = Except.ok c1 ∧
      (c1.closed = true ↔ now - c.lastAccess > c.contextConfig.IdleTimeout) ∧
      (¬ now - c.lastAccess > c.contextConfig.IdleTimeout → c1 = c) ∧
      (c1.closed = true →
        c1.err = some Err.ErrIdleTimeout ∧ (∀ s ∈ c1.streams, s.cmd = none ∧ s.chunks = []) ∧
        c1.Close = Except.ok (c1, some Err.ErrIdleTimeout))) ∧
    (∀ c2 : ContextState, c2.closed = true → c2.err = some Err.ErrIdleTimeout →
      c2.Close = Except.ok (c2, some Err.ErrIdleTimeout)) ∧
    (∀ sc id path config probe t mkdir1 mkdir2 c0,
      CreateContext sc id path config probe t mkdir1 mkdir2 = Except.ok (Except.ok c0) →
      c0.onClose = true ∧ c0.closed = false ∧ c0.err = none ∧
      (ContextEffect.goCheckAlive ∈ c0.trace ↔
        (c0.contextConfig.Format = FormatHLS ∧ c0.contextConfig.IdleTimeout > 0))) := by
  have hlater : ∀ c2 : ContextState, c2.closed = true → c2.err = some Err.ErrIdleTimeout →
      c2.Close = Except.ok (c2, some Err.ErrIdleTimeout) := by
    intro c2 h2 he
    rw [close_of_closed c2 h2, he]
  refine ⟨?_, hlater, fun sc id path config probe t m1 m2 c0 h0 =>
    createContext_fields sc id path config probe t m1 m2 c0 h0⟩
  by_cases hidle : now - c.lastAccess > c.contextConfig.IdleTimeout
  · have hclose := close_of_open { c with err := some Err.ErrIdleTimeout } hopen hcb
    refine ⟨{ c with
        err := some Err.ErrIdleTimeout
        streams := c.streams.map Stream.Close
        closed := true
        trace := c.trace ++
          [ContextEffect.removeAll (filepathJoin [c.contextConfig.TmpPath, c.id])] },
      by unfold checkAliveTick; rw [if_pos hidle, hclose], ?_, ?_, ?_⟩
    · simp [hidle]
    · intro hn; exact absurd hidle hn
    · intro _
      exact ⟨rfl, close_stops_streams c.streams, hlater _ rfl rfl⟩
  · refine ⟨c, by unfold checkAliveTick; rw [if_neg hidle], ?_, fun _ => rfl, ?_⟩
    · simp [hidle, hopen]
    · intro hc; rw [hopen] at hc; cases hc

/-- Witness for C25: the context `movie` (idle timeout 2, last access at 0) is left open
by the tick at time 2 and closed by the tick at time 3. -/
theorem checkAliveTick_closes_idle_witness :
    (∃ c1, checkAliveTick movieContext 3 = Except.ok c1 ∧ c1.closed = true ∧
      c1.Close = Except.ok (c1, some Err.ErrIdleTimeout)) ∧
    checkAliveTick movieContext 2 = Except.ok movieContext ∧
    ∃ c1, checkAliveTick movieContext 3 = Except.ok c1 ∧
      (c1.closed = true ↔
        3 - movieContext.lastAccess > movieContext.contextConfig.IdleTimeout) ∧
      (¬ 3 - movieContext.lastAccess > movieContext.contextConfig.IdleTimeout →
        c1 = movieContext) ∧
      (c1.closed = true →
        c1.err = some Err.ErrIdleTimeout ∧ (∀ s ∈ c1.streams, s.cmd = none ∧ s.chunks = []) ∧
        c1.Close = Except.ok (c1, some Err.ErrIdleTimeout)) :=
  ⟨⟨_, movieContext_tick, rfl, close_of_closed _ rfl⟩, rfl,
    (checkAliveTick_closes_idle movieContext 3 rfl rfl).1⟩

end Vod
